import Mathlib

/-!
# The path sampler and the triangle mesh of `pt` (`pt/sampler.go`, `pt/mesh.go`)

A shallow embedding of `DefaultSampler.Sample`, `DefaultSampler.sample` and
`DefaultSampler.directLight`, and of the operations of `Mesh`.

Conventions of the embedding.

* `float64` values are rational numbers and the arithmetic on them is exact.
  The functions of Go's `math` package are fields of `Env`.
* `int` values are `Int`.  `int(math.Sqrt(float64(samples)))` is the integer
  square root of `samples` (the correctly rounded square root of an integer
  below `2^52` truncates to it); for a negative `samples` Go's conversion of
  NaN is implementation specific and the embedding takes `0`.
* The passed random source `rnd *rand.Rand` is a value of an arbitrary type
  `Rng`; the process-global generator of `math/rand` is a value of an arbitrary
  type `Glob`.  Both are threaded through the computation in `St`.
* Shapes are references (`Sh`), compared by identity.
* `St.log` records, in order, every call the sampler makes to a collaborator
  and every recursive call.  It is a ghost trace: no branch of the code reads it.
* A result `none` means that the code produces no value: the rejection loop of
  `directLight` did not accept within `fuel` iterations, or an index was out
  of range.
* A mesh is a value; a method that mutates its receiver returns the new mesh.
  The triangles of `m.Triangles` are pairwise distinct references, a Go map
  keyed by `Vector` is a function into `Option`, and the compiled structure
  `m.mesh` is the list of vertex triples it was built from.
-/

namespace pt

/-! ## Numeric utility layer -/

/-- Modelled from the spec: the type `Vector` (three `float64` components) is
declared outside the given sources. -/
structure Vector where
  X : ℚ
  Y : ℚ
  Z : ℚ
deriving DecidableEq

/-- Modelled from the spec: the type `Color`, an additive RGB triple, is
declared outside the given sources. -/
structure Color where
  R : ℚ
  G : ℚ
  B : ℚ
deriving DecidableEq

/-- Modelled from the spec: the type `Ray` (origin and direction) is declared
outside the given sources. -/
structure Ray where
  Origin : Vector
  Direction : Vector
deriving DecidableEq

/-- Modelled from the spec: the type `Box` (two corners) is declared outside
the given sources. -/
structure Box where
  Min : Vector
  Max : Vector
deriving DecidableEq

/-- Modelled from the spec: the type `Material` is declared outside the given
sources; the fields are those of the spec's data model. -/
structure Material where
  Color : Color
  Emittance : ℚ
  Index : ℚ
  Transparency : ℚ
  Reflectivity : ℚ
  Gloss : ℚ
  Tint : ℚ
deriving DecidableEq

/-- The zero value `Color{}`. -/
def Color.zero : Color := ⟨0, 0, 0⟩

/-- Modelled from the spec: `Color.Add`, componentwise addition. -/
def Color.Add (a b : Color) : Color := ⟨a.R + b.R, a.G + b.G, a.B + b.B⟩

/-- Modelled from the spec: `Color.Mul`, componentwise multiplication. -/
def Color.Mul (a b : Color) : Color := ⟨a.R * b.R, a.G * b.G, a.B * b.B⟩

/-- Modelled from the spec: `Color.MulScalar`, scaling. -/
def Color.MulScalar (a : Color) (b : ℚ) : Color := ⟨a.R * b, a.G * b, a.B * b⟩

/-- Modelled from the spec: `Color.DivScalar`, division of every component. -/
def Color.DivScalar (a : Color) (b : ℚ) : Color := ⟨a.R / b, a.G / b, a.B / b⟩

/-- Modelled from the spec: `Color.Mix`, the linear mix `a*(1-pct) + b*pct`. -/
def Color.Mix (a b : Color) (pct : ℚ) : Color :=
  (a.MulScalar (1 - pct)).Add (b.MulScalar pct)

/-- Every component is non-negative. -/
def Color.NonNeg (c : Color) : Prop := 0 ≤ c.R ∧ 0 ≤ c.G ∧ 0 ≤ c.B

instance (c : Color) : Decidable c.NonNeg := by
  unfold Color.NonNeg; infer_instance

/-- The zero value `Vector{}`. -/
def Vector.zero : Vector := ⟨0, 0, 0⟩

/-- Modelled from the spec: `Vector.Add`. -/
def Vector.Add (a b : Vector) : Vector := ⟨a.X + b.X, a.Y + b.Y, a.Z + b.Z⟩

/-- Modelled from the spec: `Vector.Sub`. -/
def Vector.Sub (a b : Vector) : Vector := ⟨a.X - b.X, a.Y - b.Y, a.Z - b.Z⟩

/-- Modelled from the spec: `Vector.MulScalar`. -/
def Vector.MulScalar (a : Vector) (b : ℚ) : Vector := ⟨a.X * b, a.Y * b, a.Z * b⟩

/-- Modelled from the spec: `Vector.Dot`. -/
def Vector.Dot (a b : Vector) : ℚ := a.X * b.X + a.Y * b.Y + a.Z * b.Z

/-- Modelled from the spec: `Vector.Cross`. -/
def Vector.Cross (a b : Vector) : Vector :=
  ⟨a.Y * b.Z - a.Z * b.Y, a.Z * b.X - a.X * b.Z, a.X * b.Y - a.Y * b.X⟩

/-- Modelled from the spec: `Vector.Length`, with `math.Sqrt` passed in. -/
def Vector.Length (sqrt : ℚ → ℚ) (a : Vector) : ℚ :=
  sqrt (a.X * a.X + a.Y * a.Y + a.Z * a.Z)

/-- Modelled from the spec: `Vector.Normalize`, division by the length. -/
def Vector.Normalize (sqrt : ℚ → ℚ) (a : Vector) : Vector :=
  ⟨a.X / a.Length sqrt, a.Y / a.Length sqrt, a.Z / a.Length sqrt⟩

/-- Modelled from the spec: `Box.Center`, the midpoint of the two corners. -/
def Box.Center (b : Box) : Vector :=
  b.Min.Add ((b.Max.Sub b.Min).MulScalar (1 / 2))

/-- Modelled from the spec: `Box.OuterRadius`, the circumscribing radius, the
distance from a corner to the centre. -/
def Box.OuterRadius (sqrt : ℚ → ℚ) (b : Box) : ℚ :=
  (b.Min.Sub b.Center).Length sqrt

/-! ## Binary64 arithmetic

The values of `float64` and the operations on them that are fixed by IEEE 754:
every operation returns the exact result rounded to the nearest value, a tie
to the even significand. -/

/-- The number of binary digits of `n`; `fuel` bounds the recursion. -/
def bitLengthAux : Nat → Nat → Nat
  | 0, _ => 0
  | fuel + 1, n => if n = 0 then 0 else bitLengthAux fuel (n / 2) + 1

/-- The number of binary digits of `n`, `0` for `0`. -/
def bitLength (n : Nat) : Nat := bitLengthAux n n

/-- The floor of the base-2 logarithm of a positive rational. -/
def ilog2 (q : ℚ) : Int :=
  let k : Int := (bitLength q.num.toNat : Int) - (bitLength q.den : Int)
  if (2 : ℚ) ^ k ≤ q then k else k - 1

/-- Round to the nearest integer, a tie to the even one. -/
def rne (x : ℚ) : Int :=
  if x - ⌊x⌋ < 1 / 2 then ⌊x⌋
  else if 1 / 2 < x - ⌊x⌋ then ⌊x⌋ + 1
  else if ⌊x⌋ % 2 = 0 then ⌊x⌋ else ⌊x⌋ + 1

/-- The exponent of the unit in the last place of the binary64 values around
the positive rational `q`: 53 significant bits, least exponent `-1074`. -/
def ulpExp (q : ℚ) : Int := max (ilog2 q - 52) (-1074)

/-- Round a non-negative rational to the nearest binary64 magnitude, a tie to
the even significand, with no bound on the exponent from above. -/
def flPos (q : ℚ) : ℚ :=
  if q ≤ 0 then 0 else (rne (q / (2 : ℚ) ^ ulpExp q) : ℚ) * (2 : ℚ) ^ ulpExp q

/-- The binary64 value nearest to the rational `q`, for a result below the
overflow threshold. -/
def fl (q : ℚ) : ℚ := if q < 0 then -flPos (-q) else flPos q

/-- A binary64 value: NaN, an infinity, the negative zero, or a finite value
given by the rational it stands for (`fin 0` is the positive zero). -/
inductive F64 where
  | nan
  | inf (neg : Bool)
  | negZero
  | fin (q : ℚ)
deriving DecidableEq

namespace F64

/-- The binary64 value nearest to the magnitude `m ≥ 0` with the sign `neg`;
a result of `2^1024` or more is an infinity. -/
def rounded (neg : Bool) (m : ℚ) : F64 :=
  if (2 : ℚ) ^ (1024 : ℤ) ≤ flPos m then inf neg
  else if flPos m = 0 then (if neg then negZero else fin 0)
  else fin (if neg then -flPos m else flPos m)

def isNaN : F64 → Bool
  | nan => true
  | _ => false

/-- The sign bit. -/
def signbit : F64 → Bool
  | nan => false
  | inf neg => neg
  | negZero => true
  | fin q => decide (q < 0)

/-- The rational a finite value stands for; `0` for the others. -/
def toRat : F64 → ℚ
  | fin q => q
  | _ => 0

def neg : F64 → F64
  | nan => nan
  | inf n => inf (!n)
  | negZero => fin 0
  | fin q => if q = 0 then negZero else fin (-q)

def add : F64 → F64 → F64
  | nan, _ => nan
  | _, nan => nan
  | inf n1, inf n2 => if n1 = n2 then inf n1 else nan
  | inf n1, _ => inf n1
  | _, inf n2 => inf n2
  | negZero, negZero => negZero
  | negZero, fin b => fin b
  | fin a, negZero => fin a
  | fin a, fin b => if a + b = 0 then fin 0 else rounded (decide (a + b < 0)) |a + b|

def sub (a b : F64) : F64 := add a (neg b)

def mul : F64 → F64 → F64
  | nan, _ => nan
  | _, nan => nan
  | inf n1, inf n2 => inf (n1 != n2)
  | inf n1, b => if b.toRat = 0 then nan else inf (n1 != b.signbit)
  | a, inf n2 => if a.toRat = 0 then nan else inf (a.signbit != n2)
  | a, b => rounded (a.signbit != b.signbit) (|a.toRat| * |b.toRat|)

def div : F64 → F64 → F64
  | nan, _ => nan
  | _, nan => nan
  | inf _, inf _ => nan
  | inf n1, b => inf (n1 != b.signbit)
  | a, inf n2 => if a.signbit != n2 then negZero else fin 0
  | a, b =>
    if b.toRat = 0 then (if a.toRat = 0 then nan else inf (a.signbit != b.signbit))
    else rounded (a.signbit != b.signbit) (|a.toRat| / |b.toRat|)

/-- The integer square root, found bit by bit from bit `i - 1` down. -/
def isqrtAux (n : Nat) : Nat → Nat → Nat
  | 0, r => r
  | i + 1, r => isqrtAux n i (if (r + 2 ^ i) * (r + 2 ^ i) ≤ n then r + 2 ^ i else r)

def isqrt (n : Nat) : Nat := isqrtAux n (bitLength n) 0

/-- The binary64 magnitude nearest to the square root of the positive rational
`q`: with `e` the exponent of the last place of the root and `t = q / 4^e`, the
significand is `floor (sqrt t)` or the next integer, whichever is nearer. -/
def sqrtPos (q : ℚ) : ℚ :=
  let e : Int := ilog2 q / 2 - 52
  let t : ℚ := q / (2 : ℚ) ^ (2 * e)
  let f : Nat := isqrt ⌊t⌋.toNat
  let h : ℚ := (f : ℚ) * f + f + 1 / 4
  let m : Nat := if t < h then f else if h < t then f + 1 else if f % 2 = 0 then f else f + 1
  (m : ℚ) * (2 : ℚ) ^ e

def sqrt : F64 → F64
  | nan => nan
  | inf n => if n then nan else inf false
  | negZero => negZero
  | fin q => if q < 0 then nan else if q = 0 then fin 0 else fin (sqrtPos q)

/-- The comparison `a < b`. -/
def lt : F64 → F64 → Bool
  | nan, _ => false
  | _, nan => false
  | inf n1, inf n2 => n1 && !n2
  | inf n1, _ => n1
  | _, inf n2 => !n2
  | a, b => decide (a.toRat < b.toRat)

/-- The comparison `a <= b`. -/
def le : F64 → F64 → Bool
  | nan, _ => false
  | _, nan => false
  | inf n1, inf n2 => n1 || !n2
  | inf n1, _ => n1
  | _, inf n2 => !n2
  | a, b => decide (a.toRat ≤ b.toRat)

/-- The comparison `a == b`: NaN equals nothing, the two zeros are equal. -/
def eq : F64 → F64 → Bool
  | nan, _ => false
  | _, nan => false
  | inf n1, inf n2 => n1 == n2
  | inf _, _ => false
  | _, inf _ => false
  | a, b => decide (a.toRat = b.toRat)

/-- The conversion `float64(i)` of an integer. -/
def ofInt (i : Int) : F64 := rounded (decide (i < 0)) |(i : ℚ)|

/-- The conversion `int(x)` of a finite value, truncation toward zero; Go
leaves the conversion of the others to the implementation, taken as `0`. -/
def toInt : F64 → Int
  | fin q => if q < 0 then -⌊-q⌋ else ⌊q⌋
  | _ => 0

/-- Go's `math.Min`. -/
def min (x y : F64) : F64 :=
  if x = inf true ∨ y = inf true then inf true
  else if x.isNaN ∨ y.isNaN then nan
  else if x.toRat = 0 ∧ eq x y then (if x.signbit then x else y)
  else if lt x y then x else y

instance : Add F64 := ⟨add⟩
instance : Sub F64 := ⟨sub⟩
instance : Mul F64 := ⟨mul⟩
instance : Div F64 := ⟨div⟩
instance : Neg F64 := ⟨neg⟩
instance : Zero F64 := ⟨fin 0⟩
instance : One F64 := ⟨fin 1⟩
instance : LT F64 := ⟨fun a b => lt a b = true⟩
instance : LE F64 := ⟨fun a b => le a b = true⟩
instance : BEq F64 := ⟨eq⟩
instance : IntCast F64 := ⟨ofInt⟩
instance (a b : F64) : Decidable (a < b) := inferInstanceAs (Decidable (lt a b = true))
instance (a b : F64) : Decidable (a ≤ b) := inferInstanceAs (Decidable (le a b = true))

end F64

/-! ## Sampler types (`sampler.go`, lines 8-37) -/

/-- The Go type `SpecularMode`, an `int`. -/
abbrev SpecularMode := Int

def SpecularModeNaive : SpecularMode := 0
def SpecularModeFirst : SpecularMode := 1
def SpecularModeAll : SpecularMode := 2

/-- The Go type `BounceMode`, an `int`; the sampler only forms the values 0, 1, 2. -/
abbrev BounceMode := Nat

def BounceModeAny : BounceMode := 0
def BounceModeDiffuse : BounceMode := 1
def BounceModeSpecular : BounceMode := 2

structure DefaultSampler where
  FirstHitSamples : Int
  MaxBounces : Int
  DirectLighting : Bool
  SpecularMode : SpecularMode
deriving DecidableEq

def NewSampler (firstHitSamples maxBounces : Int) : DefaultSampler :=
  ⟨firstHitSamples, maxBounces, true, SpecularModeNaive⟩

/-! ## Collaborators -/

/-- Modelled from the spec: `HitInfo`, derived from a hit and its ray; declared
outside the given sources. -/
structure HitInfo (Sh : Type) where
  Shape : Sh
  Position : Vector
  Normal : Vector
  Ray : Ray
  Material : Material
  Inside : Bool

/-- Modelled from the spec: `Hit`, the answer of `Scene.Intersect`, with the
methods `Ok` and `Info`; `Shape` is `none` for the no-hit sentinel. -/
structure Hit (Sh : Type) where
  Shape : Option Sh
  T : ℚ
  Ok : Bool
  Info : Ray → HitInfo Sh

/-- Modelled from the spec: `Scene`, with the fields the sampler reads and the
method `Intersect`; `Texture` carries `Texture.Sample`. -/
structure Scene (Sh : Type) where
  Color : Color
  Texture : Option (ℚ → ℚ → pt.Color)
  TextureAngle : ℚ
  Lights : List Sh
  Intersect : Ray → Hit Sh

/-- What the sampler calls and does not define: Go's `math` and `math/rand`,
`Ray.Bounce`, `RandomUnitVector`, and the methods of a shape. -/
structure Env (Rng Glob Sh : Type) where
  Sqrt : ℚ → ℚ
  Atan2 : ℚ → ℚ → ℚ
  Asin : ℚ → ℚ
  Tan : ℚ → ℚ
  Cos : ℚ → ℚ
  Sin : ℚ → ℚ
  Pi : ℚ
  /-- The method `rnd.Float64()` of the passed random source. -/
  Float64 : Rng → ℚ × Rng
  /-- The package-level `rand.Intn(n)`, which draws from the global generator. -/
  Intn : Glob → Nat → Nat × Glob
  /-- The call `ray.Bounce(&info, fu, fv, mode, rnd)`. -/
  Bounce : Ray → HitInfo Sh → ℚ → ℚ → BounceMode → Rng → (Ray × Bool × ℚ) × Rng
  /-- The call `RandomUnitVector(rnd)`. -/
  RandomUnitVector : Rng → Vector × Rng
  /-- The type switch `light.(type)`: centre and radius when the shape is a `*Sphere`. -/
  AsSphere : Sh → Option (Vector × ℚ)
  BoundingBox : Sh → Box
  MaterialAt : Sh → Vector → Material

/-- One entry of the ghost trace. `level` is the `depth` argument of the
invocation of `sample` that made the call. -/
inductive Event where
  | intersect (ray : Ray)
  | float64 (x : ℚ)
  | intn (n i : Nat)
  | randomUnitVector
  | bounce (level : Int) (u v : Nat) (fu fv : ℚ) (mode : BounceMode) (reflected : Bool) (p : ℚ)
  | call (level : Int) (emission : Bool) (samples depth : Int)
  | directLight (level : Int)
deriving DecidableEq

/-- The state threaded through a run: the passed random source, the global
generator, and the ghost trace. -/
structure St (Rng Glob : Type) where
  rnd : Rng
  glob : Glob
  log : List Event

/-- Append one entry to the trace. -/
def St.emit {Rng Glob : Type} (st : St Rng Glob) (e : Event) : St Rng Glob :=
  { st with log := st.log ++ [e] }

/-- Draw `rnd.Float64()`. -/
def St.float64 {Rng Glob Sh : Type} (E : Env Rng Glob Sh) (st : St Rng Glob) : ℚ × St Rng Glob :=
  ((E.Float64 st.rnd).1,
    { st with rnd := (E.Float64 st.rnd).2, log := st.log ++ [Event.float64 (E.Float64 st.rnd).1] })

section Sampler

variable {Rng Glob Sh : Type} [DecidableEq Sh]

/-! ## `directLight` (`sampler.go`, lines 107-182) -/

/-- Lines 130-144: the rejection loop, `fuel` bounding the number of iterations. -/
def lightPoint (E : Env Rng Glob Sh) (center : Vector) (radius : ℚ) (n : Ray) :
    Nat → St Rng Glob → Option (Vector × St Rng Glob)
  | 0, _ => none
  | fuel + 1, st =>
    let x := (st.float64 E).1 * 2 - 1
    let st1 := (st.float64 E).2
    let y := (st1.float64 E).1 * 2 - 1
    let st2 := (st1.float64 E).2
    if x * x + y * y ≤ 1 then
      let l := (center.Sub n.Origin).Normalize E.Sqrt
      let w := (E.RandomUnitVector st2.rnd).1
      let st3 : St Rng Glob :=
        { st2 with rnd := (E.RandomUnitVector st2.rnd).2,
                   log := st2.log ++ [Event.randomUnitVector] }
      let u := (l.Cross w).Normalize E.Sqrt
      let v := l.Cross u
      let point := Vector.zero
      let point := point.Add (u.MulScalar (x * radius))
      let point := point.Add (v.MulScalar (y * radius))
      let point := point.Add center
      some (point, st3)
    else lightPoint E center radius n fuel st2

/-- Lines 116-128: the bounding sphere of the light. -/
def boundingSphere (E : Env Rng Glob Sh) (light : Sh) : Vector × ℚ :=
  match E.AsSphere light with
  | some (center, radius) => (center, radius)
  | none =>
    let box := E.BoundingBox light
    (box.Center, box.OuterRadius E.Sqrt)

/-- Lines 161-174: the solid angle term. -/
def coverage (E : Env Rng Glob Sh) (center : Vector) (radius : ℚ) (origin : Vector) : ℚ :=
  let hyp := (center.Sub origin).Length E.Sqrt
  let opp := radius
  let theta := E.Asin (opp / hyp)
  let adj := opp / E.Tan theta
  let d := E.Cos theta * adj
  let r := E.Sin theta * adj
  let coverage := (r * r) / (d * d)
  let coverage := if hyp < opp then 1 else coverage
  min coverage 1

def directLight (E : Env Rng Glob Sh) (fuel : Nat) (scene : Scene Sh) (n : Ray)
    (st : St Rng Glob) : Option (Color × St Rng Glob) :=
  let nLights := scene.Lights.length
  if nLights = 0 then some (Color.zero, st)
  else
    let i := (E.Intn st.glob nLights).1
    let st1 : St Rng Glob :=
      { st with glob := (E.Intn st.glob nLights).2, log := st.log ++ [Event.intn nLights i] }
    match scene.Lights[i]? with
    | none => none
    | some light =>
      let center := (boundingSphere E light).1
      let radius := (boundingSphere E light).2
      match lightPoint E center radius n fuel st1 with
      | none => none
      | some (point, st2) =>
        let ray : Ray := ⟨n.Origin, (point.Sub n.Origin).Normalize E.Sqrt⟩
        let diffuse := ray.Direction.Dot n.Direction
        if diffuse ≤ 0 then some (Color.zero, st2)
        else
          let hit := scene.Intersect ray
          let st3 := st2.emit (Event.intersect ray)
          if !hit.Ok || hit.Shape ≠ some light then some (Color.zero, st3)
          else
            let material := E.MaterialAt light point
            let m := material.Emittance * diffuse * coverage E center radius n.Origin * (nLights : ℚ)
            some (material.Color.MulScalar m, st3)

/-! ## `sample` (`sampler.go`, lines 39-105) -/

/-- Line 68: `int(math.Sqrt(float64(samples)))`. -/
def gridSize (samples : Int) : Nat := (F64.toInt (F64.sqrt (F64.ofInt samples))).toNat

/-- Lines 69-76: the pair `(ma, mb)`. -/
def bounceModes (s : DefaultSampler) (n : Nat) : BounceMode × BounceMode :=
  if s.SpecularMode = SpecularModeAll ∨ (s.SpecularMode = SpecularModeFirst ∧ n > 1) then
    (BounceModeDiffuse, BounceModeSpecular)
  else
    (BounceModeAny, BounceModeAny)

/-- Line 79: the values taken by `mode` in `for mode := ma; mode <= mb; mode++`. -/
def modeRange (ma mb : BounceMode) : List BounceMode :=
  (List.range (mb + 1 - ma)).map (fun k => ma + k)

/-- Lines 77-79: the triples `(u, v, mode)` in the order the three nested loops visit them. -/
def cells (n : Nat) (ma mb : BounceMode) : List (Nat × Nat × BounceMode) :=
  (List.range n).flatMap fun u => (List.range n).flatMap fun v => (modeRange ma mb).map fun m => (u, v, m)

/-- Lines 61-67: the running result after the emittance test; `none` is the
early `return Color{}`. -/
def emissionStep (s : DefaultSampler) (emission : Bool) (material : Material) (samples : Int) :
    Option Color :=
  let result := Color.zero
  if material.Emittance > 0 then
    if s.DirectLighting && !emission then none
    else some (result.Add (material.Color.MulScalar (material.Emittance * (samples : ℚ))))
  else some result

/-- Lines 83-85: the weight after `if mode == BounceModeAny { p = 1 }`. -/
def effectiveWeight (mode : BounceMode) (p : ℚ) : ℚ :=
  if mode = BounceModeAny then 1 else p

/-- Lines 80-81: `(float64(u) + rnd.Float64()) / float64(n)` in binary64, for
the draw `x`: the two conversions, the sum and the quotient are each rounded
to the nearest value. Inside the loop `0 <= u < n`, so the divisor is not zero
and nothing overflows. -/
def cellCoord (u n : Nat) (x : ℚ) : ℚ := fl (fl (fl (u : ℚ) + x) / fl (n : ℚ))

/-- Lines 80-82: the two draws of `rnd.Float64()` and the call of `ray.Bounce`
for the cell `(u, v, mode)`; the answer of `Bounce` and the state after it. -/
def bounceCell (E : Env Rng Glob Sh) (depth : Int) (ray : Ray) (info : HitInfo Sh) (n : Nat)
    (st : St Rng Glob) (cell : Nat × Nat × BounceMode) : (Ray × Bool × ℚ) × St Rng Glob :=
  let u := cell.1
  let v := cell.2.1
  let mode := cell.2.2
  let fu := cellCoord u n (st.float64 E).1
  let st1 := (st.float64 E).2
  let fv := cellCoord v n (st1.float64 E).1
  let st2 := (st1.float64 E).2
  let b := E.Bounce ray info fu fv mode st2.rnd
  (b.1, { st2 with rnd := b.2,
                   log := st2.log ++ [Event.bounce depth u v fu fv mode b.1.2.1 b.1.2.2] })

/-- Lines 80-100: the body of the innermost loop. `recur` is the recursive call
`s.sample(scene, newRay, reflected, 1, depth-1, rnd)`. -/
def sampleCell (E : Env Rng Glob Sh) (s : DefaultSampler) (fuel : Nat) (scene : Scene Sh)
    (recur : Ray → Bool → St Rng Glob → Option (Color × St Rng Glob))
    (depth : Int) (ray : Ray) (info : HitInfo Sh) (n : Nat)
    (acc : Color × St Rng Glob) (cell : Nat × Nat × BounceMode) : Option (Color × St Rng Glob) :=
  let result := acc.1
  let material := info.Material
  let mode := cell.2.2
  let b := bounceCell E depth ray info n acc.2 cell
  let newRay := b.1.1
  let reflected := b.1.2.1
  let p := effectiveWeight mode b.1.2.2
  let st3 := b.2
  if p > 0 ∧ reflected = true then
    match recur newRay reflected (st3.emit (Event.call depth reflected 1 (depth - 1))) with
    | none => none
    | some (indirect, st4) =>
      let tinted := indirect.Mix (material.Color.Mul indirect) material.Tint
      some (result.Add (tinted.MulScalar p), st4)
  else if p > 0 ∧ reflected = false then
    match recur newRay reflected (st3.emit (Event.call depth reflected 1 (depth - 1))) with
    | none => none
    | some (indirect, st4) =>
      let d : Option (Color × St Rng Glob) :=
        if s.DirectLighting then
          directLight E fuel scene info.Ray (st4.emit (Event.directLight depth))
        else some (Color.zero, st4)
      match d with
      | none => none
      | some (direct, st5) =>
        some (result.Add ((material.Color.Mul (direct.Add indirect)).MulScalar p), st5)
  else some (result, st3)

/-- Lines 77-103: run the loop body over the cells, left to right. -/
def forCells {α β : Type} (f : α → β → Option α) : List β → α → Option α
  | [], acc => some acc
  | c :: cs, acc =>
    match f acc c with
    | none => none
    | some acc1 => forCells f cs acc1

/-- Lines 47-104: the body of `sample` below the `depth < 0` test. -/
def sampleBody (E : Env Rng Glob Sh) (s : DefaultSampler) (fuel : Nat) (scene : Scene Sh)
    (recur : Ray → Bool → St Rng Glob → Option (Color × St Rng Glob))
    (ray : Ray) (emission : Bool) (samples depth : Int) (st : St Rng Glob) :
    Option (Color × St Rng Glob) :=
  let hit := scene.Intersect ray
  let st0 := st.emit (Event.intersect ray)
  if !hit.Ok then
    match scene.Texture with
    | some texture =>
      let d := ray.Direction
      let u := E.Atan2 d.Z d.X + scene.TextureAngle
      let v := E.Atan2 d.Y ((Vector.mk d.X 0 d.Z).Length E.Sqrt)
      let u := (u + E.Pi) / (2 * E.Pi)
      let v := (v + E.Pi / 2) / E.Pi
      some (texture u v, st0)
    | none => some (scene.Color, st0)
  else
    let info := hit.Info ray
    let material := info.Material
    match emissionStep s emission material samples with
    | none => some (Color.zero, st0)
    | some result =>
      let n := gridSize samples
      let ma := (bounceModes s n).1
      let mb := (bounceModes s n).2
      match forCells (sampleCell E s fuel scene recur depth ray info n) (cells n ma mb)
          (result, st0) with
      | none => none
      | some (result, st1) => some (result.DivScalar (((n * n : Nat) : ℚ)), st1)

/-- The method `sample`, by recursion on a bound `k` on the nesting of calls;
`k = depth + 1` is enough (see `sample`). -/
def sampleK (E : Env Rng Glob Sh) (s : DefaultSampler) (fuel : Nat) (scene : Scene Sh) :
    Nat → Ray → Bool → Int → Int → St Rng Glob → Option (Color × St Rng Glob)
  | 0, _, _, _, depth, st => if depth < 0 then some (Color.zero, st) else none
  | k + 1, ray, emission, samples, depth, st =>
    if depth < 0 then some (Color.zero, st)
    else
      sampleBody E s fuel scene
        (fun newRay reflected st1 => sampleK E s fuel scene k newRay reflected 1 (depth - 1) st1)
        ray emission samples depth st

/-- `DefaultSampler.sample`. -/
def sample (E : Env Rng Glob Sh) (s : DefaultSampler) (fuel : Nat) (scene : Scene Sh)
    (ray : Ray) (emission : Bool) (samples depth : Int) (st : St Rng Glob) :
    Option (Color × St Rng Glob) :=
  sampleK E s fuel scene (depth + 1).toNat ray emission samples depth st

/-- `DefaultSampler.Sample`. -/
def Sample (E : Env Rng Glob Sh) (s : DefaultSampler) (fuel : Nat) (scene : Scene Sh)
    (ray : Ray) (st : St Rng Glob) : Option (Color × St Rng Glob) :=
  sample E s fuel scene ray true s.FirstHitSamples s.MaxBounces st

end Sampler

/-! ## Reading the trace -/

/-- The `depth` of the invocation of `sample` that made the call, for the
entries that `sample` itself writes. -/
def Event.level : Event → Option Int
  | .bounce l _ _ _ _ _ _ _ => some l
  | .call l _ _ _ => some l
  | .directLight l => some l
  | _ => none

/-- The entry was not written by an invocation of `sample` at depth `d` or above. -/
def Event.Below (d : Int) (e : Event) : Prop := ∀ l, e.level = some l → l < d

/-- The calls of `ray.Bounce` made by the invocation of `sample` at depth `d`:
cell, sample point and mode, and the answer `reflected`, `p` of the call. -/
def bouncesAt (d : Int) (log : List Event) :
    List (Nat × Nat × ℚ × ℚ × BounceMode × Bool × ℚ) :=
  log.filterMap fun e =>
    match e with
    | .bounce l u v fu fv m r p => if l = d then some (u, v, fu, fv, m, r, p) else none
    | _ => none

/-- The recursive calls made by the invocation of `sample` at depth `d`. -/
def callsAt (d : Int) (log : List Event) : List (Bool × Int × Int) :=
  log.filterMap fun e =>
    match e with
    | .call l em n dp => if l = d then some (em, n, dp) else none
    | _ => none

/-- The calls of `directLight` made by the invocation of `sample` at depth `d`. -/
def directAt (d : Int) (log : List Event) : List Unit :=
  log.filterMap fun e =>
    match e with
    | .directLight l => if l = d then some () else none
    | _ => none

/-- The entry was written by a collaborator call outside the loop of `sample`. -/
def Event.Flat (e : Event) : Prop := e.level = none

/-- The cell and mode of a recorded call of `Bounce`. -/
def cellOf (b : Nat × Nat × ℚ × ℚ × BounceMode × Bool × ℚ) : Nat × Nat × BounceMode :=
  (b.1, b.2.1, b.2.2.2.2.1)

/-- The sample point `(fu, fv)` of a recorded call lies in the closed sub-cell
`(u, v)` of the `n × n` grid on the unit square, the ends of the cell being the
binary64 quotients `float64(u) / float64(n)` and `float64(u+1) / float64(n)`. -/
def InCell (n : Nat) (b : Nat × Nat × ℚ × ℚ × BounceMode × Bool × ℚ) : Prop :=
  fl ((b.1 : ℚ) / n) ≤ b.2.2.1 ∧ b.2.2.1 ≤ fl (((b.1 : ℚ) + 1) / n) ∧
  fl ((b.2.1 : ℚ) / n) ≤ b.2.2.2.1 ∧ b.2.2.2.1 ≤ fl (((b.2.1 : ℚ) + 1) / n)

/-- The recorded answer of a call of `Bounce` is the answer of `ray.Bounce` at
the recorded sample point and mode, for the hit `info` and some state of the
random source. -/
def Answered {Rng Glob Sh : Type} (E : Env Rng Glob Sh) (ray : Ray) (info : HitInfo Sh)
    (b : Nat × Nat × ℚ × ℚ × BounceMode × Bool × ℚ) : Prop :=
  ∃ rnd, (E.Bounce ray info b.2.2.1 b.2.2.2.1 b.2.2.2.2.1 rnd).1.2 =
    (b.2.2.2.2.2.1, b.2.2.2.2.2.2)

/-- The sample point of a recorded call was computed from two draws of
`rnd.Float64()`. -/
def FromDraws {Rng Glob Sh : Type} (E : Env Rng Glob Sh) (n : Nat)
    (b : Nat × Nat × ℚ × ℚ × BounceMode × Bool × ℚ) : Prop :=
  ∃ r1 r2, b.2.2.1 = cellCoord b.1 n (E.Float64 r1).1 ∧
    b.2.2.2.1 = cellCoord b.2.1 n (E.Float64 r2).1

/-- The run from `st` to `st1` only appended entries, all satisfying `P`. -/
def Appends {Rng Glob : Type} (P : Event → Prop) (st st1 : St Rng Glob) : Prop :=
  ∃ ev, st1.log = st.log ++ ev ∧ ∀ e ∈ ev, P e

/-- The rejection loop accepts within `fuel` iterations from every state, and
`rand.Intn(n)` answers below `n`. -/
def Terminates {Rng Glob Sh : Type} (E : Env Rng Glob Sh) (fuel : Nat) : Prop :=
  (∀ center radius n st, (lightPoint E center radius n fuel st).isSome) ∧
  (∀ g n, 0 < n → (E.Intn g n).1 < n)

/-- The sum of a list of colors. -/
def Color.sum (l : List Color) : Color := l.foldr Color.Add Color.zero

/-! ## The accumulation rule as the spec words it -/

section SpecSide
variable {Rng Glob Sh : Type} [DecidableEq Sh]

/-- The accumulation rule in the words of the spec: the contribution of one
bounce evaluation. With effective weight `p > 0` it is `p * mix(I, c*I, t)` for
a reflected bounce and `p * (c * (D + I))` for a diffuse one, where `I` is the
recursive sample along the new ray and `D` is `directLight` at the hit when
direct lighting is enabled and the zero color otherwise; with `p <= 0` the
evaluation is skipped. -/
def contributionSpec (E : Env Rng Glob Sh) (s : DefaultSampler) (fuel : Nat) (scene : Scene Sh)
    (recur : Ray → Bool → St Rng Glob → Option (Color × St Rng Glob))
    (depth : Int) (ray : Ray) (info : HitInfo Sh) (n : Nat)
    (st : St Rng Glob) (cell : Nat × Nat × BounceMode) : Option (Color × St Rng Glob) :=
  let c := info.Material.Color
  let t := info.Material.Tint
  let b := bounceCell E depth ray info n st cell
  let p := effectiveWeight cell.2.2 b.1.2.2
  if p > 0 then
    match recur b.1.1 b.1.2.1 (b.2.emit (Event.call depth b.1.2.1 1 (depth - 1))) with
    | none => none
    | some (I, st4) =>
      if b.1.2.1 = true then some ((I.Mix (c.Mul I) t).MulScalar p, st4)
      else if s.DirectLighting = true then
        match directLight E fuel scene info.Ray (st4.emit (Event.directLight depth)) with
        | none => none
        | some (D, st5) => some ((c.Mul (D.Add I)).MulScalar p, st5)
      else some ((c.Mul (Color.zero.Add I)).MulScalar p, st4)
  else some (Color.zero, b.2)

/-- The contributions of the evaluations of a list of cells, in order. -/
def contributionsSpec (f : St Rng Glob → Nat × Nat × BounceMode → Option (Color × St Rng Glob)) :
    List (Nat × Nat × BounceMode) → St Rng Glob → Option (List Color × St Rng Glob)
  | [], st => some ([], st)
  | c :: cs, st =>
    match f st c with
    | none => none
    | some (x, st1) =>
      match contributionsSpec f cs st1 with
      | none => none
      | some (xs, st2) => some (x :: xs, st2)

end SpecSide

/-! ## Valid inputs -/

/-- A material within the ranges of the data model that matter for the sign of
the result: color components and emittance non-negative, tint in `[0, 1]`. -/
def Material.Valid (m : Material) : Prop :=
  m.Color.NonNeg ∧ 0 ≤ m.Emittance ∧ 0 ≤ m.Tint ∧ m.Tint ≤ 1

/-- Valid inputs of the sampler: the background color and every texture sample
are non-negative, and every material met at a hit or on a light is valid. -/
def ValidInputs {Rng Glob Sh : Type} (E : Env Rng Glob Sh) (scene : Scene Sh) : Prop :=
  scene.Color.NonNeg ∧
  (∀ texture, scene.Texture = some texture → ∀ u v, (texture u v).NonNeg) ∧
  (∀ ray, (scene.Intersect ray).Ok = true → ((scene.Intersect ray).Info ray).Material.Valid) ∧
  (∀ light, light ∈ scene.Lights → ∀ p, (E.MaterialAt light p).Valid)

section DirectLightParts
variable {Rng Glob Sh : Type}

/-- Line 114: the state after the draw `rand.Intn(nLights)`. -/
def afterPick (E : Env Rng Glob Sh) (scene : Scene Sh) (st : St Rng Glob) : St Rng Glob :=
  { st with glob := (E.Intn st.glob scene.Lights.length).2,
            log := st.log ++ [Event.intn scene.Lights.length
              (E.Intn st.glob scene.Lights.length).1] }

/-- Line 147: the shadow ray from the shading point toward the light point. -/
def shadowRay (E : Env Rng Glob Sh) (n : Ray) (point : Vector) : Ray :=
  ⟨n.Origin, (point.Sub n.Origin).Normalize E.Sqrt⟩

end DirectLightParts

/-! ## Exactness of the `math` functions -/

/-- The value `sqrt q` is the exact non-negative square root of `q`. -/
def IsSqrt (sqrt : ℚ → ℚ) (q : ℚ) : Prop := 0 ≤ sqrt q ∧ sqrt q * sqrt q = q

/-- The trigonometric functions of the environment are exact at the angle
`asin x`: `sin (asin x) = x`, `cos^2 = 1 - sin^2` and `tan = sin / cos`. -/
def ExactTrig {Rng Glob Sh : Type} (E : Env Rng Glob Sh) (x : ℚ) : Prop :=
  E.Sin (E.Asin x) = x ∧
  E.Cos (E.Asin x) * E.Cos (E.Asin x) = 1 - x * x ∧
  E.Tan (E.Asin x) = E.Sin (E.Asin x) / E.Cos (E.Asin x)

/-- The squared length `x*x + y*y + z*z` that `Vector.Length` passes to `math.Sqrt`. -/
def Vector.LengthSq (a : Vector) : ℚ := a.X * a.X + a.Y * a.Y + a.Z * a.Z

/-- Lines 136-141: the light point computed in the accepting iteration of the
rejection loop from the disk sample `(x, y)` and the random unit vector `w`. -/
def diskPoint (sqrt : ℚ → ℚ) (center : Vector) (radius : ℚ) (origin w : Vector) (x y : ℚ) :
    Vector :=
  let l := (center.Sub origin).Normalize sqrt
  let u := (l.Cross w).Normalize sqrt
  let v := l.Cross u
  let point := Vector.zero
  let point := point.Add (u.MulScalar (x * radius))
  let point := point.Add (v.MulScalar (y * radius))
  point.Add center

/-- Line 136: `l`, the unit direction from the shading point to the centre. -/
def frameL (sqrt : ℚ → ℚ) (center origin : Vector) : Vector :=
  (center.Sub origin).Normalize sqrt

/-- Line 137: `u = normalize (l × w)`. -/
def frameU (sqrt : ℚ → ℚ) (center origin w : Vector) : Vector :=
  ((frameL sqrt center origin).Cross w).Normalize sqrt

/-- Line 138: `v = l × u`. -/
def frameV (sqrt : ℚ → ℚ) (center origin w : Vector) : Vector :=
  (frameL sqrt center origin).Cross (frameU sqrt center origin w)

/-- The shape of the recursive calls in a trace: every entry `call` comes right
after the entry `bounce` of the same level `l`, and passes the emission flag
equal to the `reflected` answer of that `Bounce`, the sample count 1 and the
depth `l - 1`. -/
inductive CallsOk : List Event → Prop where
  | nil : CallsOk []
  | skip (e : Event) (rest : List Event) (h : ∀ l em n dp, e ≠ Event.call l em n dp) :
      CallsOk rest → CallsOk (e :: rest)
  | call (l : Int) (u v : Nat) (fu fv : ℚ) (m : BounceMode) (r : Bool) (p : ℚ)
      (rest : List Event) :
      CallsOk rest →
      CallsOk (Event.bounce l u v fu fv m r p :: Event.call l r 1 (l - 1) :: rest)

/-- The entry was written by an invocation of `sample` at a depth in `[0, d]`,
or by a collaborator. -/
def Event.Within (d : Int) (e : Event) : Prop := ∀ l, e.level = some l → 0 ≤ l ∧ l ≤ d

/-- The trace segment of a run of `sample` at depth `d`. -/
def Shaped (d : Int) (ev : List Event) : Prop := CallsOk ev ∧ ∀ e ∈ ev, e.Within d

/-- The run from `st` to `st1` appended a segment satisfying `Q`. -/
def Extends {Rng Glob : Type} (Q : List Event → Prop) (st st1 : St Rng Glob) : Prop :=
  ∃ ev, st1.log = st.log ++ ev ∧ Q ev

/-- Go's `==` on `float64` is symmetric and transitive; it is not reflexive,
NaN equals nothing. -/
instance : PartialEquivBEq F64 where
  symm := by
    intro a b h
    have h1 : F64.eq a b = true := h
    change F64.eq b a = true
    cases a <;> cases b <;>
      simp only [F64.eq, F64.toRat, decide_eq_true_eq, beq_iff_eq, Bool.false_eq_true]
        at h1 ⊢ <;>
      exact h1.symm
  trans := by
    intro a b c h h0
    have h1 : F64.eq a b = true := h
    have h2 : F64.eq b c = true := h0
    change F64.eq a c = true
    cases a <;> cases b <;> cases c <;>
      simp only [F64.eq, F64.toRat, decide_eq_true_eq, beq_iff_eq, Bool.false_eq_true]
        at h1 h2 ⊢ <;>
      first | exact h1.trans h2 | exact h1 | exact h2

/-! ## Vectors over a scalar type

The types `Vector` and `Box` over an arbitrary scalar type `K`, for the code
that is read both in binary64 (`K = F64`, every operation rounded) and in exact
real arithmetic (`K = ℝ`). The operations are those of the numeric utility
layer, written with the operations of `K`. -/

/-- Modelled from the spec: the type `Vector`, three `float64` components,
over the scalar type `K`. -/
structure VectorOf (K : Type) where
  X : K
  Y : K
  Z : K
deriving DecidableEq

/-- Modelled from the spec: the type `Box`, two corners, over the scalar type `K`. -/
structure BoxOf (K : Type) where
  Min : VectorOf K
  Max : VectorOf K
deriving DecidableEq

section VectorOps

variable {K : Type} [HAdd K K K] [HSub K K K] [Mul K] [Div K] [Zero K]

/-- The zero value `Vector{}`. -/
def VectorOf.zero : VectorOf K := ⟨0, 0, 0⟩

/-- Modelled from the spec: `Vector.Add`. -/
def VectorOf.Add (a b : VectorOf K) : VectorOf K := ⟨a.X + b.X, a.Y + b.Y, a.Z + b.Z⟩

/-- Modelled from the spec: `Vector.Sub`. -/
def VectorOf.Sub (a b : VectorOf K) : VectorOf K := ⟨a.X - b.X, a.Y - b.Y, a.Z - b.Z⟩

/-- Modelled from the spec: `Vector.MulScalar`. -/
def VectorOf.MulScalar (a : VectorOf K) (b : K) : VectorOf K := ⟨a.X * b, a.Y * b, a.Z * b⟩

/-- Modelled from the spec: `Vector.Dot`. -/
def VectorOf.Dot (a b : VectorOf K) : K := a.X * b.X + a.Y * b.Y + a.Z * b.Z

/-- Modelled from the spec: `Vector.Cross`. -/
def VectorOf.Cross (a b : VectorOf K) : VectorOf K :=
  ⟨a.Y * b.Z - a.Z * b.Y, a.Z * b.X - a.X * b.Z, a.X * b.Y - a.Y * b.X⟩

/-- The squared length `x*x + y*y + z*z` that `Vector.Length` passes to `math.Sqrt`. -/
def VectorOf.LengthSq (a : VectorOf K) : K := a.X * a.X + a.Y * a.Y + a.Z * a.Z

/-- Modelled from the spec: `Vector.Length`, with `math.Sqrt` passed in. -/
def VectorOf.Length (sqrt : K → K) (a : VectorOf K) : K :=
  sqrt (a.X * a.X + a.Y * a.Y + a.Z * a.Z)

/-- Modelled from the spec: `Vector.Normalize`, division by the length. -/
def VectorOf.Normalize (sqrt : K → K) (a : VectorOf K) : VectorOf K :=
  ⟨a.X / a.Length sqrt, a.Y / a.Length sqrt, a.Z / a.Length sqrt⟩

/-- Go's `==` on two values of type `Vector`: the components are compared with
`==`, so that in binary64 a vector with a NaN component equals nothing and the
two zeros are equal. -/
def VectorOf.eq [BEq K] (a b : VectorOf K) : Bool := a.X == b.X && a.Y == b.Y && a.Z == b.Z

/-- The sum of a list of vectors, added left to right from the zero vector. -/
def VectorOf.sum (l : List (VectorOf K)) : VectorOf K := l.foldl VectorOf.Add VectorOf.zero

end VectorOps

/-! ## The mesh (`mesh.go`)

Conventions of the embedding. A `*Triangle` is an address `Ptr`, and the
triangles live in a heap `Heap K`, a function from addresses to triangle
values; a method that writes through the pointers of `m.Triangles` returns
the new heap together with the new mesh value, so that two meshes built from
the same pointers see each other's writes. All pointers are taken non-nil.
A Go map keyed by `Vector` is a function from keys to optional values, the
keys compared with `==`. The compiled structure `*embree.Mesh` is represented
by the vertex triples it was built from. -/

/-- Modelled from the spec: the type `Triangle` is declared outside the given
sources; the fields are those `mesh.go` reads or writes, and the bounding box
that `t.UpdateBoundingBox()` maintains. -/
structure Triangle (K : Type) where
  V1 : VectorOf K
  V2 : VectorOf K
  V3 : VectorOf K
  N1 : VectorOf K
  N2 : VectorOf K
  N3 : VectorOf K
  Box : BoxOf K
deriving DecidableEq

/-- A pointer `*Triangle`. -/
abbrev Ptr := Nat

/-- The triangles in memory. -/
abbrev Heap (K : Type) := Ptr → Triangle K

/-- The heap after writing the value `t` through the pointer `p`. -/
def Heap.set {K : Type} (h : Heap K) (p : Ptr) (t : Triangle K) : Heap K :=
  fun q => if q = p then t else h q

/-- The argument of `embree.NewMesh`: one vertex triple per triangle. -/
abbrev Compiled (K : Type) := List (VectorOf K × VectorOf K × VectorOf K)

structure Mesh (K : Type) where
  Box : BoxOf K
  Triangles : List Ptr
  mesh : Option (Compiled K)
deriving DecidableEq

/-- The triangle values that the pointers of `m.Triangles` point to. -/
def Mesh.deref {K : Type} (h : Heap K) (m : Mesh K) : List (Triangle K) := m.Triangles.map h

/-- What `mesh.go` calls and does not define; `Mat` is the type `Matrix`. -/
structure MeshEnv (K : Type) (Mat : Type) where
  Sqrt : K → K
  Cos : K → K
  BoxForTriangles : List (Triangle K) → BoxOf K
  /-- The method `t.UpdateBoundingBox()`. -/
  TriangleUpdateBoundingBox : Triangle K → Triangle K
  /-- The method `t.SwapAxes(x, y, z)`. -/
  TriangleSwapAxes : Triangle K → Int → Int → Int → Triangle K
  MulPosition : Mat → VectorOf K → VectorOf K
  MulDirection : Mat → VectorOf K → VectorOf K
  Identity : Mat
  /-- The function `Translate(v)`. -/
  Translate : VectorOf K → Mat
  /-- The method `matrix.Translate(v)`. -/
  MatrixTranslate : Mat → VectorOf K → Mat
  /-- The method `matrix.Scale(v)`. -/
  MatrixScale : Mat → VectorOf K → Mat
  /-- The method `box.Anchor(anchor)`. -/
  BoxAnchor : BoxOf K → VectorOf K → VectorOf K
  /-- The method `box.Size()`. -/
  BoxSize : BoxOf K → VectorOf K
  VectorDiv : VectorOf K → VectorOf K → VectorOf K
  VectorMul : VectorOf K → VectorOf K → VectorOf K
  MinComponent : VectorOf K → K

section MeshOps

variable {K : Type} [Add K] [Sub K] [Mul K] [Div K] [Neg K] [Zero K] [One K] [LE K]
  [DecidableRel (LE.le : K → K → Prop)] [BEq K] {Mat : Type}

def NewMesh (E : MeshEnv K Mat) (h : Heap K) (triangles : List Ptr) : Mesh K :=
  let box := E.BoxForTriangles (triangles.map h)
  ⟨box, triangles, none⟩

def Mesh.Compile (h : Heap K) (m : Mesh K) : Mesh K :=
  if m.mesh.isNone then
    let triangles : Compiled K := m.Triangles.map fun p =>
      (⟨(h p).V1.X, (h p).V1.Y, (h p).V1.Z⟩,
       ⟨(h p).V2.X, (h p).V2.Y, (h p).V2.Z⟩,
       ⟨(h p).V3.X, (h p).V3.Y, (h p).V3.Z⟩)
    { m with mesh := some triangles }
  else m

def Mesh.BoundingBox (m : Mesh K) : BoxOf K := m.Box

def Mesh.UpdateBoundingBox (E : MeshEnv K Mat) (h : Heap K) (m : Mesh K) : Mesh K :=
  { m with Box := E.BoxForTriangles (m.Triangles.map h) }

def smoothNormalsThreshold (sqrt : K → K) (normal : VectorOf K) (normals : List (VectorOf K))
    (threshold : K) : VectorOf K :=
  let result := normals.foldl
    (fun result x => if threshold ≤ x.Dot normal then result.Add x else result) VectorOf.zero
  result.Normalize sqrt

/-- The statement `lookup[k] = append(lookup[k], n)` on a `map[Vector][]Vector`. -/
def pushNormal (lookup : VectorOf K → Option (List (VectorOf K))) (k n : VectorOf K) :
    VectorOf K → Option (List (VectorOf K)) :=
  fun k1 => if k1.eq k then some ((lookup k).getD [] ++ [n]) else lookup k1

/-- The statement `lookup[k] = lookup[k].Add(n)` on a `map[Vector]Vector`. -/
def addNormal (lookup : VectorOf K → Option (VectorOf K)) (k n : VectorOf K) :
    VectorOf K → Option (VectorOf K) :=
  fun k1 => if k1.eq k then some (((lookup k).getD VectorOf.zero).Add n) else lookup k1

def Mesh.SmoothNormalsThreshold (E : MeshEnv K Mat) (h : Heap K) (m : Mesh K) (radians : K) :
    Heap K × Mesh K :=
  let threshold := E.Cos radians
  let lookup : VectorOf K → Option (List (VectorOf K)) :=
    m.Triangles.foldl
      (fun lookup p =>
        let t := h p
        let lookup := pushNormal lookup t.V1 t.N1
        let lookup := pushNormal lookup t.V2 t.N2
        pushNormal lookup t.V3 t.N3)
      (fun _ => none)
  let h := m.Triangles.foldl
    (fun h p =>
      let t := h p
      let t := { t with N1 := smoothNormalsThreshold E.Sqrt t.N1 ((lookup t.V1).getD []) threshold }
      let t := { t with N2 := smoothNormalsThreshold E.Sqrt t.N2 ((lookup t.V2).getD []) threshold }
      let t := { t with N3 := smoothNormalsThreshold E.Sqrt t.N3 ((lookup t.V3).getD []) threshold }
      h.set p t)
    h
  (h, m)

def Mesh.SmoothNormals (E : MeshEnv K Mat) (h : Heap K) (m : Mesh K) : Heap K × Mesh K :=
  let lookup : VectorOf K → Option (VectorOf K) :=
    m.Triangles.foldl
      (fun lookup p =>
        let t := h p
        let lookup := addNormal lookup t.V1 t.N1
        let lookup := addNormal lookup t.V2 t.N2
        addNormal lookup t.V3 t.N3)
      (fun _ => none)
  let lookup : VectorOf K → Option (VectorOf K) :=
    fun k => (lookup k).map fun v => v.Normalize E.Sqrt
  let h := m.Triangles.foldl
    (fun h p =>
      let t := h p
      let t := { t with N1 := (lookup t.V1).getD VectorOf.zero }
      let t := { t with N2 := (lookup t.V2).getD VectorOf.zero }
      let t := { t with N3 := (lookup t.V3).getD VectorOf.zero }
      h.set p t)
    h
  (h, m)

def Mesh.Transform (E : MeshEnv K Mat) (h : Heap K) (m : Mesh K) (matrix : Mat) :
    Heap K × Mesh K :=
  let h := m.Triangles.foldl
    (fun h p =>
      let t := h p
      let t := { t with V1 := E.MulPosition matrix t.V1 }
      let t := { t with V2 := E.MulPosition matrix t.V2 }
      let t := { t with V3 := E.MulPosition matrix t.V3 }
      let t := { t with N1 := E.MulDirection matrix t.N1 }
      let t := { t with N2 := E.MulDirection matrix t.N2 }
      let t := { t with N3 := E.MulDirection matrix t.N3 }
      h.set p (E.TriangleUpdateBoundingBox t))
    h
  let m := m.UpdateBoundingBox E h
  (h, { m with mesh := none })

def Mesh.MoveTo (E : MeshEnv K Mat) (h : Heap K) (m : Mesh K) (position anchor : VectorOf K) :
    Heap K × Mesh K :=
  let matrix := E.Translate (position.Sub (E.BoxAnchor m.Box anchor))
  m.Transform E h matrix

def Mesh.FitInside (E : MeshEnv K Mat) (h : Heap K) (m : Mesh K) (box : BoxOf K)
    (anchor : VectorOf K) : Heap K × Mesh K :=
  let scale := E.MinComponent (E.VectorDiv (E.BoxSize box) (E.BoxSize m.BoundingBox))
  let extra := (E.BoxSize box).Sub ((E.BoxSize m.BoundingBox).MulScalar scale)
  let matrix := E.Identity
  let matrix := E.MatrixTranslate matrix (m.BoundingBox.Min.MulScalar (-1))
  let matrix := E.MatrixScale matrix ⟨scale, scale, scale⟩
  let matrix := E.MatrixTranslate matrix (box.Min.Add (E.VectorMul extra anchor))
  m.Transform E h matrix

def Mesh.UnitCube (E : MeshEnv K Mat) (h : Heap K) (m : Mesh K) : Heap K × Mesh K :=
  let r := m.FitInside E h ⟨VectorOf.zero, ⟨1, 1, 1⟩⟩ VectorOf.zero
  r.2.MoveTo E r.1 VectorOf.zero ⟨1 / (1 + 1), 1 / (1 + 1), 1 / (1 + 1)⟩

def Mesh.SwapAxes (E : MeshEnv K Mat) (h : Heap K) (m : Mesh K) (x y z : Int) :
    Heap K × Mesh K :=
  let h := m.Triangles.foldl (fun h p => h.set p (E.TriangleSwapAxes (h p) x y z)) h
  let m := m.UpdateBoundingBox E h
  (h, { m with mesh := none })

/-- The operations of a mesh after `NewMesh`. -/
inductive MeshOp (K : Type) (Mat : Type) where
  | compile
  | transform (matrix : Mat)
  | moveTo (position anchor : VectorOf K)
  | fitInside (box : BoxOf K) (anchor : VectorOf K)
  | unitCube
  | swapAxes (x y z : Int)
  | smoothNormals
  | smoothNormalsThreshold (radians : K)
  | updateBoundingBox

/-- One operation on the mesh `m` in the heap `h`: the heap and the mesh after it. -/
def MeshOp.apply (E : MeshEnv K Mat) (h : Heap K) (m : Mesh K) : MeshOp K Mat → Heap K × Mesh K
  | .compile => (h, m.Compile h)
  | .transform matrix => m.Transform E h matrix
  | .moveTo position anchor => m.MoveTo E h position anchor
  | .fitInside box anchor => m.FitInside E h box anchor
  | .unitCube => m.UnitCube E h
  | .swapAxes x y z => m.SwapAxes E h x y z
  | .smoothNormals => m.SmoothNormals E h
  | .smoothNormalsThreshold radians => m.SmoothNormalsThreshold E h radians
  | .updateBoundingBox => (h, m.UpdateBoundingBox E h)

/-- Run a sequence of operations on one mesh, the first of the list first. -/
def runOps (E : MeshEnv K Mat) (ops : List (MeshOp K Mat)) (s : Heap K × Mesh K) :
    Heap K × Mesh K :=
  ops.foldl (fun s op => op.apply E s.1 s.2) s

/-- One operation on the mesh number `i` of a family of meshes over one heap. -/
def stepAt (E : MeshEnv K Mat) (s : Heap K × List (Mesh K)) (i : Nat) (op : MeshOp K Mat) :
    Heap K × List (Mesh K) :=
  match s.2[i]? with
  | none => s
  | some m => ((op.apply E s.1 m).1, s.2.set i (op.apply E s.1 m).2)

/-- Run a sequence of operations, each on the mesh it names, the first of the
list first. -/
def runAll (E : MeshEnv K Mat) (steps : List (Nat × MeshOp K Mat))
    (s : Heap K × List (Mesh K)) : Heap K × List (Mesh K) :=
  steps.foldl (fun s st => stepAt E s st.1 st.2) s

end MeshOps

/-- The invariant of the acceleration cache: a compiled structure that is
present holds, for every index `i`, the three vertex positions that the
triangle `m.Triangles[i]` has now. -/
def CacheOk {K : Type} (h : Heap K) (m : Mesh K) : Prop :=
  ∀ built : Compiled K, m.mesh = some built →
    built.length = m.Triangles.length ∧
    ∀ (i : Nat) (p : Ptr), m.Triangles[i]? = some p → built[i]? = some ((h p).V1, (h p).V2, (h p).V3)

/-- No triangle belongs to two meshes of the family. -/
def Unshared {K : Type} (ms : List (Mesh K)) : Prop :=
  ∀ (i j : Nat) (a b : Mesh K), i ≠ j → ms[i]? = some a → ms[j]? = some b → ∀ p ∈ a.Triangles, p ∉ b.Triangles

/-! ## Normal smoothing as a statement about corners -/

section Corners

variable {K : Type} [Add K] [Sub K] [Mul K] [Div K] [Zero K] [LE K]
  [DecidableRel (LE.le : K → K → Prop)] [BEq K]

/-- The corners of the triangles, as pairs of vertex position and normal, in the
order the loops of `SmoothNormals` visit them. -/
def corners (ts : List (Triangle K)) : List (VectorOf K × VectorOf K) :=
  ts.flatMap fun t => [(t.V1, t.N1), (t.V2, t.N2), (t.V3, t.N3)]

/-- The normals of all corners whose vertex position equals `p`, with Go's `==`. -/
def normalsAt (ts : List (Triangle K)) (p : VectorOf K) : List (VectorOf K) :=
  ((corners ts).filter fun c => p.eq c.1).map fun c => c.2

/-- Replace the three normals of a triangle by `f position normal`. -/
def withNormals (f : VectorOf K → VectorOf K → VectorOf K) (t : Triangle K) : Triangle K :=
  { t with N1 := f t.V1 t.N1, N2 := f t.V2 t.N2, N3 := f t.V3 t.N3 }

/-- The result of `SmoothNormals` in the words of the claim: every corner gets
the normalized sum of the normals of all corners at its vertex position. -/
def smoothNormalsSpec (sqrt : K → K) (ts : List (Triangle K)) : List (Triangle K) :=
  ts.map (withNormals fun p _ => (VectorOf.sum (normalsAt ts p)).Normalize sqrt)

/-- The result of `SmoothNormalsThreshold` in the words of the claim: every
corner gets the normalized sum of the normals at its vertex position whose dot
product with the corner's own normal is at least the threshold. -/
def smoothNormalsThresholdSpec (sqrt : K → K) (ts : List (Triangle K)) (threshold : K) :
    List (Triangle K) :=
  ts.map (withNormals fun p n =>
    (VectorOf.sum ((normalsAt ts p).filter fun x => decide (threshold ≤ x.Dot n))).Normalize sqrt)

/-- A map sends keys that are `==` to the same value. -/
def Respects {β : Type} (lk : VectorOf K → Option β) : Prop :=
  ∀ a b, a.eq b = true → lk a = lk b

/-- The map `lookup` of `SmoothNormals` after its second loop, as a function
of the triangle values: the normalized sum stored under every key. -/
def smoothLookup (sqrt : K → K) (ts : List (Triangle K)) : VectorOf K → Option (VectorOf K) :=
  fun k =>
    ((ts.foldl
      (fun lookup t => addNormal (addNormal (addNormal lookup t.V1 t.N1) t.V2 t.N2) t.V3 t.N3)
      (fun _ => none)) k).map fun v => v.Normalize sqrt

/-- The body of the third loop of `SmoothNormals`, as a function of the
triangle it writes. -/
def smoothWrite (lookup : VectorOf K → Option (VectorOf K)) (t : Triangle K) : Triangle K :=
  { t with
    N1 := (lookup t.V1).getD VectorOf.zero
    N2 := (lookup t.V2).getD VectorOf.zero
    N3 := (lookup t.V3).getD VectorOf.zero }

/-- The map `lookup` of `SmoothNormalsThreshold`, as a function of the triangle values. -/
def thresholdLookup (ts : List (Triangle K)) : VectorOf K → Option (List (VectorOf K)) :=
  ts.foldl
    (fun lookup t => pushNormal (pushNormal (pushNormal lookup t.V1 t.N1) t.V2 t.N2) t.V3 t.N3)
    (fun _ => none)

/-- The body of the second loop of `SmoothNormalsThreshold`, as a function of
the triangle it writes. -/
def thresholdWrite (sqrt : K → K) (lookup : VectorOf K → Option (List (VectorOf K)))
    (threshold : K) (t : Triangle K) : Triangle K :=
  { t with
    N1 := smoothNormalsThreshold sqrt t.N1 ((lookup t.V1).getD []) threshold
    N2 := smoothNormalsThreshold sqrt t.N2 ((lookup t.V2).getD []) threshold
    N3 := smoothNormalsThreshold sqrt t.N3 ((lookup t.V3).getD []) threshold }

end Corners

/-! ## A concrete scene

A floor in the plane `z = 0` (shape 0), a spherical light of radius 1 centred
at `(0, 0, 2)` above it (shape 1) and a second spherical light of radius 1
centred at `(0, 0, -2)` below it (shape 2). -/

def white : Material := ⟨⟨1, 1, 1⟩, 0, 1, 0, 0, 0, 0⟩

def lamp (e : ℚ) : Material := ⟨⟨1, 1, 1⟩, e, 1, 0, 0, 0, 0⟩

/-- The no-hit sentinel `NoHit`. -/
def NoHit : Hit Nat :=
  ⟨none, 1000000000, false, fun r => ⟨0, Vector.zero, Vector.zero, r, white, false⟩⟩

/-- A hit of shape `sh` at the origin with normal `(0, 0, 1)`. -/
def hitAt (sh : Nat) (t : ℚ) (m : Material) : Hit Nat :=
  ⟨some sh, t, true, fun _ => ⟨sh, ⟨0, 0, 0⟩, ⟨0, 0, 1⟩, ⟨⟨0, 0, 0⟩, ⟨0, 0, 1⟩⟩, m, false⟩⟩

/-- The ray down the `z` axis from `(0, 0, 1/2)`, which meets the floor at the origin. -/
def downRay : Ray := ⟨⟨0, 0, 1 / 2⟩, ⟨0, 0, -1⟩⟩

/-- The ray up the `z` axis from the origin, which meets the upper light. -/
def upRay : Ray := ⟨⟨0, 0, 0⟩, ⟨0, 0, 1⟩⟩

/-- The ray along the `x` axis from the origin, which meets nothing. -/
def sideRay : Ray := ⟨⟨0, 0, 0⟩, ⟨1, 0, 0⟩⟩

def demoIntersect (r : Ray) : Hit Nat :=
  if r = downRay then hitAt 0 (1 / 2) white
  else if r = upRay then hitAt 1 1 (lamp 30)
  else NoHit

def demoScene : Scene Nat :=
  ⟨⟨1 / 5, 1 / 5, 1 / 5⟩, none, 0, [1, 2], demoIntersect⟩

/-- The empty scene with background `(0.2, 0.2, 0.2)` and no texture. -/
def emptyScene : Scene Nat :=
  ⟨⟨1 / 5, 1 / 5, 1 / 5⟩, none, 0, [], fun _ => NoHit⟩

/-- A random source that yields `1/2` at every draw, a global generator that
counts, a diffuse bounce along the normal, and `math` functions tabulated to
four decimals at the arguments the concrete scene meets. -/
def demoEnv : Env Nat Nat Nat where
  Sqrt := fun q => if q = 4 then 2 else if q = 0 then 0 else 1
  Atan2 := fun _ _ => 0
  Asin := fun _ => 5236 / 10000
  Tan := fun _ => 5774 / 10000
  Cos := fun _ => 8660 / 10000
  Sin := fun _ => 1 / 2
  Pi := 31416 / 10000
  Float64 := fun r => (1 / 2, r + 1)
  Intn := fun g n => (g % n, g + 1)
  Bounce := fun _ info _ _ mode r =>
    ((info.Ray, false, if mode = BounceModeSpecular then 0 else 1), r + 1)
  RandomUnitVector := fun r => (⟨1, 0, 0⟩, r + 1)
  AsSphere := fun sh =>
    if sh = 1 then some (⟨0, 0, 2⟩, 1) else if sh = 2 then some (⟨0, 0, -2⟩, 1) else none
  BoundingBox := fun _ => ⟨⟨-10, -10, -1⟩, ⟨10, 10, 0⟩⟩
  MaterialAt := fun sh _ => if sh = 1 then lamp 30 else if sh = 2 then lamp 10 else white

/-- The concrete environment with a random source that always draws the
largest value below 1, `1 - 2^-53`. -/
def edgeEnv : Env Nat Nat Nat :=
  { demoEnv with Float64 := fun r => (9007199254740991 / 9007199254740992, r + 1) }

/-- The initial state: both generators at position `g`, `r`, and an empty trace. -/
def st0 (r g : Nat) : St Nat Nat := ⟨r, g, []⟩


/-- The state of the concrete run after `directLight` has picked a light and
sampled its light point, from the initial state with the global generator at `g`. -/
def litState (g : Nat) : St Nat Nat :=
  ⟨3, g + 1, [Event.intn 2 (g % 2), Event.float64 (1 / 2), Event.float64 (1 / 2),
    Event.randomUnitVector]⟩

/-- The concrete environment with `math` functions that are exact on the 3-4-5
triangle: `sqrt 25 = 5`, and at the angle `asin (3/5)` (tabulated as 0.6435)
`sin = 3/5`, `cos = 4/5`, `tan = 3/4`. -/
def triEnv : Env Nat Nat Nat :=
  { demoEnv with
    Sqrt := fun q => if q = 25 then 5 else 1
    Asin := fun _ => 6435 / 10000
    Sin := fun _ => 3 / 5
    Cos := fun _ => 4 / 5
    Tan := fun _ => 3 / 4 }

/-- A black material of emittance `e`. -/
def black (e : ℚ) : Material := ⟨⟨0, 0, 0⟩, e, 1, 0, 0, 0, 0⟩

/-- The concrete scene with the upper sphere (shape 1) made of `black e`; the
sphere is among the lights exactly when it is emissive. -/
def blackScene (e : ℚ) : Scene Nat :=
  ⟨⟨1 / 5, 1 / 5, 1 / 5⟩, none, 0, if e > 0 then [1, 2] else [2],
    fun r => if r = upRay then hitAt 1 1 (black e) else NoHit⟩

/-- The concrete environment with the upper sphere made of `black e`. -/
def blackEnv (e : ℚ) : Env Nat Nat Nat :=
  { demoEnv with
    MaterialAt := fun sh _ => if sh = 1 then black e else if sh = 2 then lamp 10 else white }

/-- A random source that yields `999/1000` at every draw: the disk sample of the
rejection loop is then `(0.998, 0.998)`, outside the unit disk, at every iteration. -/
def stuckEnv : Env Nat Nat Nat :=
  { demoEnv with Float64 := fun r => (999 / 1000, r + 1) }

/-- A concrete environment for the mesh over the scalar type `K`: a matrix is
a translation vector, the bounding box of a triangle list is not computed (the
unit box), and the square root and the cosine are passed in. -/
def plainMeshEnv {K : Type} [Add K] [Sub K] [Zero K] [One K] (sqrt cos : K → K) :
    MeshEnv K (VectorOf K) where
  Sqrt := sqrt
  Cos := cos
  BoxForTriangles := fun _ => ⟨⟨0, 0, 0⟩, ⟨1, 1, 1⟩⟩
  TriangleUpdateBoundingBox := fun t => t
  TriangleSwapAxes := fun t _ _ _ => { t with V1 := t.V2, V2 := t.V1 }
  MulPosition := fun m v => ⟨v.X + m.X, v.Y + m.Y, v.Z + m.Z⟩
  MulDirection := fun _ v => v
  Identity := ⟨0, 0, 0⟩
  Translate := fun v => v
  MatrixTranslate := fun m v => ⟨m.X + v.X, m.Y + v.Y, m.Z + v.Z⟩
  MatrixScale := fun m _ => m
  BoxAnchor := fun b _ => b.Min
  BoxSize := fun b => ⟨b.Max.X - b.Min.X, b.Max.Y - b.Min.Y, b.Max.Z - b.Min.Z⟩
  VectorDiv := fun a _ => a
  VectorMul := fun a _ => a
  MinComponent := fun v => v.X

/-- The triangle with the vertices `(0,0,0)`, `(1,0,0)`, `(0,1,0)` and the
normal `n` at each, over the scalar type `K`. -/
def flatTriangle {K : Type} [Zero K] [One K] (n : VectorOf K) : Triangle K :=
  ⟨⟨0, 0, 0⟩, ⟨1, 0, 0⟩, ⟨0, 1, 0⟩, n, n, n, ⟨⟨0, 0, 0⟩, ⟨1, 1, 1⟩⟩⟩

/-- The binary64 value `math.Pi`. -/
def F64.pi : F64 := F64.fin (884279719003555 / 281474976710656)

/-- The values of `math.Cos` at the two arguments the concrete meshes use:
`math.Cos(0) = 1` and `math.Cos(math.Pi) = -1`. -/
def cosTable (x : F64) : F64 := if x == F64.pi then F64.fin (-1) else F64.fin 1

/-- The concrete environment in binary64. -/
def floatMeshEnv : MeshEnv F64 (VectorOf F64) := plainMeshEnv F64.sqrt cosTable

/-- The unit box in binary64. -/
def unitBox : BoxOf F64 := ⟨⟨0, 0, 0⟩, ⟨1, 1, 1⟩⟩

/-- A heap in binary64 that holds at every address the triangle with the
vertices `(0,0,0)`, `(1,0,0)`, `(0,1,0)` and the normal `(1,1,7)` at each. -/
def roughHeap : Heap F64 := fun _ =>
  ⟨⟨0, 0, 0⟩, ⟨1, 0, 0⟩, ⟨0, 1, 0⟩,
    ⟨1, 1, F64.fin 7⟩, ⟨1, 1, F64.fin 7⟩, ⟨1, 1, F64.fin 7⟩, unitBox⟩

/-- The binary64 values written `0.6` and `0.8`; the vector `(0.6, 0, 0.8)` has
the dot product `1` with itself in binary64. -/
def unitNormal : VectorOf F64 :=
  ⟨F64.fin (5404319552844595 / 9007199254740992), 0, F64.fin (3602879701896397 / 4503599627370496)⟩

/-- A heap in binary64 with three triangles at the addresses 0, 1, 2 that share
the vertex `(0,0,0)` and nothing else, every normal `(0.6, 0, 0.8)`. -/
def fanHeap : Heap F64 := fun p =>
  ⟨⟨0, 0, 0⟩, ⟨F64.ofInt (2 * p + 1), 0, 0⟩, ⟨F64.ofInt (2 * p + 2), 0, 0⟩,
    unitNormal, unitNormal, unitNormal, unitBox⟩

/-! ## Binary64: rounding and the grid size -/

section Binary64

open F64

theorem bitLengthAux_zero (fuel : Nat) : bitLengthAux fuel 0 = 0 := by
  cases fuel <;> simp [bitLengthAux]

theorem bitLengthAux_spec : ∀ (fuel n : Nat), n ≤ fuel →
    n < 2 ^ bitLengthAux fuel n ∧ (n ≠ 0 → 2 ^ (bitLengthAux fuel n - 1) ≤ n)
  | 0, n, h => by
    have : n = 0 := by omega
    subst this
    simp [bitLengthAux]
  | fuel + 1, n, h => by
    unfold bitLengthAux
    by_cases hn : n = 0
    · simp [hn]
    · rw [if_neg hn]
      have ih := bitLengthAux_spec fuel (n / 2) (by omega)
      refine ⟨?_, fun _ => ?_⟩
      · have := ih.1
        rw [pow_succ]
        omega
      · simp only [Nat.add_sub_cancel]
        by_cases h2 : n / 2 = 0
        · have h1 : n = 1 := by omega
          subst h1
          simp [bitLengthAux_zero]
        · have h3 := ih.2 h2
          have h4 : 1 ≤ bitLengthAux fuel (n / 2) := by
            by_contra hc
            have h5 : bitLengthAux fuel (n / 2) = 0 := by omega
            have := ih.1
            rw [h5] at this
            omega
          have h6 : 2 ^ bitLengthAux fuel (n / 2) = 2 ^ (bitLengthAux fuel (n / 2) - 1) * 2 := by
            rw [← pow_succ]
            congr 1
            omega
          rw [h6]
          omega

theorem bitLength_spec (n : Nat) (hn : n ≠ 0) :
    2 ^ (bitLength n - 1) ≤ n ∧ n < 2 ^ bitLength n ∧ 1 ≤ bitLength n := by
  have h := bitLengthAux_spec n n le_rfl
  refine ⟨h.2 hn, h.1, ?_⟩
  unfold bitLength
  by_contra hc
  have h5 : bitLengthAux n n = 0 := by omega
  have := h.1
  rw [h5] at this
  omega

theorem ilog2_spec (q : ℚ) (hq : 0 < q) :
    (2 : ℚ) ^ ilog2 q ≤ q ∧ q < (2 : ℚ) ^ (ilog2 q + 1) := by
  have hnum : 0 < q.num := Rat.num_pos.2 hq
  have hp0 : q.num.toNat ≠ 0 := by omega
  have hd0 : q.den ≠ 0 := q.den_nz
  obtain ⟨hp1, hp2, hp3⟩ := bitLength_spec _ hp0
  obtain ⟨hd1, hd2, hd3⟩ := bitLength_spec _ hd0
  have hqe : q = (q.num.toNat : ℚ) / (q.den : ℚ) := by
    have h1 : ((q.num.toNat : Int) : ℚ) = (q.num : ℚ) := by
      rw [Int.toNat_of_nonneg hnum.le]
    have h2 : (q.num.toNat : ℚ) = (q.num : ℚ) := by
      rw [← h1]; norm_cast
    rw [h2]
    exact (Rat.num_div_den q).symm
  have hdpos : (0 : ℚ) < (q.den : ℚ) := by exact_mod_cast q.den_pos
  have hp1q : (2 : ℚ) ^ ((bitLength q.num.toNat : Int) - 1) ≤ (q.num.toNat : ℚ) := by
    have : ((bitLength q.num.toNat : Int) - 1) = ((bitLength q.num.toNat - 1 : Nat) : Int) := by
      omega
    rw [this, zpow_natCast]
    exact_mod_cast hp1
  have hp2q : (q.num.toNat : ℚ) < (2 : ℚ) ^ (bitLength q.num.toNat : Int) := by
    rw [zpow_natCast]
    exact_mod_cast hp2
  have hd1q : (2 : ℚ) ^ ((bitLength q.den : Int) - 1) ≤ (q.den : ℚ) := by
    have : ((bitLength q.den : Int) - 1) = ((bitLength q.den - 1 : Nat) : Int) := by
      omega
    rw [this, zpow_natCast]
    exact_mod_cast hd1
  have hd2q : (q.den : ℚ) < (2 : ℚ) ^ (bitLength q.den : Int) := by
    rw [zpow_natCast]
    exact_mod_cast hd2
  have h2 : (0 : ℚ) < 2 := by norm_num
  have hup : q < (2 : ℚ) ^ ((bitLength q.num.toNat : Int) - (bitLength q.den : Int) + 1) := by
    have : ((bitLength q.num.toNat : Int) - (bitLength q.den : Int) + 1) =
        (bitLength q.num.toNat : Int) - ((bitLength q.den : Int) - 1) := by ring
    rw [this, zpow_sub₀ h2.ne']
    calc q = (q.num.toNat : ℚ) / (q.den : ℚ) := hqe
      _ < _ := div_lt_div₀ hp2q hd1q (zpow_pos h2 _).le (zpow_pos h2 _)
  have hlo : (2 : ℚ) ^ ((bitLength q.num.toNat : Int) - (bitLength q.den : Int) - 1) ≤ q := by
    have : ((bitLength q.num.toNat : Int) - (bitLength q.den : Int) - 1) =
        ((bitLength q.num.toNat : Int) - 1) - (bitLength q.den : Int) := by ring
    rw [this, zpow_sub₀ h2.ne']
    calc _ ≤ (q.num.toNat : ℚ) / (q.den : ℚ) :=
          div_le_div₀ (Nat.cast_nonneg _) hp1q hdpos hd2q.le
      _ = q := hqe.symm
  unfold ilog2
  simp only
  split
  · rename_i h
    exact ⟨h, hup⟩
  · rename_i h
    refine ⟨hlo, ?_⟩
    rw [sub_add_cancel]
    exact not_le.1 h

theorem ilog2_unique (q : ℚ) (j : Int) (h1 : (2 : ℚ) ^ j ≤ q) (h2 : q < (2 : ℚ) ^ (j + 1)) :
    ilog2 q = j := by
  have hq : 0 < q := lt_of_lt_of_le (zpow_pos (by norm_num) _) h1
  obtain ⟨h3, h4⟩ := ilog2_spec q hq
  have h5 : (1 : ℚ) < 2 := by norm_num
  have a : j < ilog2 q + 1 := (zpow_lt_zpow_iff_right₀ h5).1 (lt_of_le_of_lt h1 h4)
  have b : ilog2 q < j + 1 := (zpow_lt_zpow_iff_right₀ h5).1 (lt_of_le_of_lt h3 h2)
  omega

theorem ilog2_mono (a b : ℚ) (ha : 0 < a) (hab : a ≤ b) : ilog2 a ≤ ilog2 b := by
  obtain ⟨h1, _⟩ := ilog2_spec a ha
  obtain ⟨_, h4⟩ := ilog2_spec b (lt_of_lt_of_le ha hab)
  have h5 : (1 : ℚ) < 2 := by norm_num
  have : ilog2 a < ilog2 b + 1 :=
    (zpow_lt_zpow_iff_right₀ h5).1 (lt_of_le_of_lt (h1.trans hab) h4)
  omega



theorem rne_bounds (x : ℚ) : ⌊x⌋ ≤ rne x ∧ rne x ≤ ⌊x⌋ + 1 := by
  unfold rne
  split_ifs <;> constructor <;> omega

theorem rne_intCast (n : Int) : rne (n : ℚ) = n := by
  unfold rne
  simp

theorem rne_mono {x y : ℚ} (h : x ≤ y) : rne x ≤ rne y := by
  have hf : ⌊x⌋ ≤ ⌊y⌋ := Int.floor_mono h
  rcases lt_or_eq_of_le hf with h1 | h1
  · have := (rne_bounds x).2
    have := (rne_bounds y).1
    omega
  · have hb := (rne_bounds y).1
    unfold rne
    unfold rne at hb
    rw [← h1] at hb ⊢
    have hxy : x - ⌊x⌋ ≤ y - ⌊x⌋ := by linarith
    split_ifs <;> first | omega | (exfalso; linarith)

theorem rne_le_of_le {x : ℚ} {k : Int} (h : x ≤ k) : rne x ≤ k := by
  have := rne_mono h
  rwa [rne_intCast] at this

theorem le_rne_of_le {x : ℚ} {k : Int} (h : (k : ℚ) ≤ x) : k ≤ rne x := by
  have := rne_mono h
  rwa [rne_intCast] at this

theorem ulpExp_spec (q : ℚ) (hq : 0 < q) :
    q / (2 : ℚ) ^ ulpExp q < 2 ^ (53 : ℕ) ∧
    (-1074 < ulpExp q → (2 : ℚ) ^ (52 : ℕ) ≤ q / (2 : ℚ) ^ ulpExp q) := by
  obtain ⟨h1, h2⟩ := ilog2_spec q hq
  have h2' : (0 : ℚ) < 2 := by norm_num
  have hone : (1 : ℚ) ≤ 2 := by norm_num
  have hpos : (0 : ℚ) < (2 : ℚ) ^ ulpExp q := zpow_pos h2' _
  constructor
  · rw [div_lt_iff₀ hpos, ← zpow_natCast, ← zpow_add₀ h2'.ne']
    refine lt_of_lt_of_le h2 (zpow_le_zpow_right₀ hone ?_)
    unfold ulpExp
    have := le_max_left (ilog2 q - 52) (-1074)
    push_cast
    omega
  · intro h
    have he : ulpExp q = ilog2 q - 52 := by
      unfold ulpExp at h ⊢
      rcases max_cases (ilog2 q - 52) (-1074) with ⟨h3, _⟩ | ⟨h3, _⟩
      · exact h3
      · rw [h3] at h
        omega
    rw [le_div_iff₀ hpos, ← zpow_natCast, ← zpow_add₀ h2'.ne', he]
    have : ((52 : ℕ) : Int) + (ilog2 q - 52) = ilog2 q := by push_cast; ring
    rw [this]
    exact h1

theorem ulpExp_mono (a b : ℚ) (ha : 0 < a) (hab : a ≤ b) : ulpExp a ≤ ulpExp b := by
  unfold ulpExp
  have := ilog2_mono a b ha hab
  exact max_le_max (by omega) le_rfl

theorem flPos_nonneg (q : ℚ) : 0 ≤ flPos q := by
  unfold flPos
  split
  · exact le_rfl
  · rename_i h
    have hq : 0 < q := not_le.1 h
    have h2 : (0 : ℚ) < (2 : ℚ) ^ ulpExp q := zpow_pos (by norm_num) _
    have : (0 : Int) ≤ rne (q / (2 : ℚ) ^ ulpExp q) :=
      le_rne_of_le (by simpa using (div_pos hq h2).le)
    exact mul_nonneg (by exact_mod_cast this) h2.le

theorem flPos_mono {a b : ℚ} (hab : a ≤ b) : flPos a ≤ flPos b := by
  by_cases ha : a ≤ 0
  · have : flPos a = 0 := by simp [flPos, ha]
    rw [this]
    exact flPos_nonneg b
  · have ha' : 0 < a := not_le.1 ha
    have hb' : 0 < b := lt_of_lt_of_le ha' hab
    have hb : ¬ b ≤ 0 := not_le.2 hb'
    have h2 : (0 : ℚ) < 2 := by norm_num
    have hone : (1 : ℚ) ≤ 2 := by norm_num
    have hea : (0 : ℚ) < (2 : ℚ) ^ ulpExp a := zpow_pos h2 _
    have heb : (0 : ℚ) < (2 : ℚ) ^ ulpExp b := zpow_pos h2 _
    simp only [flPos, ha, hb, if_false]
    rcases lt_or_eq_of_le (ulpExp_mono a b ha' hab) with he | he
    · have h53 : rne (a / (2 : ℚ) ^ ulpExp a) ≤ ((2 ^ (53 : ℕ) : ℕ) : Int) :=
        rne_le_of_le (by push_cast; exact (ulpExp_spec a ha').1.le)
      have hlow : -1074 < ulpExp b := by
        have : -1074 ≤ ulpExp a := le_max_right _ _
        omega
      have h52 : ((2 ^ (52 : ℕ) : ℕ) : Int) ≤ rne (b / (2 : ℚ) ^ ulpExp b) :=
        le_rne_of_le (by push_cast; exact (ulpExp_spec b hb').2 hlow)
      have h53q : (rne (a / (2 : ℚ) ^ ulpExp a) : ℚ) ≤ 2 ^ (53 : ℕ) := by exact_mod_cast h53
      have h52q : (2 : ℚ) ^ (52 : ℕ) ≤ (rne (b / (2 : ℚ) ^ ulpExp b) : ℚ) := by exact_mod_cast h52
      calc (rne (a / (2 : ℚ) ^ ulpExp a) : ℚ) * (2 : ℚ) ^ ulpExp a
          ≤ 2 ^ (53 : ℕ) * (2 : ℚ) ^ ulpExp a := mul_le_mul_of_nonneg_right h53q hea.le
        _ = (2 : ℚ) ^ (ulpExp a + 53) := by
            rw [zpow_add₀ h2.ne', mul_comm]; norm_cast
        _ ≤ (2 : ℚ) ^ (ulpExp b + 52) := zpow_le_zpow_right₀ hone (by omega)
        _ = 2 ^ (52 : ℕ) * (2 : ℚ) ^ ulpExp b := by
            rw [zpow_add₀ h2.ne', mul_comm]; norm_cast
        _ ≤ _ := mul_le_mul_of_nonneg_right h52q heb.le
    · rw [he]
      have : rne (a / (2 : ℚ) ^ ulpExp b) ≤ rne (b / (2 : ℚ) ^ ulpExp b) :=
        rne_mono (div_le_div_of_nonneg_right hab heb.le)
      exact mul_le_mul_of_nonneg_right (by exact_mod_cast this) heb.le

/-- A natural number below `2^53` is a binary64 value. -/
theorem flPos_natCast (n : Nat) (hn : n < 2 ^ 53) : flPos (n : ℚ) = n := by
  by_cases h0 : n = 0
  · subst h0
    simp [flPos]
  · have hq : (0 : ℚ) < (n : ℚ) := by exact_mod_cast Nat.pos_of_ne_zero h0
    have hnot : ¬ (n : ℚ) ≤ 0 := not_le.2 hq
    simp only [flPos, hnot, if_false]
    have h2 : (0 : ℚ) < 2 := by norm_num
    have h1 : (1 : ℚ) < 2 := by norm_num
    -- the exponent is not positive
    have hle : ulpExp (n : ℚ) ≤ 0 := by
      obtain ⟨h3, _⟩ := ilog2_spec (n : ℚ) hq
      have : (2 : ℚ) ^ ilog2 (n : ℚ) < (2 : ℚ) ^ (53 : Int) := by
        refine lt_of_le_of_lt h3 ?_
        have : (n : ℚ) < ((2 ^ 53 : ℕ) : ℚ) := by exact_mod_cast hn
        rw [show ((53 : Int)) = ((53 : ℕ) : Int) by rfl, zpow_natCast]
        exact_mod_cast this
      have h4 := (zpow_lt_zpow_iff_right₀ h1).1 this
      unfold ulpExp
      exact max_le (by omega) (by norm_num)
    obtain ⟨k, hk⟩ : ∃ k : Nat, ulpExp (n : ℚ) = -(k : Int) := ⟨(-ulpExp (n : ℚ)).toNat, by omega⟩
    rw [hk, zpow_neg, zpow_natCast, div_inv_eq_mul]
    have : ((n : ℚ) * 2 ^ k) = (((n * 2 ^ k : Nat) : Int) : ℚ) := by push_cast; ring
    rw [this, rne_intCast]
    push_cast
    field_simp

theorem isqrtAux_spec (n : Nat) : ∀ (i r : Nat), r * r ≤ n → n < (r + 2 ^ i) * (r + 2 ^ i) →
    isqrtAux n i r * isqrtAux n i r ≤ n ∧ n < (isqrtAux n i r + 1) * (isqrtAux n i r + 1)
  | 0, r, h1, h2 => by
    simpa [isqrtAux] using ⟨h1, h2⟩
  | i + 1, r, h1, h2 => by
    unfold isqrtAux
    split
    · rename_i h
      refine isqrtAux_spec n i _ h ?_
      have : r + 2 ^ i + 2 ^ i = r + 2 ^ (i + 1) := by rw [pow_succ]; ring
      rw [this]
      exact h2
    · rename_i h
      exact isqrtAux_spec n i r h1 (not_le.1 h)

theorem isqrt_eq (n : Nat) : isqrt n = Nat.sqrt n := by
  unfold isqrt
  apply Nat.eq_sqrt.2
  apply isqrtAux_spec
  · simp
  · by_cases h0 : n = 0
    · subst h0
      simp
    · obtain ⟨_, h2, _⟩ := bitLength_spec n h0
      have h3 : 1 ≤ 2 ^ bitLength n := Nat.one_le_two_pow
      simp only [zero_add]
      calc n < 2 ^ bitLength n := h2
        _ = 2 ^ bitLength n * 1 := by ring
        _ ≤ 2 ^ bitLength n * 2 ^ bitLength n := Nat.mul_le_mul_left _ h3



/-- The significand chosen by `sqrtPos` is `f` or `f + 1`. -/
theorem sqrtPos_ge_floor (q : ℚ) :
    ((isqrt ⌊q / (2 : ℚ) ^ (2 * (ilog2 q / 2 - 52))⌋.toNat : ℕ) : ℚ) *
      (2 : ℚ) ^ (ilog2 q / 2 - 52) ≤ sqrtPos q := by
  unfold sqrtPos
  simp only
  have h2 : (0 : ℚ) < (2 : ℚ) ^ (ilog2 q / 2 - 52) := zpow_pos (by norm_num) _
  refine mul_le_mul_of_nonneg_right ?_ h2.le
  split_ifs <;> push_cast <;> linarith

theorem sqrtPos_ge (q : ℚ) (hq : 0 < q) : (2 : ℚ) ^ (ilog2 q / 2) ≤ sqrtPos q := by
  refine le_trans ?_ (sqrtPos_ge_floor q)
  obtain ⟨h1, -⟩ := ilog2_spec q hq
  have h2 : (0 : ℚ) < 2 := by norm_num
  have hone : (1 : ℚ) ≤ 2 := by norm_num
  set e : Int := ilog2 q / 2 - 52 with he
  have hpe : (0 : ℚ) < (2 : ℚ) ^ (2 * e) := zpow_pos h2 _
  -- t ≥ 2^104
  have ht : (2 : ℚ) ^ (104 : ℕ) ≤ q / (2 : ℚ) ^ (2 * e) := by
    rw [le_div_iff₀ hpe, ← zpow_natCast, ← zpow_add₀ h2.ne']
    refine le_trans (zpow_le_zpow_right₀ hone ?_) h1
    push_cast
    omega
  have hfl : ((2 ^ 104 : ℕ) : Int) ≤ ⌊q / (2 : ℚ) ^ (2 * e)⌋ := by
    rw [Int.le_floor]
    exact_mod_cast ht
  have hnat : 2 ^ 104 ≤ ⌊q / (2 : ℚ) ^ (2 * e)⌋.toNat := by omega
  have hf : 2 ^ 52 ≤ isqrt ⌊q / (2 : ℚ) ^ (2 * e)⌋.toNat := by
    rw [isqrt_eq, Nat.le_sqrt]
    have h104 : (2 : ℕ) ^ 52 * 2 ^ 52 = 2 ^ 104 := by rw [← pow_add]
    rw [h104]
    exact hnat
  have hfq : (2 : ℚ) ^ (52 : ℕ) ≤ ((isqrt ⌊q / (2 : ℚ) ^ (2 * e)⌋.toNat : ℕ) : ℚ) := by
    exact_mod_cast hf
  have hpe1 : (0 : ℚ) < (2 : ℚ) ^ e := zpow_pos h2 _
  calc (2 : ℚ) ^ (ilog2 q / 2) = 2 ^ (52 : ℕ) * (2 : ℚ) ^ e := by
        rw [← zpow_natCast, ← zpow_add₀ h2.ne']
        congr 1
        push_cast
        omega
    _ ≤ _ := mul_le_mul_of_nonneg_right hfq hpe1.le



theorem flPos_le_pow (q : ℚ) (hq : 0 < q) : flPos q ≤ (2 : ℚ) ^ (ulpExp q + 53) := by
  have hnot : ¬ q ≤ 0 := not_le.2 hq
  have h2 : (0 : ℚ) < 2 := by norm_num
  have hea : (0 : ℚ) < (2 : ℚ) ^ ulpExp q := zpow_pos h2 _
  simp only [flPos, hnot, if_false]
  have h53 : rne (q / (2 : ℚ) ^ ulpExp q) ≤ ((2 ^ (53 : ℕ) : ℕ) : Int) :=
    rne_le_of_le (by push_cast; exact (ulpExp_spec q hq).1.le)
  have h53q : (rne (q / (2 : ℚ) ^ ulpExp q) : ℚ) ≤ 2 ^ (53 : ℕ) := by exact_mod_cast h53
  calc (rne (q / (2 : ℚ) ^ ulpExp q) : ℚ) * (2 : ℚ) ^ ulpExp q
      ≤ 2 ^ (53 : ℕ) * (2 : ℚ) ^ ulpExp q := mul_le_mul_of_nonneg_right h53q hea.le
    _ = (2 : ℚ) ^ (ulpExp q + 53) := by
        rw [zpow_add₀ h2.ne', mul_comm]; norm_cast

theorem ilog2_lt_of_lt (q : ℚ) (k : Int) (hq : 0 < q) (h : q < (2 : ℚ) ^ k) : ilog2 q < k := by
  obtain ⟨h1, -⟩ := ilog2_spec q hq
  exact (zpow_lt_zpow_iff_right₀ (by norm_num : (1 : ℚ) < 2)).1 (lt_of_le_of_lt h1 h)

theorem le_ilog2_of_le (q : ℚ) (k : Int) (h : (2 : ℚ) ^ k ≤ q) : k ≤ ilog2 q := by
  have hq : 0 < q := lt_of_lt_of_le (zpow_pos (by norm_num) _) h
  obtain ⟨-, h2⟩ := ilog2_spec q hq
  have := (zpow_lt_zpow_iff_right₀ (by norm_num : (1 : ℚ) < 2)).1 (lt_of_le_of_lt h h2)
  omega

theorem flPos_one : flPos 1 = 1 := by
  have := flPos_natCast 1 (by norm_num)
  simpa using this

/-- The conversion of a positive `int` below `2^63`: finite and at least one. -/
theorem ofInt_pos (s : Int) (h1 : 1 ≤ s) (h2 : s < 2 ^ 63) :
    ofInt s = fin (flPos (s : ℚ)) ∧ 1 ≤ flPos (s : ℚ) := by
  have hs1 : (1 : ℚ) ≤ (s : ℚ) := by exact_mod_cast h1
  have hs0 : (0 : ℚ) < (s : ℚ) := by linarith
  have hge : 1 ≤ flPos (s : ℚ) := by
    have := flPos_mono hs1
    rwa [flPos_one] at this
  have hlt : flPos (s : ℚ) < (2 : ℚ) ^ (1024 : ℤ) := by
    have hs63 : (s : ℚ) < (2 : ℚ) ^ (63 : ℤ) := by
      have : (s : ℚ) < ((2 ^ 63 : Int) : ℚ) := by exact_mod_cast h2
      rw [show ((63 : Int)) = ((63 : ℕ) : Int) by rfl, zpow_natCast]
      exact_mod_cast this
    have hl := ilog2_lt_of_lt _ _ hs0 hs63
    have hu : ulpExp (s : ℚ) + 53 ≤ 64 := by
      unfold ulpExp
      have : max (ilog2 (s : ℚ) - 52) (-1074) ≤ 11 := max_le (by omega) (by norm_num)
      omega
    calc flPos (s : ℚ) ≤ (2 : ℚ) ^ (ulpExp (s : ℚ) + 53) := flPos_le_pow _ hs0
      _ ≤ (2 : ℚ) ^ (64 : ℤ) := zpow_le_zpow_right₀ (by norm_num) hu
      _ < (2 : ℚ) ^ (1024 : ℤ) := zpow_lt_zpow_right₀ (by norm_num) (by norm_num)
  refine ⟨?_, hge⟩
  unfold ofInt rounded
  have habs : |(s : ℚ)| = s := abs_of_pos hs0
  have hneg : decide (s < 0) = false := by simp; omega
  rw [habs, hneg, if_neg (not_le.2 hlt), if_neg (by linarith)]
  simp

theorem gridSize_pos (samples : Int) (h : 1 ≤ samples) (h63 : samples < 2 ^ 63) :
    0 < gridSize samples := by
  obtain ⟨h1, h2⟩ := ofInt_pos samples h h63
  unfold gridSize
  rw [h1]
  have hq0 : 0 < flPos (samples : ℚ) := by linarith
  have hs : F64.sqrt (fin (flPos (samples : ℚ))) = fin (sqrtPos (flPos (samples : ℚ))) := by
    simp only [F64.sqrt]
    rw [if_neg (by linarith), if_neg (by linarith)]
  rw [hs]
  have hl : 0 ≤ ilog2 (flPos (samples : ℚ)) := le_ilog2_of_le _ 0 (by simpa using h2)
  have hge : (1 : ℚ) ≤ sqrtPos (flPos (samples : ℚ)) := by
    refine le_trans ?_ (sqrtPos_ge _ hq0)
    have : (0 : Int) ≤ ilog2 (flPos (samples : ℚ)) / 2 := by omega
    calc (1 : ℚ) = (2 : ℚ) ^ (0 : ℤ) := by simp
      _ ≤ _ := zpow_le_zpow_right₀ (by norm_num) this
  have hfl : (1 : Int) ≤ ⌊sqrtPos (flPos (samples : ℚ))⌋ := by
    rw [Int.le_floor]
    exact_mod_cast hge
  simp only [F64.toInt]
  rw [if_neg (by linarith)]
  omega

theorem sqrt_round_nat (s r0 B f m : ℕ) (hr : r0 * r0 ≤ s)
    (hr2 : s < (r0 + 1) * (r0 + 1)) (hrB : r0 + 1 ≤ B) (hf1 : f * f ≤ s * (B * B))
    (hf2 : s * (B * B) < (f + 1) * (f + 1))
    (hm : m = f ∨ (m = f + 1 ∧ f * f + f + 1 ≤ s * (B * B))) :
    r0 * B ≤ m ∧ m < (r0 + 1) * B := by
  have ha : r0 * B ≤ f := by
    by_contra hc
    have h1 : f + 1 ≤ r0 * B := by omega
    have h2 : (f + 1) * (f + 1) ≤ (r0 * B) * (r0 * B) := Nat.mul_le_mul h1 h1
    have h3 : (r0 * B) * (r0 * B) ≤ s * (B * B) := by
      calc (r0 * B) * (r0 * B) = (r0 * r0) * (B * B) := by ring
        _ ≤ s * (B * B) := Nat.mul_le_mul_right _ hr
    omega
  have hb : f < (r0 + 1) * B := by
    by_contra hc
    have h1 : (r0 + 1) * B ≤ f := by omega
    have h2 : ((r0 + 1) * B) * ((r0 + 1) * B) ≤ f * f := Nat.mul_le_mul h1 h1
    have hBpos : 0 < B * B := by
      have : 0 < B := by omega
      positivity
    have h3 : s * (B * B) < ((r0 + 1) * B) * ((r0 + 1) * B) := by
      calc s * (B * B) < ((r0 + 1) * (r0 + 1)) * (B * B) := Nat.mul_lt_mul_of_pos_right hr2 hBpos
        _ = ((r0 + 1) * B) * ((r0 + 1) * B) := by ring
    omega
  rcases hm with hm | ⟨hm, hup⟩
  · subst hm
    exact ⟨ha, hb⟩
  · subst hm
    refine ⟨by omega, ?_⟩
    by_contra hc
    have hfA : f + 1 = (r0 + 1) * B := by omega
    have h4 : (s + 1) * (B * B) ≤ ((r0 + 1) * B) * ((r0 + 1) * B) := by
      calc (s + 1) * (B * B) ≤ ((r0 + 1) * (r0 + 1)) * (B * B) :=
            Nat.mul_le_mul_right _ hr2
        _ = _ := by ring
    have h5 : (r0 + 1) * B ≤ B * B := Nat.mul_le_mul_right _ hrB
    rw [← hfA] at h4 h5
    nlinarith



/-- The rounded square root of a natural number below `2^52` as a quotient
`m / 2^E` with `sqrt s * 2^E ≤ m < (sqrt s + 1) * 2^E`. -/
theorem sqrtPos_nat (s : ℕ) (hs1 : 1 ≤ s) (hs : s < 2 ^ 52) :
    ∃ m E : ℕ, sqrtPos (s : ℚ) = (m : ℚ) / ((2 ^ E : ℕ) : ℚ) ∧
      Nat.sqrt s * 2 ^ E ≤ m ∧ m < (Nat.sqrt s + 1) * 2 ^ E := by
  have hq : (0 : ℚ) < (s : ℚ) := by exact_mod_cast hs1
  have h2 : (0 : ℚ) < 2 := by norm_num
  have hone : (1 : ℚ) ≤ 2 := by norm_num
  obtain ⟨hlo, hhi⟩ := ilog2_spec (s : ℚ) hq
  have hL0 : 0 ≤ ilog2 (s : ℚ) := le_ilog2_of_le _ 0 (by simpa using hs1)
  have hL51 : ilog2 (s : ℚ) < 52 := by
    apply ilog2_lt_of_lt _ _ hq
    rw [show ((52 : Int)) = ((52 : ℕ) : Int) by rfl, zpow_natCast]
    exact_mod_cast hs
  obtain ⟨j, hj⟩ : ∃ j : ℕ, (j : Int) = ilog2 (s : ℚ) / 2 := ⟨(ilog2 (s : ℚ) / 2).toNat, by omega⟩
  have hj25 : j ≤ 25 := by omega
  obtain ⟨E, hE⟩ : ∃ E : ℕ, E = 52 - j := ⟨_, rfl⟩
  have hEj : j + 1 ≤ E := by omega
  -- natural bounds on s
  have hs_hi : s < 2 ^ (j + 1) * 2 ^ (j + 1) := by
    have h1 : (s : ℚ) < (2 : ℚ) ^ ((2 * (j + 1) : ℕ) : Int) :=
      lt_of_lt_of_le hhi (zpow_le_zpow_right₀ hone (by push_cast; omega))
    rw [zpow_natCast] at h1
    have h3 : s < 2 ^ (2 * (j + 1)) := by exact_mod_cast h1
    rw [← pow_add]
    rw [show j + 1 + (j + 1) = 2 * (j + 1) by ring]
    exact h3
  have hr := Nat.sqrt_le s
  have hr2 := Nat.lt_succ_sqrt s
  have hrB : Nat.sqrt s + 1 ≤ 2 ^ E := by
    have h1 : Nat.sqrt s < 2 ^ (j + 1) := by
      by_contra hc
      have h3 : 2 ^ (j + 1) ≤ Nat.sqrt s := by omega
      have := Nat.mul_le_mul h3 h3
      omega
    have h4 : 2 ^ (j + 1) ≤ 2 ^ E := Nat.pow_le_pow_right (by norm_num) hEj
    omega
  -- the scaled argument
  have he : ilog2 (s : ℚ) / 2 - 52 = -(E : Int) := by omega
  have ht : (s : ℚ) / (2 : ℚ) ^ (2 * (ilog2 (s : ℚ) / 2 - 52)) =
      ((s * (2 ^ E * 2 ^ E) : ℕ) : ℚ) := by
    rw [he, show (2 * -(E : Int)) = -((2 * E : ℕ) : Int) by push_cast; ring, zpow_neg,
      zpow_natCast, div_inv_eq_mul]
    push_cast
    ring
  have hfl : ⌊((s * (2 ^ E * 2 ^ E) : ℕ) : ℚ)⌋.toNat = s * (2 ^ E * 2 ^ E) := by
    rw [Int.floor_natCast, Int.toNat_natCast]
  have hf1 := Nat.sqrt_le (s * (2 ^ E * 2 ^ E))
  have hf2 := Nat.lt_succ_sqrt (s * (2 ^ E * 2 ^ E))
  set N := s * (2 ^ E * 2 ^ E) with hN
  set f := Nat.sqrt N with hf
  -- the chosen significand
  have hm : ∃ m : ℕ, sqrtPos (s : ℚ) = (m : ℚ) * (2 : ℚ) ^ (-(E : Int)) ∧
      (m = f ∨ (m = f + 1 ∧ f * f + f + 1 ≤ N)) := by
    unfold sqrtPos
    simp only
    rw [ht, hfl, isqrt_eq, he]
    split_ifs with c1 c2 c3
    · exact ⟨f, rfl, Or.inl rfl⟩
    · refine ⟨f + 1, rfl, Or.inr ⟨rfl, ?_⟩⟩
      by_contra hc
      have h1 : N ≤ f * f + f := by omega
      have h3 : (N : ℚ) ≤ (f : ℚ) * f + f := by exact_mod_cast h1
      linarith
    · exfalso
      have h1 : (N : ℚ) = (f : ℚ) * f + f + 1 / 4 := le_antisymm (not_lt.1 c2) (not_lt.1 c1)
      have h3 : (4 : ℚ) * N = 4 * ((f : ℚ) * f + f) + 1 := by rw [h1]; ring
      have h4 : 4 * N = 4 * (f * f + f) + 1 := by exact_mod_cast h3
      omega
    · exfalso
      have h1 : (N : ℚ) = (f : ℚ) * f + f + 1 / 4 := le_antisymm (not_lt.1 c2) (not_lt.1 c1)
      have h3 : (4 : ℚ) * N = 4 * ((f : ℚ) * f + f) + 1 := by rw [h1]; ring
      have h4 : 4 * N = 4 * (f * f + f) + 1 := by exact_mod_cast h3
      omega
  obtain ⟨m, hm1, hm2⟩ := hm
  refine ⟨m, E, ?_, sqrt_round_nat s (Nat.sqrt s) (2 ^ E) f m hr hr2 hrB hf1 hf2 hm2⟩
  rw [hm1, zpow_neg, zpow_natCast, div_eq_mul_inv]
  push_cast
  rfl






/-- Below `2^52` the grid size is the integer square root. -/
theorem gridSize_eq_sqrt (samples : Int) (h0 : 0 ≤ samples) (h52 : samples < 2 ^ 52) :
    gridSize samples = Nat.sqrt samples.toNat := by
  obtain ⟨s, rfl⟩ : ∃ s : ℕ, samples = (s : Int) := ⟨samples.toNat, by omega⟩
  have hs : s < 2 ^ 52 := by exact_mod_cast h52
  simp only [Int.toNat_natCast]
  by_cases hs0 : s = 0
  · subst hs0
    decide!
  · have hs1 : 1 ≤ s := Nat.one_le_iff_ne_zero.2 hs0
    obtain ⟨h1, h2⟩ := ofInt_pos (s : Int) (by exact_mod_cast hs1) (by
      have : (s : Int) < 2 ^ 52 := by exact_mod_cast hs
      have h63 : (2 : Int) ^ 52 < 2 ^ 63 := by norm_num
      omega)
    have hfl : flPos ((s : Int) : ℚ) = (s : ℚ) := by
      have := flPos_natCast s (lt_trans hs (by norm_num))
      simpa using this
    unfold gridSize
    rw [h1, hfl]
    have hq0 : (0 : ℚ) < (s : ℚ) := by exact_mod_cast hs1
    have hsq : F64.sqrt (fin (s : ℚ)) = fin (sqrtPos (s : ℚ)) := by
      simp only [F64.sqrt]
      rw [if_neg (by linarith), if_neg (by linarith)]
    rw [hsq]
    obtain ⟨m, E, hm, hlo, hhi⟩ := sqrtPos_nat s hs1 hs
    have hB : (0 : ℚ) < ((2 ^ E : ℕ) : ℚ) := by positivity
    have hge : (0 : ℚ) ≤ sqrtPos (s : ℚ) := by
      rw [hm]
      positivity
    simp only [F64.toInt]
    rw [if_neg (by linarith)]
    have hfloor : ⌊sqrtPos (s : ℚ)⌋ = (Nat.sqrt s : Int) := by
      rw [Int.floor_eq_iff, hm]
      constructor
      · rw [le_div_iff₀ hB]
        exact_mod_cast hlo
      · rw [div_lt_iff₀ hB]
        exact_mod_cast hhi
    rw [hfloor, Int.toNat_natCast]

/-- At `s = 67108865^2 - 1` the grid size is `67108865`, whose square exceeds `s`. -/
theorem gridSize_large : gridSize 4503599761588224 = 67108865 := by decide!

theorem gridSize_zero : gridSize 0 = 0 := by decide!
theorem gridSize_one : gridSize 1 = 1 := by decide!
theorem gridSize_two : gridSize 2 = 1 := by decide!
theorem gridSize_sixteen : gridSize 16 = 4 := by decide!
theorem gridSize_neg (samples : Int) (h : samples < 0) : gridSize samples = 0 := by
  unfold gridSize ofInt rounded
  have hq : (0 : ℚ) < |(samples : ℚ)| := abs_pos.2 (by exact_mod_cast h.ne)
  have hd : decide (samples < 0) = true := by simpa using h
  rw [hd]
  simp only [↓reduceIte]
  split_ifs with c1 c2
  · rfl
  · rfl
  · have hpos : 0 < flPos |(samples : ℚ)| := lt_of_le_of_ne (flPos_nonneg _) (Ne.symm c2)
    simp only [F64.sqrt]
    rw [if_pos (by linarith)]
    rfl

theorem flPos_zero : flPos 0 = 0 := by simp [flPos]

theorem fl_of_nonneg {q : ℚ} (h : 0 ≤ q) : fl q = flPos q := by
  unfold fl
  rw [if_neg (not_lt.2 h)]

theorem fl_nonneg {q : ℚ} (h : 0 ≤ q) : 0 ≤ fl q := by
  rw [fl_of_nonneg h]
  exact flPos_nonneg q

theorem fl_mono {a b : ℚ} (hab : a ≤ b) : fl a ≤ fl b := by
  unfold fl
  split_ifs with h1 h2
  · exact neg_le_neg (flPos_mono (by linarith))
  · exact le_trans (neg_nonpos.2 (flPos_nonneg _)) (flPos_nonneg _)
  · exfalso; linarith
  · exact flPos_mono hab

theorem fl_natCast (n : Nat) (hn : n < 2 ^ 53) : fl (n : ℚ) = n := by
  rw [fl_of_nonneg (Nat.cast_nonneg n), flPos_natCast n hn]

/-- The sample coordinate of a cell of a grid of size below `2^53` lies between
the binary64 quotients `u / n` and `(u + 1) / n`. -/
theorem cellCoord_bounds (u n : Nat) (x : ℚ) (hu : u < n) (hn : n < 2 ^ 53)
    (hx : 0 ≤ x ∧ x < 1) :
    fl ((u : ℚ) / n) ≤ cellCoord u n x ∧ cellCoord u n x ≤ fl (((u : ℚ) + 1) / n) := by
  have hu53 : u < 2 ^ 53 := lt_trans hu hn
  have hu1 : u + 1 < 2 ^ 53 := lt_of_le_of_lt hu hn
  have hnq : (0 : ℚ) < (n : ℚ) := by exact_mod_cast Nat.lt_of_le_of_lt (Nat.zero_le u) hu
  unfold cellCoord
  rw [fl_natCast u hu53, fl_natCast n hn]
  have hlo : (u : ℚ) ≤ fl ((u : ℚ) + x) := by
    have := fl_mono (show (u : ℚ) ≤ (u : ℚ) + x by linarith)
    rwa [fl_natCast u hu53] at this
  have hhi : fl ((u : ℚ) + x) ≤ (u : ℚ) + 1 := by
    have := fl_mono (show (u : ℚ) + x ≤ ((u + 1 : ℕ) : ℚ) by push_cast; linarith)
    rw [fl_natCast (u + 1) hu1] at this
    exact_mod_cast this
  exact ⟨fl_mono (div_le_div_of_nonneg_right hlo hnq.le),
    fl_mono (div_le_div_of_nonneg_right hhi hnq.le)⟩

/-- The draw `1 - 2^-53` in the cell `u = 1` of a grid of size 4: the sum rounds
up to 2 and the coordinate is `1/2`, the upper end of the cell. -/
theorem cellCoord_edge : cellCoord 1 4 (9007199254740991 / 9007199254740992) = 1 / 2 := by
  decide!

theorem sqrtPos_le_ceil (q : ℚ) :
    sqrtPos q ≤ (((isqrt ⌊q / (2 : ℚ) ^ (2 * (ilog2 q / 2 - 52))⌋.toNat + 1 : ℕ) : ℕ) : ℚ) *
      (2 : ℚ) ^ (ilog2 q / 2 - 52) := by
  unfold sqrtPos
  simp only
  have h2 : (0 : ℚ) < (2 : ℚ) ^ (ilog2 q / 2 - 52) := zpow_pos (by norm_num) _
  refine mul_le_mul_of_nonneg_right ?_ h2.le
  split_ifs <;> push_cast <;> linarith

/-- The rounded square root of a value between 1 and `2^63` is below `2^32`. -/
theorem sqrtPos_lt (q : ℚ) (h1 : 1 ≤ q) (h63 : q ≤ (2 : ℚ) ^ (63 : ℕ)) :
    sqrtPos q < (2 : ℚ) ^ (32 : ℕ) := by
  have hq : 0 < q := by linarith
  have h2 : (0 : ℚ) < 2 := by norm_num
  have hone : (1 : ℚ) ≤ 2 := by norm_num
  obtain ⟨hlo, hhi⟩ := ilog2_spec q hq
  have hL0 : 0 ≤ ilog2 q := le_ilog2_of_le _ 0 (by simpa using h1)
  have hL63 : ilog2 q < 64 := by
    apply ilog2_lt_of_lt _ _ hq
    have : (2 : ℚ) ^ (63 : ℕ) < (2 : ℚ) ^ (64 : ℤ) := by
      rw [← zpow_natCast]
      exact zpow_lt_zpow_right₀ (by norm_num) (by norm_num)
    linarith
  refine lt_of_le_of_lt (sqrtPos_le_ceil q) ?_
  set e : Int := ilog2 q / 2 - 52 with he
  set t : ℚ := q / (2 : ℚ) ^ (2 * e) with ht
  have hpe : (0 : ℚ) < (2 : ℚ) ^ (2 * e) := zpow_pos h2 _
  have hpe1 : (0 : ℚ) < (2 : ℚ) ^ e := zpow_pos h2 _
  have ht0 : 0 ≤ t := (div_pos hq hpe).le
  have hfl0 : 0 ≤ ⌊t⌋ := Int.floor_nonneg.2 ht0
  have hflt : ((⌊t⌋.toNat : ℕ) : ℚ) ≤ t := by
    have h3 : ((⌊t⌋.toNat : ℕ) : Int) = ⌊t⌋ := Int.toNat_of_nonneg hfl0
    have h4 : ((⌊t⌋.toNat : ℕ) : ℚ) = ((⌊t⌋ : Int) : ℚ) := by
      rw [← h3]; push_cast; rfl
    rw [h4]
    exact Int.floor_le t
  have hf := Nat.sqrt_le ⌊t⌋.toNat
  rw [isqrt_eq]
  set f := Nat.sqrt ⌊t⌋.toNat with hfdef
  have hfq : ((f * f : ℕ) : ℚ) ≤ t := le_trans (by exact_mod_cast hf) hflt
  by_cases hc : ilog2 q / 2 ≤ 30
  · -- t < 2^106, so f + 1 ≤ 2^53, and the exponent is at most -22
    have ht106 : t < (2 : ℚ) ^ (106 : ℕ) := by
      rw [ht, div_lt_iff₀ hpe, ← zpow_natCast, ← zpow_add₀ h2.ne']
      refine lt_of_lt_of_le hhi (zpow_le_zpow_right₀ hone ?_)
      push_cast
      omega
    have hf53 : f + 1 ≤ 2 ^ 53 := by
      by_contra hcon
      have h3 : 2 ^ 53 ≤ f := by omega
      have h4 : (2 : ℕ) ^ 53 * 2 ^ 53 ≤ f * f := Nat.mul_le_mul h3 h3
      have h5 : ((2 ^ 53 * 2 ^ 53 : ℕ) : ℚ) ≤ ((f * f : ℕ) : ℚ) := by exact_mod_cast h4
      have h6 : ((2 ^ 53 * 2 ^ 53 : ℕ) : ℚ) = (2 : ℚ) ^ (106 : ℕ) := by
        norm_num
      linarith
    have hf53q : (((f + 1 : ℕ) : ℕ) : ℚ) ≤ (2 : ℚ) ^ (53 : ℕ) := by exact_mod_cast hf53
    calc (((f + 1 : ℕ) : ℕ) : ℚ) * (2 : ℚ) ^ e
        ≤ (2 : ℚ) ^ (53 : ℕ) * (2 : ℚ) ^ e := mul_le_mul_of_nonneg_right hf53q hpe1.le
      _ = (2 : ℚ) ^ (e + 53) := by rw [zpow_add₀ h2.ne', mul_comm]; norm_cast
      _ ≤ (2 : ℚ) ^ (31 : ℤ) := zpow_le_zpow_right₀ hone (by omega)
      _ < (2 : ℚ) ^ (32 : ℤ) := zpow_lt_zpow_right₀ (by norm_num) (by norm_num)
      _ = (2 : ℚ) ^ (32 : ℕ) := by norm_cast
  · have he21 : e = -21 := by omega
    have ht105 : t ≤ (2 : ℚ) ^ (105 : ℕ) := by
      rw [ht, div_le_iff₀ hpe, he21]
      calc q ≤ (2 : ℚ) ^ (63 : ℕ) := h63
        _ = (2 : ℚ) ^ (105 : ℕ) * (2 : ℚ) ^ (2 * (-21 : ℤ)) := by
            rw [← zpow_natCast, ← zpow_natCast, ← zpow_add₀ h2.ne']
            norm_num
    have hf53 : f + 2 ≤ 2 ^ 53 := by
      by_contra hcon
      have h3 : 2 ^ 53 - 1 ≤ f := by omega
      have h4 : ((2 : ℕ) ^ 53 - 1) * (2 ^ 53 - 1) ≤ f * f := Nat.mul_le_mul h3 h3
      have h5 : (((2 ^ 53 - 1) * (2 ^ 53 - 1) : ℕ) : ℚ) ≤ ((f * f : ℕ) : ℚ) := by
        exact_mod_cast h4
      have h6 : (2 : ℚ) ^ (105 : ℕ) < (((2 ^ 53 - 1) * (2 ^ 53 - 1) : ℕ) : ℚ) := by
        norm_num
      linarith
    have hf53q : (((f + 1 : ℕ) : ℕ) : ℚ) ≤ (2 : ℚ) ^ (53 : ℕ) - 1 := by
      have : (((f + 1 : ℕ) : ℕ) : ℚ) + 1 ≤ (2 : ℚ) ^ (53 : ℕ) := by exact_mod_cast hf53
      linarith
    rw [he21]
    have h21 : (2 : ℚ) ^ (-21 : ℤ) = 1 / 2097152 := by norm_num [zpow_neg]
    rw [h21]
    calc (((f + 1 : ℕ) : ℕ) : ℚ) * (1 / 2097152)
        ≤ ((2 : ℚ) ^ (53 : ℕ) - 1) * (1 / 2097152) :=
          mul_le_mul_of_nonneg_right hf53q (by norm_num)
      _ < (2 : ℚ) ^ (32 : ℕ) := by norm_num

theorem flPos_le_of_lt (s : Int) (h1 : 1 ≤ s) (h63 : s < 2 ^ 63) :
    flPos (s : ℚ) ≤ (2 : ℚ) ^ (63 : ℕ) := by
  have hs0 : (0 : ℚ) < (s : ℚ) := by exact_mod_cast (by omega : (0 : Int) < s)
  have hs63 : (s : ℚ) < (2 : ℚ) ^ (63 : ℤ) := by
    have : (s : ℚ) < ((2 ^ 63 : Int) : ℚ) := by exact_mod_cast h63
    rw [show ((63 : Int)) = ((63 : ℕ) : Int) by rfl, zpow_natCast]
    exact_mod_cast this
  have hl := ilog2_lt_of_lt _ _ hs0 hs63
  have hu : ulpExp (s : ℚ) + 53 ≤ 63 := by
    unfold ulpExp
    have : max (ilog2 (s : ℚ) - 52) (-1074) ≤ 10 := max_le (by omega) (by norm_num)
    omega
  calc flPos (s : ℚ) ≤ (2 : ℚ) ^ (ulpExp (s : ℚ) + 53) := flPos_le_pow _ hs0
    _ ≤ (2 : ℚ) ^ (63 : ℤ) := zpow_le_zpow_right₀ (by norm_num) hu
    _ = (2 : ℚ) ^ (63 : ℕ) := by norm_cast

/-- The grid size of an `int` is below `2^32`: the product `n*n` does not wrap. -/
theorem gridSize_lt (samples : Int) (h63 : samples < 2 ^ 63) : gridSize samples < 2 ^ 32 := by
  rcases lt_trichotomy samples 0 with hneg | hz | hpos
  · rw [gridSize_neg samples hneg]
    norm_num
  · subst hz
    rw [gridSize_zero]
    norm_num
  · have h1 : 1 ≤ samples := by omega
    obtain ⟨ho, hge⟩ := ofInt_pos samples h1 h63
    have hle := flPos_le_of_lt samples h1 h63
    unfold gridSize
    rw [ho]
    have hsq : F64.sqrt (fin (flPos (samples : ℚ))) = fin (sqrtPos (flPos (samples : ℚ))) := by
      simp only [F64.sqrt]
      rw [if_neg (by linarith), if_neg (by linarith)]
    rw [hsq]
    have hlt := sqrtPos_lt _ hge hle
    have hq0 : (0 : ℚ) < flPos (samples : ℚ) := by linarith
    have hnn : (0 : ℚ) ≤ sqrtPos (flPos (samples : ℚ)) := by
      refine le_trans ?_ (sqrtPos_ge _ hq0)
      exact (zpow_pos (by norm_num) _).le
    simp only [F64.toInt]
    rw [if_neg (by linarith)]
    have hfl : ⌊sqrtPos (flPos (samples : ℚ))⌋ < ((2 ^ 32 : ℕ) : Int) := by
      rw [Int.floor_lt]
      push_cast
      exact hlt
    have hfl0 : 0 ≤ ⌊sqrtPos (flPos (samples : ℚ))⌋ := Int.floor_nonneg.2 hnn
    have : (⌊sqrtPos (flPos (samples : ℚ))⌋.toNat : Int) < ((2 ^ 32 : ℕ) : Int) := by
      rw [Int.toNat_of_nonneg hfl0]
      exact hfl
    exact_mod_cast this

end Binary64

/-! ## The cell enumeration -/

theorem length_flatMap_const {α β : Type} (l : List α) (f : α → List β) (c : Nat)
    (h : ∀ a, (f a).length = c) : (l.flatMap f).length = l.length * c := by
  induction l with
  | nil => simp
  | cons a l ih => simp [List.flatMap_cons, ih, h, Nat.succ_mul, Nat.add_comm]

theorem modeRange_length (ma mb : Nat) : (modeRange ma mb).length = mb + 1 - ma := by
  simp [modeRange]

theorem mem_modeRange (ma mb m : Nat) : m ∈ modeRange ma mb ↔ ma ≤ m ∧ m ≤ mb := by
  simp only [modeRange, List.mem_map, List.mem_range]
  constructor
  · rintro ⟨k, hk, rfl⟩
    omega
  · intro h
    exact ⟨m - ma, by omega, by omega⟩

theorem cells_length (n : Nat) (ma mb : Nat) :
    (cells n ma mb).length = n * n * (mb + 1 - ma) := by
  unfold cells
  rw [length_flatMap_const _ _ (n * (mb + 1 - ma))]
  · simp [Nat.mul_assoc]
  · intro u
    rw [length_flatMap_const _ _ (mb + 1 - ma)]
    · simp
    · intro v
      simp [modeRange_length]

theorem mem_cells (n : Nat) (ma mb : Nat) (c : Nat × Nat × Nat) :
    c ∈ cells n ma mb ↔ c.1 < n ∧ c.2.1 < n ∧ ma ≤ c.2.2 ∧ c.2.2 ≤ mb := by
  obtain ⟨u, v, m⟩ := c
  simp only [cells, List.mem_flatMap, List.mem_range, List.mem_map, Prod.mk.injEq]
  constructor
  · rintro ⟨u1, hu, v1, hv, m1, hm, rfl, rfl, rfl⟩
    exact ⟨hu, hv, (mem_modeRange ma mb _).1 hm⟩
  · rintro ⟨hu, hv, hm⟩
    exact ⟨u, hu, v, hv, m, (mem_modeRange ma mb m).2 hm, rfl, rfl, rfl⟩

theorem modeRange_nodup (ma mb : Nat) : (modeRange ma mb).Nodup := by
  unfold modeRange
  exact (List.nodup_range _).map (fun a b h => by simpa using h)

theorem cells_nodup (n : Nat) (ma mb : Nat) : (cells n ma mb).Nodup := by
  unfold cells
  refine List.nodup_flatMap.2 ⟨fun u _ => List.nodup_flatMap.2 ⟨fun v _ => ?_, ?_⟩, ?_⟩
  · exact (modeRange_nodup ma mb).map (fun a b h => by simpa using h)
  · refine (List.nodup_range n).imp ?_
    intro a b hab
    simp only [Function.onFun]
    intro x h1 h2
    simp only [List.mem_map] at h1 h2
    obtain ⟨_, _, rfl⟩ := h1
    obtain ⟨_, _, h3⟩ := h2
    simp only [Prod.mk.injEq] at h3
    exact hab h3.2.1.symm
  · refine (List.nodup_range n).imp ?_
    intro a b hab
    simp only [Function.onFun]
    intro x h1 h2
    simp only [List.mem_flatMap, List.mem_map] at h1 h2
    obtain ⟨_, _, _, _, rfl⟩ := h1
    obtain ⟨_, _, _, _, h3⟩ := h2
    simp only [Prod.mk.injEq] at h3
    exact hab h3.1.symm

/-! ## Colors -/

theorem Color.add_zero (a : Color) : a.Add Color.zero = a := by
  cases a; simp [Color.Add, Color.zero]

theorem Color.zero_add (a : Color) : Color.zero.Add a = a := by
  cases a; simp [Color.Add, Color.zero]

theorem Color.zero_mulScalar (p : ℚ) : Color.zero.MulScalar p = Color.zero := by
  simp [Color.MulScalar, Color.zero]

theorem Color.mul_zero (a : Color) : a.Mul Color.zero = Color.zero := by
  simp [Color.Mul, Color.zero]

theorem Color.zero_mix_zero (t : ℚ) : Color.zero.Mix Color.zero t = Color.zero := by
  simp [Color.Mix, Color.MulScalar, Color.Add, Color.zero]

theorem Color.addAssoc (a b c : Color) : (a.Add b).Add c = a.Add (b.Add c) := by
  simp [Color.Add, add_assoc]

theorem Color.nonNeg_zero : Color.zero.NonNeg := by
  simp [Color.NonNeg, Color.zero]

theorem Color.nonNeg_add {a b : Color} (ha : a.NonNeg) (hb : b.NonNeg) : (a.Add b).NonNeg :=
  ⟨add_nonneg ha.1 hb.1, add_nonneg ha.2.1 hb.2.1, add_nonneg ha.2.2 hb.2.2⟩

theorem Color.nonNeg_mul {a b : Color} (ha : a.NonNeg) (hb : b.NonNeg) : (a.Mul b).NonNeg :=
  ⟨mul_nonneg ha.1 hb.1, mul_nonneg ha.2.1 hb.2.1, mul_nonneg ha.2.2 hb.2.2⟩

theorem Color.nonNeg_mulScalar {a : Color} {p : ℚ} (ha : a.NonNeg) (hp : 0 ≤ p) :
    (a.MulScalar p).NonNeg :=
  ⟨mul_nonneg ha.1 hp, mul_nonneg ha.2.1 hp, mul_nonneg ha.2.2 hp⟩

theorem Color.nonNeg_divScalar {a : Color} {p : ℚ} (ha : a.NonNeg) (hp : 0 ≤ p) :
    (a.DivScalar p).NonNeg :=
  ⟨div_nonneg ha.1 hp, div_nonneg ha.2.1 hp, div_nonneg ha.2.2 hp⟩

theorem Color.nonNeg_mix {a b : Color} {t : ℚ} (ha : a.NonNeg) (hb : b.NonNeg)
    (h0 : 0 ≤ t) (h1 : t ≤ 1) : (a.Mix b t).NonNeg :=
  Color.nonNeg_add (Color.nonNeg_mulScalar ha (by linarith)) (Color.nonNeg_mulScalar hb h0)

/-! ## Appending to the trace -/

section Trace
variable {Rng Glob Sh : Type}

theorem Appends.refl (P : Event → Prop) (st : St Rng Glob) : Appends P st st :=
  ⟨[], by simp, by simp⟩

theorem Appends.trans {P : Event → Prop} {a b c : St Rng Glob}
    (h1 : Appends P a b) (h2 : Appends P b c) : Appends P a c := by
  obtain ⟨e1, h1, p1⟩ := h1
  obtain ⟨e2, h2, p2⟩ := h2
  refine ⟨e1 ++ e2, by rw [h2, h1, List.append_assoc], ?_⟩
  intro e he
  rcases List.mem_append.1 he with h | h
  · exact p1 e h
  · exact p2 e h

theorem Appends.weaken {P Q : Event → Prop} {a b : St Rng Glob} (hPQ : ∀ e, P e → Q e)
    (h : Appends P a b) : Appends Q a b := by
  obtain ⟨ev, h1, p1⟩ := h
  exact ⟨ev, h1, fun e he => hPQ e (p1 e he)⟩

theorem Appends.emit (P : Event → Prop) (st : St Rng Glob) (e : Event) (h : P e) :
    Appends P st (st.emit e) :=
  ⟨[e], rfl, by simpa using h⟩

theorem Appends.float64 (P : Event → Prop) (E : Env Rng Glob Sh) (st : St Rng Glob)
    (h : ∀ x, P (Event.float64 x)) : Appends P st (st.float64 E).2 :=
  ⟨[Event.float64 (E.Float64 st.rnd).1], rfl, by simpa using h _⟩

theorem lightPoint_appends (E : Env Rng Glob Sh) (center : Vector) (radius : ℚ) (n : Ray)
    (fuel : Nat) : ∀ (st : St Rng Glob) (out : Vector × St Rng Glob),
    lightPoint E center radius n fuel st = some out →
      Appends Event.Flat st out.2 := by
  induction fuel with
  | zero => intro st out h; simp [lightPoint] at h
  | succ k ih =>
    intro st out h
    have h2 : Appends Event.Flat st ((st.float64 E).2.float64 E).2 :=
      (Appends.float64 Event.Flat E st (fun _ => rfl)).trans
        (Appends.float64 Event.Flat E _ (fun _ => rfl))
    simp only [lightPoint] at h
    split at h
    · simp only [Option.some.injEq] at h
      subst h
      exact h2.trans ⟨[Event.randomUnitVector], rfl, by simp [Event.Flat, Event.level]⟩
    · exact h2.trans (ih _ _ h)

theorem bounceCell_log (E : Env Rng Glob Sh) (depth : Int) (ray : Ray) (info : HitInfo Sh)
    (n : Nat) (st : St Rng Glob) (cell : Nat × Nat × BounceMode) :
    ∃ x y fu fv r p, (bounceCell E depth ray info n st cell).2.log =
      st.log ++ [Event.float64 x, Event.float64 y,
        Event.bounce depth cell.1 cell.2.1 fu fv cell.2.2 r p] ∧
      fu = cellCoord cell.1 n x ∧ fv = cellCoord cell.2.1 n y ∧
      x = (E.Float64 st.rnd).1 ∧ y = (E.Float64 (E.Float64 st.rnd).2).1 ∧
      r = (bounceCell E depth ray info n st cell).1.2.1 ∧
      p = (bounceCell E depth ray info n st cell).1.2.2 :=
  ⟨_, _, _, _, _, _, by simp [bounceCell, St.float64], rfl, rfl, rfl, rfl, rfl, rfl⟩

/-- The answer that a cell uses is the answer of `ray.Bounce` at the sample
point of the cell, in the state of the random source after the two draws. -/
theorem bounceCell_answer (E : Env Rng Glob Sh) (depth : Int) (ray : Ray) (info : HitInfo Sh)
    (n : Nat) (st : St Rng Glob) (cell : Nat × Nat × BounceMode) :
    (bounceCell E depth ray info n st cell).1 =
      (E.Bounce ray info (cellCoord cell.1 n (E.Float64 st.rnd).1)
        (cellCoord cell.2.1 n (E.Float64 (E.Float64 st.rnd).2).1) cell.2.2
        (E.Float64 (E.Float64 st.rnd).2).2).1 := rfl

theorem bouncesAt_append (d : Int) (l1 l2 : List Event) :
    bouncesAt d (l1 ++ l2) = bouncesAt d l1 ++ bouncesAt d l2 := by
  simp [bouncesAt]

theorem callsAt_append (d : Int) (l1 l2 : List Event) :
    callsAt d (l1 ++ l2) = callsAt d l1 ++ callsAt d l2 := by
  simp [callsAt]

theorem directAt_append (d : Int) (l1 l2 : List Event) :
    directAt d (l1 ++ l2) = directAt d l1 ++ directAt d l2 := by
  simp [directAt]

theorem bouncesAt_inner (d : Int) (tail : List Event)
    (h : ∀ e ∈ tail, e.Below d ∨ e = Event.directLight d) : bouncesAt d tail = [] := by
  unfold bouncesAt
  rw [List.filterMap_eq_nil_iff]
  intro e he
  rcases h e he with h1 | h1
  · cases e <;> simp only [ite_eq_right_iff]
    rename_i l u v fu fv m r p
    intro hl
    have := h1 l rfl
    omega
  · subst h1
    rfl

theorem callsAt_inner (d : Int) (tail : List Event)
    (h : ∀ e ∈ tail, e.Below d ∨ e = Event.directLight d) : callsAt d tail = [] := by
  unfold callsAt
  rw [List.filterMap_eq_nil_iff]
  intro e he
  rcases h e he with h1 | h1
  · cases e <;> simp only [ite_eq_right_iff]
    rename_i l em n dp
    intro hl
    have := h1 l rfl
    omega
  · subst h1
    rfl

theorem coverage_nonneg (E : Env Rng Glob Sh) (center : Vector) (radius : ℚ) (origin : Vector) :
    0 ≤ coverage E center radius origin := by
  unfold coverage
  simp only
  refine le_min ?_ (by norm_num)
  split
  · norm_num
  · exact div_nonneg (mul_self_nonneg _) (mul_self_nonneg _)

/-- The quotient `r'^2 / d^2` of lines 164-168 when the trigonometric values
`s = sin θ`, `c = cos θ`, `t = tan θ` are exact at `θ = asin (r / h)`. -/
theorem cover_formula (s c t r h : ℚ) (hs : s = r / h) (hc : c * c = 1 - r / h * (r / h))
    (ht : t = s / c) (hr : 0 < r) (hlt : r < h) :
    (s * (r / t)) * (s * (r / t)) / ((c * (r / t)) * (c * (r / t))) = t ^ 2 ∧
    t ^ 2 = r ^ 2 / (h ^ 2 - r ^ 2) := by
  have hh : 0 < h := lt_trans hr hlt
  have hh0 : h ≠ 0 := hh.ne'
  have hr0 : r ≠ 0 := hr.ne'
  have hd : h ^ 2 - r ^ 2 ≠ 0 := by
    have : r ^ 2 < h ^ 2 := by nlinarith
    linarith
  have hcc : c * c = (h ^ 2 - r ^ 2) / h ^ 2 := by
    rw [hc]
    field_simp
    ring
  have hc0 : c ≠ 0 := by
    intro h0
    rw [h0] at hcc
    have h3 : (h ^ 2 - r ^ 2) / h ^ 2 ≠ 0 := div_ne_zero hd (pow_ne_zero 2 hh0)
    exact h3 (by rw [← hcc]; ring)
  have hs0 : s ≠ 0 := by
    rw [hs]
    exact div_ne_zero hr0 hh0
  have ht0 : t ≠ 0 := by
    rw [ht]
    exact div_ne_zero hs0 hc0
  have ht2 : t ^ 2 = r ^ 2 / (h ^ 2 - r ^ 2) := by
    rw [ht, div_pow, pow_two c, hcc, hs, div_pow]
    field_simp
  refine ⟨?_, ht2⟩
  have e : (s * (r / t)) * (s * (r / t)) / ((c * (r / t)) * (c * (r / t))) = (s / c) ^ 2 := by
    field_simp
    ring
  rw [e, ht]

theorem Vector.dot_cross_left (a b : Vector) : a.Dot (a.Cross b) = 0 := by
  simp only [Vector.Dot, Vector.Cross]
  ring

theorem Vector.dot_cross_right (a b : Vector) : b.Dot (a.Cross b) = 0 := by
  simp only [Vector.Dot, Vector.Cross]
  ring

theorem Vector.cross_lengthSq (a b : Vector) :
    (a.Cross b).Dot (a.Cross b) = a.Dot a * b.Dot b - a.Dot b * a.Dot b := by
  simp only [Vector.Dot, Vector.Cross]
  ring

theorem Vector.dot_self (a : Vector) : a.Dot a = a.LengthSq := rfl

theorem Vector.dot_comm (a b : Vector) : a.Dot b = b.Dot a := by
  simp only [Vector.Dot]
  ring

theorem Vector.normalize_dot (sqrt : ℚ → ℚ) (a b : Vector) :
    (a.Normalize sqrt).Dot b = a.Dot b / sqrt a.LengthSq := by
  simp only [Vector.Dot, Vector.Normalize, Vector.Length, Vector.LengthSq]
  ring

theorem Vector.normalize_unit (sqrt : ℚ → ℚ) (a : Vector) (h : IsSqrt sqrt a.LengthSq)
    (hne : a.LengthSq ≠ 0) : (a.Normalize sqrt).Dot (a.Normalize sqrt) = 1 := by
  have hs : sqrt a.LengthSq ≠ 0 := by
    intro h0
    apply hne
    rw [← h.2, h0]
    ring
  rw [Vector.normalize_dot, Vector.dot_comm, Vector.normalize_dot, Vector.dot_self]
  rw [div_div, h.2]
  exact div_self hne

theorem Vector.lengthSq_eq_zero (a : Vector) (h : a.LengthSq = 0) : a = Vector.zero := by
  unfold Vector.LengthSq at h
  have hx : a.X = 0 := by nlinarith [mul_self_nonneg a.X, mul_self_nonneg a.Y, mul_self_nonneg a.Z]
  have hy : a.Y = 0 := by nlinarith [mul_self_nonneg a.X, mul_self_nonneg a.Y, mul_self_nonneg a.Z]
  have hz : a.Z = 0 := by nlinarith [mul_self_nonneg a.X, mul_self_nonneg a.Y, mul_self_nonneg a.Z]
  cases a
  simp_all [Vector.zero]

/-- The point returned by the rejection loop is `diskPoint` at an accepted disk
sample and a vector drawn by `RandomUnitVector`. -/
theorem lightPoint_diskPoint (E : Env Rng Glob Sh) (center : Vector) (radius : ℚ) (n : Ray)
    (fuel : Nat) : ∀ (st : St Rng Glob) (out : Vector × St Rng Glob),
    lightPoint E center radius n fuel st = some out →
      ∃ (x y : ℚ) (r : Rng), x * x + y * y ≤ 1 ∧
        out.1 = diskPoint E.Sqrt center radius n.Origin (E.RandomUnitVector r).1 x y := by
  induction fuel with
  | zero => intro st out h; simp [lightPoint] at h
  | succ k ih =>
    intro st out h
    simp only [lightPoint] at h
    split at h
    · rename_i hacc
      simp only [Option.some.injEq] at h
      subst h
      exact ⟨_, _, _, hacc, rfl⟩
    · exact ih _ _ h

theorem diskPoint_offset (u v c l : Vector) (a b : ℚ) :
    ((((Vector.zero.Add (u.MulScalar a)).Add (v.MulScalar b)).Add c).Sub c).Dot l =
        a * u.Dot l + b * v.Dot l ∧
    ((((Vector.zero.Add (u.MulScalar a)).Add (v.MulScalar b)).Add c).Sub c).LengthSq =
        a * a * u.Dot u + 2 * (a * b) * u.Dot v + b * b * v.Dot v := by
  simp only [Vector.Dot, Vector.LengthSq, Vector.Add, Vector.Sub, Vector.MulScalar, Vector.zero]
  constructor <;> ring

/-- The frame `l`, `u = normalize (l × w)`, `v = l × u` of lines 136-138 is orthonormal. -/
theorem light_frame (sqrt : ℚ → ℚ) (center origin w : Vector) (hne : center ≠ origin)
    (hs1 : IsSqrt sqrt (center.Sub origin).LengthSq)
    (hpar : ((center.Sub origin).Normalize sqrt).Cross w ≠ Vector.zero)
    (hs2 : IsSqrt sqrt (((center.Sub origin).Normalize sqrt).Cross w).LengthSq) :
    ((center.Sub origin).Normalize sqrt).Dot ((center.Sub origin).Normalize sqrt) = 1 ∧
    ((((center.Sub origin).Normalize sqrt).Cross w).Normalize sqrt).Dot
      ((((center.Sub origin).Normalize sqrt).Cross w).Normalize sqrt) = 1 ∧
    (((center.Sub origin).Normalize sqrt).Cross
        ((((center.Sub origin).Normalize sqrt).Cross w).Normalize sqrt)).Dot
      (((center.Sub origin).Normalize sqrt).Cross
        ((((center.Sub origin).Normalize sqrt).Cross w).Normalize sqrt)) = 1 ∧
    ((center.Sub origin).Normalize sqrt).Dot
      ((((center.Sub origin).Normalize sqrt).Cross w).Normalize sqrt) = 0 ∧
    ((center.Sub origin).Normalize sqrt).Dot
      (((center.Sub origin).Normalize sqrt).Cross
        ((((center.Sub origin).Normalize sqrt).Cross w).Normalize sqrt)) = 0 ∧
    ((((center.Sub origin).Normalize sqrt).Cross w).Normalize sqrt).Dot
      (((center.Sub origin).Normalize sqrt).Cross
        ((((center.Sub origin).Normalize sqrt).Cross w).Normalize sqrt)) = 0 := by
  have hd : (center.Sub origin).LengthSq ≠ 0 := by
    intro h0
    have h1 := Vector.lengthSq_eq_zero _ h0
    apply hne
    cases center
    cases origin
    simp only [Vector.Sub, Vector.zero, Vector.mk.injEq] at h1 ⊢
    exact ⟨by linarith [h1.1], by linarith [h1.2.1], by linarith [h1.2.2]⟩
  have hm : (((center.Sub origin).Normalize sqrt).Cross w).LengthSq ≠ 0 :=
    fun h0 => hpar (Vector.lengthSq_eq_zero _ h0)
  have hl := Vector.normalize_unit sqrt (center.Sub origin) hs1 hd
  generalize (center.Sub origin).Normalize sqrt = l at hpar hs2 hm hl ⊢
  have hu := Vector.normalize_unit sqrt (l.Cross w) hs2 hm
  have hlu : l.Dot ((l.Cross w).Normalize sqrt) = 0 := by
    rw [Vector.dot_comm, Vector.normalize_dot, Vector.dot_comm, Vector.dot_cross_left]
    simp
  refine ⟨hl, hu, ?_, hlu, Vector.dot_cross_left _ _, Vector.dot_cross_right _ _⟩
  rw [Vector.cross_lengthSq, hl, hu, hlu]
  norm_num

theorem callsOk_append {a b : List Event} (ha : CallsOk a) (hb : CallsOk b) :
    CallsOk (a ++ b) := by
  induction ha with
  | nil => exact hb
  | skip e rest h _ ih => exact CallsOk.skip e (rest ++ b) h ih
  | call l u v fu fv m r p rest _ ih => exact CallsOk.call l u v fu fv m r p (rest ++ b) ih

theorem callsOk_of_flat (l : List Event) (h : ∀ e ∈ l, e.Flat) : CallsOk l := by
  induction l with
  | nil => exact CallsOk.nil
  | cons e rest ih =>
    refine CallsOk.skip e rest ?_ (ih (fun x hx => h x (List.mem_cons_of_mem _ hx)))
    intro l em n dp he
    have := h e (List.mem_cons_self _ _)
    rw [he] at this
    exact absurd this (by simp [Event.Flat, Event.level])

theorem callsOk_mem {ev : List Event} (h : CallsOk ev) :
    ∀ l em n dp, Event.call l em n dp ∈ ev → n = 1 ∧ dp = l - 1 := by
  induction h with
  | nil => intro l em n dp hm; exact absurd hm (by simp)
  | skip e rest hne _ ih =>
    intro l em n dp hm
    rcases List.mem_cons.1 hm with h1 | h1
    · exact absurd h1.symm (hne l em n dp)
    · exact ih l em n dp h1
  | call l0 u v fu fv m r p rest _ ih =>
    intro l em n dp hm
    rcases List.mem_cons.1 hm with h1 | h1
    · exact absurd h1 (by simp)
    · rcases List.mem_cons.1 h1 with h2 | h2
      · simp only [Event.call.injEq] at h2
        obtain ⟨rfl, -, rfl, rfl⟩ := h2
        exact ⟨rfl, rfl⟩
      · exact ih l em n dp h2

theorem Event.Within.widen {d d1 : Int} (h : d ≤ d1) {e : Event} (he : e.Within d) :
    e.Within d1 :=
  fun l hl => ⟨(he l hl).1, le_trans (he l hl).2 h⟩

theorem Event.Flat.within {e : Event} (he : e.Flat) (d : Int) : e.Within d :=
  fun l hl => absurd (he ▸ hl) (by simp)

theorem shaped_nil (d : Int) : Shaped d [] := ⟨CallsOk.nil, by simp⟩

theorem shaped_append {d : Int} {a b : List Event} (ha : Shaped d a) (hb : Shaped d b) :
    Shaped d (a ++ b) :=
  ⟨callsOk_append ha.1 hb.1, fun e he => (List.mem_append.1 he).elim (ha.2 e) (hb.2 e)⟩

theorem shaped_of_flat (d : Int) (l : List Event) (h : ∀ e ∈ l, e.Flat) : Shaped d l :=
  ⟨callsOk_of_flat l h, fun e he => (h e he).within d⟩

theorem shaped_raise {d d1 : Int} (h : d ≤ d1) {ev : List Event} (he : Shaped d ev) :
    Shaped d1 ev :=
  ⟨he.1, fun e hm => (he.2 e hm).widen h⟩

theorem Extends.same (Q : List Event → Prop) (h : Q []) (st : St Rng Glob) : Extends Q st st :=
  ⟨[], by simp, h⟩

theorem Extends.comp {Q : List Event → Prop} (happ : ∀ a b, Q a → Q b → Q (a ++ b))
    {a b c : St Rng Glob} (h1 : Extends Q a b) (h2 : Extends Q b c) : Extends Q a c := by
  obtain ⟨e1, h1, q1⟩ := h1
  obtain ⟨e2, h2, q2⟩ := h2
  exact ⟨e1 ++ e2, by rw [h2, h1, List.append_assoc], happ _ _ q1 q2⟩

end Trace

/-! ## The sampler: unfolding, trace, totality, sign -/

section Lemmas

variable {Rng Glob Sh : Type} [DecidableEq Sh]

theorem sample_neg (E : Env Rng Glob Sh) (s : DefaultSampler) (fuel : Nat) (scene : Scene Sh)
    (ray : Ray) (emission : Bool) (samples depth : Int) (st : St Rng Glob) (h : depth < 0) :
    sample E s fuel scene ray emission samples depth st = some (Color.zero, st) := by
  unfold sample
  cases (depth + 1).toNat <;> simp [sampleK, h]

theorem sample_eq (E : Env Rng Glob Sh) (s : DefaultSampler) (fuel : Nat) (scene : Scene Sh)
    (ray : Ray) (emission : Bool) (samples depth : Int) (st : St Rng Glob) (h : 0 ≤ depth) :
    sample E s fuel scene ray emission samples depth st =
      sampleBody E s fuel scene
        (fun newRay reflected st1 => sample E s fuel scene newRay reflected 1 (depth - 1) st1)
        ray emission samples depth st := by
  have h1 : (depth + 1).toNat = (depth - 1 + 1).toNat + 1 := by omega
  have h2 : ¬ depth < 0 := by omega
  unfold sample
  rw [h1]
  simp only [sampleK, h2, if_false]

theorem directLight_appends (E : Env Rng Glob Sh) (fuel : Nat) (scene : Scene Sh) (n : Ray)
    (st : St Rng Glob) (out : Color × St Rng Glob)
    (h : directLight E fuel scene n st = some out) :
    Appends Event.Flat st out.2 := by
  simp only [directLight] at h
  split at h
  · simp only [Option.some.injEq] at h
    subst h
    exact Appends.refl _ _
  · split at h
    · exact absurd h (by simp)
    · split at h
      · exact absurd h (by simp)
      · rename_i light _ point st2 hlp
        have h1 : Appends Event.Flat st st2 :=
          Appends.trans ⟨[Event.intn _ _], rfl, by simp [Event.Flat, Event.level]⟩
            (lightPoint_appends E _ _ n fuel _ _ hlp)
        split at h
        · simp only [Option.some.injEq] at h
          subst h
          exact h1
        · have h3 : Appends Event.Flat st (st2.emit (Event.intersect
              ⟨n.Origin, (point.Sub n.Origin).Normalize E.Sqrt⟩)) :=
            h1.trans (Appends.emit Event.Flat _ _ rfl)
          split at h
          · simp only [Option.some.injEq] at h
            subst h
            exact h3
          · simp only [Option.some.injEq] at h
            subst h
            exact h3


/-- An evaluation whose effective weight is not positive stops after `Bounce`. -/
theorem sampleCell_skip (E : Env Rng Glob Sh) (s : DefaultSampler) (fuel : Nat)
    (scene : Scene Sh) (recur : Ray → Bool → St Rng Glob → Option (Color × St Rng Glob))
    (depth : Int) (ray : Ray) (info : HitInfo Sh) (n : Nat)
    (acc : Color × St Rng Glob) (cell : Nat × Nat × BounceMode)
    (hp : effectiveWeight cell.2.2 (bounceCell E depth ray info n acc.2 cell).1.2.2 ≤ 0) :
    sampleCell E s fuel scene recur depth ray info n acc cell =
      some (acc.1, (bounceCell E depth ray info n acc.2 cell).2) := by
  have hp1 : ¬ effectiveWeight cell.2.2 (bounceCell E depth ray info n acc.2 cell).1.2.2 > 0 :=
    not_lt.2 hp
  simp [sampleCell, hp1]

/-- What a cell appends after `Bounce` when the effective weight is positive:
the recursive call and, below it, entries of deeper levels and of `directLight`. -/
theorem sampleCell_tail (E : Env Rng Glob Sh) (s : DefaultSampler) (fuel : Nat)
    (scene : Scene Sh) (recur : Ray → Bool → St Rng Glob → Option (Color × St Rng Glob))
    (depth : Int) (ray : Ray) (info : HitInfo Sh) (n : Nat)
    (acc out : Color × St Rng Glob) (cell : Nat × Nat × BounceMode)
    (hrec : ∀ r e st o, recur r e st = some o → Appends (Event.Below depth) st o.2)
    (hp : effectiveWeight cell.2.2 (bounceCell E depth ray info n acc.2 cell).1.2.2 > 0)
    (h : sampleCell E s fuel scene recur depth ray info n acc cell = some out) :
    ∃ tail, out.2.log = (bounceCell E depth ray info n acc.2 cell).2.log ++
        Event.call depth (bounceCell E depth ray info n acc.2 cell).1.2.1 1 (depth - 1) :: tail ∧
      ∀ e ∈ tail, e.Below depth ∨ (e = Event.directLight depth ∧
        (bounceCell E depth ray info n acc.2 cell).1.2.1 = false ∧ s.DirectLighting = true) := by
  simp only [sampleCell, hp, true_and] at h
  split at h
  · split at h
    · exact absurd h (by simp)
    · rename_i indirect st4 hr
      simp only [Option.some.injEq] at h
      subst h
      obtain ⟨ev, h1, h2⟩ := hrec _ _ _ _ hr
      exact ⟨ev, by simpa [St.emit] using h1, fun e he => Or.inl (h2 e he)⟩
  · rename_i hnr
    split at h
    · split at h
      · exact absurd h (by simp)
      · rename_i indirect st4 hr
        obtain ⟨ev, h1, h2⟩ := hrec _ _ _ _ hr
        have h1a : st4.log = (bounceCell E depth ray info n acc.2 cell).2.log ++
            Event.call depth (bounceCell E depth ray info n acc.2 cell).1.2.1 1 (depth - 1) :: ev := by
          simpa [St.emit] using h1
        split at h
        · exact absurd h (by simp)
        · rename_i direct st5 hd
          simp only [Option.some.injEq] at h
          subst h
          split at hd
          · rename_i hdl
            obtain ⟨ev2, h3, h4⟩ := directLight_appends E fuel scene info.Ray _ _ hd
            refine ⟨ev ++ Event.directLight depth :: ev2, ?_, ?_⟩
            · rw [h3]
              simp [St.emit, h1a]
            · intro e he
              rcases List.mem_append.1 he with h5 | h5
              · exact Or.inl (h2 e h5)
              · rcases List.mem_cons.1 h5 with h6 | h6
                · exact Or.inr ⟨h6, by simpa using hnr, hdl⟩
                · left
                  intro l hl
                  rw [h4 e h6] at hl
                  exact absurd hl (by simp)
          · simp only [Option.some.injEq, Prod.mk.injEq] at hd
            obtain ⟨_, hd2⟩ := hd
            subst hd2
            exact ⟨ev, h1a, fun e he => Or.inl (h2 e he)⟩
    · exact absurd h (by simp_all)


theorem forCells_rel {α β : Type} (f : α → β → Option α) (R : α → α → Prop)
    (hrefl : ∀ a, R a a) (htrans : ∀ a b c, R a b → R b c → R a c) (l : List β)
    (hstep : ∀ a c b, c ∈ l → f a c = some b → R a b) :
    ∀ a out, forCells f l a = some out → R a out := by
  induction l with
  | nil =>
    intro a out h
    simp only [forCells, Option.some.injEq] at h
    subst h
    exact hrefl a
  | cons c cs ih =>
    intro a out h
    simp only [forCells] at h
    split at h
    · exact absurd h (by simp)
    · rename_i a1 hf
      exact htrans _ _ _ (hstep a c a1 (List.mem_cons_self _ _) hf)
        (ih (fun a c1 b hc hb => hstep a c1 b (List.mem_cons_of_mem _ hc) hb) a1 out h)

theorem Event.Below.raise {d d1 : Int} (h : d ≤ d1) {e : Event} (he : e.Below d) : e.Below d1 :=
  fun l hl => lt_of_lt_of_le (he l hl) h

theorem Event.Flat.below {e : Event} (he : e.Flat) (d : Int) : e.Below d :=
  fun l hl => absurd (he ▸ hl) (by simp)

theorem sampleCell_appends (E : Env Rng Glob Sh) (s : DefaultSampler) (fuel : Nat)
    (scene : Scene Sh) (recur : Ray → Bool → St Rng Glob → Option (Color × St Rng Glob))
    (depth : Int) (ray : Ray) (info : HitInfo Sh) (n : Nat)
    (acc out : Color × St Rng Glob) (cell : Nat × Nat × BounceMode)
    (hrec : ∀ r e st o, recur r e st = some o → Appends (Event.Below depth) st o.2)
    (h : sampleCell E s fuel scene recur depth ray info n acc cell = some out) :
    Appends (Event.Below (depth + 1)) acc.2 out.2 := by
  obtain ⟨x, y, fu, fv, r, p, hlog, -⟩ := bounceCell_log E depth ray info n acc.2 cell
  have hb : Appends (Event.Below (depth + 1)) acc.2 (bounceCell E depth ray info n acc.2 cell).2 := by
    refine ⟨_, hlog, ?_⟩
    intro e he
    simp only [List.mem_cons, List.mem_singleton, List.not_mem_nil, or_false] at he
    rcases he with h1 | h1 | h1 <;> subst h1 <;> intro l hl
    · simp [Event.level] at hl
    · simp [Event.level] at hl
    · simp only [Event.level, Option.some.injEq] at hl
      omega
  by_cases hp : effectiveWeight cell.2.2 (bounceCell E depth ray info n acc.2 cell).1.2.2 > 0
  · obtain ⟨tail, h1, h2⟩ := sampleCell_tail E s fuel scene recur depth ray info n acc out cell hrec hp h
    refine hb.trans ⟨_, h1, ?_⟩
    intro e he
    rcases List.mem_cons.1 he with h3 | h3
    · subst h3
      intro l hl
      simp only [Event.level, Option.some.injEq] at hl
      omega
    · rcases h2 e h3 with h4 | h4
      · exact h4.raise (by omega)
      · rw [h4.1]
        intro l hl
        simp only [Event.level, Option.some.injEq] at hl
        omega
  · rw [sampleCell_skip E s fuel scene recur depth ray info n acc cell (not_lt.1 hp)] at h
    simp only [Option.some.injEq] at h
    subst h
    exact hb

theorem sampleBody_appends (E : Env Rng Glob Sh) (s : DefaultSampler) (fuel : Nat)
    (scene : Scene Sh) (recur : Ray → Bool → St Rng Glob → Option (Color × St Rng Glob))
    (ray : Ray) (emission : Bool) (samples depth : Int) (st : St Rng Glob)
    (out : Color × St Rng Glob)
    (hrec : ∀ r e st o, recur r e st = some o → Appends (Event.Below depth) st o.2)
    (h : sampleBody E s fuel scene recur ray emission samples depth st = some out) :
    Appends (Event.Below (depth + 1)) st out.2 := by
  have h0 : Appends (Event.Below (depth + 1)) st (st.emit (Event.intersect ray)) :=
    Appends.emit _ _ _ (Event.Flat.below (show (Event.intersect ray).Flat from rfl) _)
  simp only [sampleBody] at h
  split at h
  · split at h <;>
    · simp only [Option.some.injEq] at h
      subst h
      exact h0
  · split at h
    · simp only [Option.some.injEq] at h
      subst h
      exact h0
    · split at h
      · exact absurd h (by simp)
      · rename_i r1 st1 hf
        simp only [Option.some.injEq] at h
        subst h
        refine h0.trans ?_
        exact forCells_rel _ (fun a b => Appends (Event.Below (depth + 1)) a.2 b.2)
          (fun a => Appends.refl _ _) (fun a b c => Appends.trans) _
          (fun a c b _ hb => sampleCell_appends E s fuel scene recur depth ray _ _ a b c hrec hb)
          _ _ hf

theorem sample_appends (E : Env Rng Glob Sh) (s : DefaultSampler) (fuel : Nat)
    (scene : Scene Sh) (k : Nat) :
    ∀ (depth : Int), depth < k → ∀ (ray : Ray) (emission : Bool) (samples : Int)
      (st : St Rng Glob) (out : Color × St Rng Glob),
      sample E s fuel scene ray emission samples depth st = some out →
      Appends (Event.Below (depth + 1)) st out.2 := by
  induction k with
  | zero =>
    intro depth hd ray emission samples st out h
    rw [sample_neg E s fuel scene ray emission samples depth st (by simpa using hd)] at h
    simp only [Option.some.injEq] at h
    subst h
    exact Appends.refl _ _
  | succ k ih =>
    intro depth hd ray emission samples st out h
    by_cases hneg : depth < 0
    · rw [sample_neg E s fuel scene ray emission samples depth st hneg] at h
      simp only [Option.some.injEq] at h
      subst h
      exact Appends.refl _ _
    · rw [sample_eq E s fuel scene ray emission samples depth st (by omega)] at h
      refine sampleBody_appends E s fuel scene _ ray emission samples depth st out ?_ h
      intro r e st1 o ho
      have := ih (depth - 1) (by push_cast at hd; omega) r e 1 st1 o ho
      simpa using this

/-- The recursive call of `sample` at depth `depth` writes below `depth`. -/
theorem sample_recur_below (E : Env Rng Glob Sh) (s : DefaultSampler) (fuel : Nat)
    (scene : Scene Sh) (depth : Int) (r : Ray) (e : Bool) (st : St Rng Glob)
    (o : Color × St Rng Glob)
    (h : sample E s fuel scene r e 1 (depth - 1) st = some o) :
    Appends (Event.Below depth) st o.2 := by
  have := sample_appends E s fuel scene (depth - 1).toNat.succ (depth - 1)
    (by push_cast; omega) r e 1 st o h
  simpa using this

/-- The calls of `Bounce` and the recursive calls that one cell records at its own level. -/
theorem sampleCell_level (E : Env Rng Glob Sh) (s : DefaultSampler) (fuel : Nat)
    (scene : Scene Sh) (recur : Ray → Bool → St Rng Glob → Option (Color × St Rng Glob))
    (depth : Int) (ray : Ray) (info : HitInfo Sh) (n : Nat)
    (acc out : Color × St Rng Glob) (cell : Nat × Nat × BounceMode)
    (hrec : ∀ r e st o, recur r e st = some o → Appends (Event.Below depth) st o.2)
    (h : sampleCell E s fuel scene recur depth ray info n acc cell = some out) :
    bouncesAt depth out.2.log = bouncesAt depth acc.2.log ++
      [(cell.1, cell.2.1, cellCoord cell.1 n (E.Float64 acc.2.rnd).1,
        cellCoord cell.2.1 n (E.Float64 (E.Float64 acc.2.rnd).2).1, cell.2.2,
        (bounceCell E depth ray info n acc.2 cell).1.2.1,
        (bounceCell E depth ray info n acc.2 cell).1.2.2)] ∧
    callsAt depth out.2.log = callsAt depth acc.2.log ++
      (if effectiveWeight cell.2.2 (bounceCell E depth ray info n acc.2 cell).1.2.2 > 0 then
        [((bounceCell E depth ray info n acc.2 cell).1.2.1, 1, depth - 1)] else []) := by
  obtain ⟨x, y, fu, fv, r, p, hlog, hfu, hfv, hx, hy, hr, hp0⟩ :=
    bounceCell_log E depth ray info n acc.2 cell
  subst hx hy hfu hfv
  have hb : bouncesAt depth (bounceCell E depth ray info n acc.2 cell).2.log =
      bouncesAt depth acc.2.log ++
      [(cell.1, cell.2.1, cellCoord cell.1 n (E.Float64 acc.2.rnd).1,
        cellCoord cell.2.1 n (E.Float64 (E.Float64 acc.2.rnd).2).1, cell.2.2,
        (bounceCell E depth ray info n acc.2 cell).1.2.1,
        (bounceCell E depth ray info n acc.2 cell).1.2.2)] := by
    rw [hlog, bouncesAt_append, ← hr, ← hp0]
    simp [bouncesAt]
  have hc : callsAt depth (bounceCell E depth ray info n acc.2 cell).2.log =
      callsAt depth acc.2.log := by
    rw [hlog, callsAt_append]
    simp [callsAt]
  by_cases hp : effectiveWeight cell.2.2 (bounceCell E depth ray info n acc.2 cell).1.2.2 > 0
  · obtain ⟨tail, h1, h2⟩ :=
      sampleCell_tail E s fuel scene recur depth ray info n acc out cell hrec hp h
    have h3 : ∀ e ∈ tail, e.Below depth ∨ e = Event.directLight depth :=
      fun e he => (h2 e he).imp id (fun h => h.1)
    have h4 : out.2.log = (bounceCell E depth ray info n acc.2 cell).2.log ++
        ([Event.call depth (bounceCell E depth ray info n acc.2 cell).1.2.1 1 (depth - 1)] ++
          tail) := by simpa using h1
    rw [h4, bouncesAt_append, bouncesAt_append, callsAt_append, callsAt_append,
      bouncesAt_inner depth tail h3, callsAt_inner depth tail h3, hb, hc, if_pos hp]
    simp [bouncesAt, callsAt]
  · rw [sampleCell_skip E s fuel scene recur depth ray info n acc cell (not_lt.1 hp)] at h
    simp only [Option.some.injEq] at h
    subst h
    rw [if_neg hp]
    exact ⟨hb, by simpa using hc⟩

theorem inCell_of_draws (n u v : Nat) (m : BounceMode) (r : Bool) (p x y : ℚ)
    (hu : u < n) (hv : v < n) (hn : n < 2 ^ 53)
    (hx : 0 ≤ x ∧ x < 1) (hy : 0 ≤ y ∧ y < 1) :
    InCell n (u, v, cellCoord u n x, cellCoord v n y, m, r, p) :=
  ⟨(cellCoord_bounds u n x hu hn hx).1, (cellCoord_bounds u n x hu hn hx).2,
    (cellCoord_bounds v n y hv hn hy).1, (cellCoord_bounds v n y hv hn hy).2⟩

theorem forCells_level (E : Env Rng Glob Sh) (s : DefaultSampler) (fuel : Nat)
    (scene : Scene Sh) (recur : Ray → Bool → St Rng Glob → Option (Color × St Rng Glob))
    (depth : Int) (ray : Ray) (info : HitInfo Sh) (n : Nat)
    (hrec : ∀ r e st o, recur r e st = some o → Appends (Event.Below depth) st o.2)
    (hF : ∀ r, 0 ≤ (E.Float64 r).1 ∧ (E.Float64 r).1 < 1) (hn : n < 2 ^ 53)
    (cs : List (Nat × Nat × BounceMode)) (hcs : ∀ c ∈ cs, c.1 < n ∧ c.2.1 < n) :
    ∀ (acc out : Color × St Rng Glob),
      forCells (sampleCell E s fuel scene recur depth ray info n) cs acc = some out →
      ∃ Bs Cs, bouncesAt depth out.2.log = bouncesAt depth acc.2.log ++ Bs ∧
        Bs.map cellOf = cs ∧
        (∀ b ∈ Bs, InCell n b ∧ Answered E ray info b ∧ FromDraws E n b) ∧
        callsAt depth out.2.log = callsAt depth acc.2.log ++ Cs ∧
        (∀ c ∈ Cs, c.2 = (1, depth - 1)) ∧ Cs.length ≤ cs.length ∧
        ((∀ c ∈ cs, c.2.2 = BounceModeAny) → Cs.length = cs.length) := by
  induction cs with
  | nil =>
    intro acc out h
    simp only [forCells, Option.some.injEq] at h
    subst h
    exact ⟨[], [], by simp, rfl, by simp, by simp, by simp, by simp, by simp⟩
  | cons c cs ih =>
    intro acc out h
    simp only [forCells] at h
    split at h
    · exact absurd h (by simp)
    · rename_i a1 hf
      obtain ⟨hb1, hc1⟩ :=
        sampleCell_level E s fuel scene recur depth ray info n acc a1 c hrec hf
      obtain ⟨Bs, Cs, hb2, hm, hin, hc2, hall, hlen, hany⟩ :=
        ih (fun c1 h1 => hcs c1 (List.mem_cons_of_mem _ h1)) a1 out h
      refine ⟨(c.1, c.2.1, cellCoord c.1 n (E.Float64 acc.2.rnd).1,
          cellCoord c.2.1 n (E.Float64 (E.Float64 acc.2.rnd).2).1, c.2.2,
          (bounceCell E depth ray info n acc.2 c).1.2.1,
          (bounceCell E depth ray info n acc.2 c).1.2.2) :: Bs,
        (if effectiveWeight c.2.2 (bounceCell E depth ray info n acc.2 c).1.2.2 > 0 then
          [((bounceCell E depth ray info n acc.2 c).1.2.1, 1, depth - 1)] else []) ++ Cs,
        ?_, ?_, ?_, ?_, ?_, ?_, ?_⟩
      · rw [hb2, hb1, List.append_assoc]
        rfl
      · simp [cellOf, hm]
      · intro b hb
        rcases List.mem_cons.1 hb with h1 | h1
        · subst h1
          refine ⟨inCell_of_draws n _ _ _ _ _ _ _ (hcs c (List.mem_cons_self _ _)).1
            (hcs c (List.mem_cons_self _ _)).2 hn (hF _) (hF _), ?_, ?_⟩
          · refine ⟨(E.Float64 (E.Float64 acc.2.rnd).2).2, ?_⟩
            rw [bounceCell_answer]
          · exact ⟨acc.2.rnd, (E.Float64 acc.2.rnd).2, rfl, rfl⟩
        · exact hin b h1
      · rw [hc2, hc1, List.append_assoc]
      · intro x hx
        rcases List.mem_append.1 hx with h1 | h1
        · split at h1
          · simp only [List.mem_singleton] at h1
            subst h1
            rfl
          · exact absurd h1 (by simp)
        · exact hall x h1
      · split <;> simp <;> omega
      · intro hall1
        have h1 : c.2.2 = BounceModeAny := hall1 c (List.mem_cons_self _ _)
        have h2 := hany (fun c1 hc1 => hall1 c1 (List.mem_cons_of_mem _ hc1))
        have h3 : effectiveWeight c.2.2 (bounceCell E depth ray info n acc.2 c).1.2.2 > 0 := by
          simp [effectiveWeight, h1]
        rw [if_pos h3]
        simp [h2]

/-- The body of `sample` on a hit that is not cut short by the emittance test. -/
theorem sampleBody_hit (E : Env Rng Glob Sh) (s : DefaultSampler) (fuel : Nat)
    (scene : Scene Sh) (recur : Ray → Bool → St Rng Glob → Option (Color × St Rng Glob))
    (ray : Ray) (emission : Bool) (samples depth : Int) (st : St Rng Glob) (r0 : Color)
    (hok : (scene.Intersect ray).Ok = true)
    (hem : emissionStep s emission ((scene.Intersect ray).Info ray).Material samples = some r0) :
    sampleBody E s fuel scene recur ray emission samples depth st =
      match forCells
          (sampleCell E s fuel scene recur depth ray ((scene.Intersect ray).Info ray)
            (gridSize samples))
          (cells (gridSize samples) (bounceModes s (gridSize samples)).1
            (bounceModes s (gridSize samples)).2)
          (r0, st.emit (Event.intersect ray)) with
      | none => none
      | some o =>
        some (o.1.DivScalar (((gridSize samples * gridSize samples : Nat) : ℚ)), o.2) := by
  simp only [sampleBody, hok, hem, Bool.not_true, Bool.false_eq_true, if_false]
  split <;> rename_i h1 <;> simp [h1]

theorem emissionStep_eligible (s : DefaultSampler) (material : Material) (samples : Int) :
    emissionStep s true material samples =
      some (if material.Emittance > 0 then
        Color.zero.Add (material.Color.MulScalar (material.Emittance * (samples : ℚ)))
        else Color.zero) := by
  unfold emissionStep
  split <;> simp

theorem not_isSome_of_eq_none {α : Type} {x : Option α} (h : x = none) (h2 : x.isSome) :
    False := by
  subst h
  exact absurd h2 (by simp)

theorem forCells_isSome {α β : Type} (f : α → β → Option α)
    (hf : ∀ a c, (f a c).isSome) (l : List β) : ∀ a, (forCells f l a).isSome := by
  induction l with
  | nil => intro a; rfl
  | cons c cs ih =>
    intro a
    simp only [forCells]
    obtain ⟨a1, h1⟩ := Option.isSome_iff_exists.1 (hf a c)
    rw [h1]
    exact ih a1

theorem directLight_isSome (E : Env Rng Glob Sh) (fuel : Nat) (hT : Terminates E fuel)
    (scene : Scene Sh) (n : Ray) (st : St Rng Glob) :
    (directLight E fuel scene n st).isSome := by
  simp only [directLight]
  split
  · rfl
  · rename_i hne
    have hi := hT.2 st.glob scene.Lights.length (Nat.pos_of_ne_zero hne)
    rw [List.getElem?_eq_getElem hi]
    simp only
    split
    · rename_i hlp
      exact (not_isSome_of_eq_none hlp (hT.1 _ _ _ _)).elim
    · split
      · rfl
      · split <;> rfl

theorem sampleCell_isSome (E : Env Rng Glob Sh) (s : DefaultSampler) (fuel : Nat)
    (hT : Terminates E fuel) (scene : Scene Sh)
    (recur : Ray → Bool → St Rng Glob → Option (Color × St Rng Glob))
    (hrec : ∀ r e st, (recur r e st).isSome)
    (depth : Int) (ray : Ray) (info : HitInfo Sh) (n : Nat)
    (acc : Color × St Rng Glob) (cell : Nat × Nat × BounceMode) :
    (sampleCell E s fuel scene recur depth ray info n acc cell).isSome := by
  simp only [sampleCell]
  split
  · split
    · rename_i h1
      exact (not_isSome_of_eq_none h1 (hrec _ _ _)).elim
    · rfl
  · split
    · split
      · rename_i h1
        exact (not_isSome_of_eq_none h1 (hrec _ _ _)).elim
      · split
        · rename_i h2
          split at h2
          · exact (not_isSome_of_eq_none h2 (directLight_isSome E fuel hT scene _ _)).elim
          · exact absurd h2 (by simp)
        · rfl
    · rfl

theorem sampleBody_isSome (E : Env Rng Glob Sh) (s : DefaultSampler) (fuel : Nat)
    (hT : Terminates E fuel) (scene : Scene Sh)
    (recur : Ray → Bool → St Rng Glob → Option (Color × St Rng Glob))
    (hrec : ∀ r e st, (recur r e st).isSome)
    (ray : Ray) (emission : Bool) (samples depth : Int) (st : St Rng Glob) :
    (sampleBody E s fuel scene recur ray emission samples depth st).isSome := by
  simp only [sampleBody]
  split
  · split <;> rfl
  · split
    · rfl
    · split
      · rename_i h1
        exact (not_isSome_of_eq_none h1 (forCells_isSome _
          (sampleCell_isSome E s fuel hT scene recur hrec depth ray
            ((scene.Intersect ray).Info ray) (gridSize samples)) _ _)).elim
      · rfl

/-- `sample` returns a value whenever the rejection loop of `directLight`
accepts within the fuel. -/
theorem sample_isSome (E : Env Rng Glob Sh) (s : DefaultSampler) (fuel : Nat)
    (hT : Terminates E fuel) (scene : Scene Sh) (k : Nat) :
    ∀ (depth : Int), depth < k → ∀ (ray : Ray) (emission : Bool) (samples : Int)
      (st : St Rng Glob), (sample E s fuel scene ray emission samples depth st).isSome := by
  induction k with
  | zero =>
    intro depth hd ray emission samples st
    rw [sample_neg E s fuel scene ray emission samples depth st (by simpa using hd)]
    rfl
  | succ k ih =>
    intro depth hd ray emission samples st
    by_cases hneg : depth < 0
    · rw [sample_neg E s fuel scene ray emission samples depth st hneg]
      rfl
    · rw [sample_eq E s fuel scene ray emission samples depth st (by omega)]
      exact sampleBody_isSome E s fuel hT scene _
        (fun r e st1 => ih (depth - 1) (by push_cast at hd; omega) r e 1 st1)
        ray emission samples depth st

theorem Sample_isSome (E : Env Rng Glob Sh) (s : DefaultSampler) (fuel : Nat)
    (hT : Terminates E fuel) (scene : Scene Sh) (ray : Ray) (st : St Rng Glob) :
    (Sample E s fuel scene ray st).isSome :=
  sample_isSome E s fuel hT scene (s.MaxBounces.toNat + 1) s.MaxBounces
    (by push_cast; omega) ray true s.FirstHitSamples st

theorem demoEnv_terminates (fuel : Nat) : Terminates demoEnv (fuel + 1) := by
  refine ⟨fun center radius n st => ?_, fun g n hn => Nat.mod_lt _ hn⟩
  simp [lightPoint, St.float64, demoEnv]

theorem demoEnv_unit (r : Nat) : 0 ≤ (demoEnv.Float64 r).1 ∧ (demoEnv.Float64 r).1 < 1 := by
  constructor <;> norm_num [demoEnv]

/-- With direct lighting off and a recursive call that returns the zero color,
a cell leaves the running result as it was. -/
theorem sampleCell_leaf (E : Env Rng Glob Sh) (s : DefaultSampler) (fuel : Nat)
    (scene : Scene Sh) (recur : Ray → Bool → St Rng Glob → Option (Color × St Rng Glob))
    (depth : Int) (ray : Ray) (info : HitInfo Sh) (n : Nat)
    (acc : Color × St Rng Glob) (cell : Nat × Nat × BounceMode)
    (hrec : ∀ r e st, recur r e st = some (Color.zero, st))
    (hdl : s.DirectLighting = false) :
    ∃ st1, sampleCell E s fuel scene recur depth ray info n acc cell = some (acc.1, st1) := by
  simp only [sampleCell, hrec, hdl, Bool.false_eq_true, if_false]
  split
  · exact ⟨(bounceCell E depth ray info n acc.2 cell).2.emit
        (Event.call depth (bounceCell E depth ray info n acc.2 cell).1.2.1 1 (depth - 1)),
      by simp [Color.mul_zero, Color.zero_mix_zero, Color.zero_mulScalar, Color.add_zero]⟩
  · split
    · exact ⟨(bounceCell E depth ray info n acc.2 cell).2.emit
          (Event.call depth (bounceCell E depth ray info n acc.2 cell).1.2.1 1 (depth - 1)),
        by simp [Color.mul_zero, Color.zero_mulScalar, Color.add_zero]⟩
    · exact ⟨_, rfl⟩

theorem forCells_leaf (E : Env Rng Glob Sh) (s : DefaultSampler) (fuel : Nat)
    (scene : Scene Sh) (recur : Ray → Bool → St Rng Glob → Option (Color × St Rng Glob))
    (depth : Int) (ray : Ray) (info : HitInfo Sh) (n : Nat)
    (hrec : ∀ r e st, recur r e st = some (Color.zero, st))
    (hdl : s.DirectLighting = false) (cs : List (Nat × Nat × BounceMode)) :
    ∀ acc : Color × St Rng Glob, ∃ st1,
      forCells (sampleCell E s fuel scene recur depth ray info n) cs acc = some (acc.1, st1) := by
  induction cs with
  | nil => intro acc; exact ⟨acc.2, rfl⟩
  | cons c cs ih =>
    intro acc
    obtain ⟨st1, h1⟩ := sampleCell_leaf E s fuel scene recur depth ray info n acc c hrec hdl
    obtain ⟨st2, h2⟩ := ih (acc.1, st1)
    exact ⟨st2, by simp only [forCells, h1]; exact h2⟩

/-- With `MaxBounces = 0` and direct lighting off, a ray that hits an emissive
surface returns the emittance term divided by the square of the grid size. -/
theorem Sample_emissive_leaf (E : Env Rng Glob Sh) (s : DefaultSampler) (fuel : Nat)
    (scene : Scene Sh) (ray : Ray) (st : St Rng Glob)
    (hd : s.MaxBounces = 0) (hdl : s.DirectLighting = false)
    (hok : (scene.Intersect ray).Ok = true)
    (he : ((scene.Intersect ray).Info ray).Material.Emittance > 0) :
    ∃ st1, Sample E s fuel scene ray st =
      some ((((scene.Intersect ray).Info ray).Material.Color.MulScalar
          (((scene.Intersect ray).Info ray).Material.Emittance * (s.FirstHitSamples : ℚ))).DivScalar
            (((gridSize s.FirstHitSamples * gridSize s.FirstHitSamples : Nat) : ℚ)), st1) := by
  unfold Sample
  rw [sample_eq E s fuel scene ray true s.FirstHitSamples s.MaxBounces st (by omega),
    sampleBody_hit E s fuel scene _ ray true s.FirstHitSamples s.MaxBounces st _ hok
      (emissionStep_eligible s _ _), if_pos he, Color.zero_add]
  obtain ⟨st1, h1⟩ := forCells_leaf E s fuel scene
    (fun newRay reflected st1 =>
      sample E s fuel scene newRay reflected 1 (s.MaxBounces - 1) st1)
    s.MaxBounces ray ((scene.Intersect ray).Info ray) (gridSize s.FirstHitSamples)
    (fun r e st2 => sample_neg E s fuel scene r e 1 (s.MaxBounces - 1) st2 (by omega)) hdl
    (cells (gridSize s.FirstHitSamples) (bounceModes s (gridSize s.FirstHitSamples)).1
      (bounceModes s (gridSize s.FirstHitSamples)).2)
    (((scene.Intersect ray).Info ray).Material.Color.MulScalar
        (((scene.Intersect ray).Info ray).Material.Emittance * (s.FirstHitSamples : ℚ)),
      st.emit (Event.intersect ray))
  rw [h1]
  exact ⟨st1, rfl⟩

theorem demo_upRay_ok : (demoScene.Intersect upRay).Ok = true := by
  simp [demoScene, demoIntersect, hitAt, upRay, downRay]

theorem demo_upRay_material : ((demoScene.Intersect upRay).Info upRay).Material = lamp 30 := by
  simp [demoScene, demoIntersect, hitAt, upRay, downRay]

theorem sampleCell_contribution (E : Env Rng Glob Sh) (s : DefaultSampler) (fuel : Nat)
    (scene : Scene Sh) (recur : Ray → Bool → St Rng Glob → Option (Color × St Rng Glob))
    (depth : Int) (ray : Ray) (info : HitInfo Sh) (n : Nat)
    (acc : Color × St Rng Glob) (cell : Nat × Nat × BounceMode) :
    sampleCell E s fuel scene recur depth ray info n acc cell =
      (contributionSpec E s fuel scene recur depth ray info n acc.2 cell).map
        (fun o => (acc.1.Add o.1, o.2)) := by
  simp only [sampleCell, contributionSpec]
  by_cases hp : effectiveWeight cell.2.2 (bounceCell E depth ray info n acc.2 cell).1.2.2 > 0
  · simp only [hp, true_and, if_true]
    by_cases hr : (bounceCell E depth ray info n acc.2 cell).1.2.1 = true
    · simp only [hr, if_true]
      split <;> rfl
    · have hr2 : (bounceCell E depth ray info n acc.2 cell).1.2.1 = false := by simpa using hr
      simp only [hr2, Bool.false_eq_true, if_false, if_true]
      split
      · rfl
      · by_cases hdl : s.DirectLighting = true
        · simp only [hdl, if_true]
          split <;> rfl
        · have hdl2 : s.DirectLighting = false := by simpa using hdl
          simp [hdl2]
  · simp [hp, Color.add_zero]

theorem forCells_contributions (E : Env Rng Glob Sh) (s : DefaultSampler) (fuel : Nat)
    (scene : Scene Sh) (recur : Ray → Bool → St Rng Glob → Option (Color × St Rng Glob))
    (depth : Int) (ray : Ray) (info : HitInfo Sh) (n : Nat)
    (cs : List (Nat × Nat × BounceMode)) :
    ∀ acc : Color × St Rng Glob,
      forCells (sampleCell E s fuel scene recur depth ray info n) cs acc =
        (contributionsSpec (contributionSpec E s fuel scene recur depth ray info n) cs acc.2).map
          (fun o => (acc.1.Add (Color.sum o.1), o.2)) := by
  induction cs with
  | nil =>
    intro acc
    simp [forCells, contributionsSpec, Color.sum, Color.add_zero]
  | cons c cs ih =>
    intro acc
    simp only [forCells, contributionsSpec, sampleCell_contribution]
    cases h1 : contributionSpec E s fuel scene recur depth ray info n acc.2 c with
    | none => simp
    | some o =>
      simp only [Option.map_some']
      rw [ih]
      cases h2 : contributionsSpec (contributionSpec E s fuel scene recur depth ray info n) cs o.2 with
      | none => simp
      | some o2 => simp [Color.sum, Color.addAssoc]

theorem directLight_nonneg (E : Env Rng Glob Sh) (fuel : Nat) (scene : Scene Sh) (n : Ray)
    (st : St Rng Glob) (out : Color × St Rng Glob)
    (hv : ∀ light, light ∈ scene.Lights → ∀ p, (E.MaterialAt light p).Valid)
    (h : directLight E fuel scene n st = some out) : out.1.NonNeg := by
  simp only [directLight] at h
  split at h
  · simp only [Option.some.injEq] at h
    subst h
    exact Color.nonNeg_zero
  · split at h
    · exact absurd h (by simp)
    · rename_i light hl
      have hmem : light ∈ scene.Lights := List.getElem?_mem hl
      split at h
      · exact absurd h (by simp)
      · rename_i point st2 hlp
        split at h
        · simp only [Option.some.injEq] at h
          subst h
          exact Color.nonNeg_zero
        · rename_i hdiff
          split at h
          · simp only [Option.some.injEq] at h
            subst h
            exact Color.nonNeg_zero
          · simp only [Option.some.injEq] at h
            subst h
            have hm := hv light hmem point
            refine Color.nonNeg_mulScalar hm.1 ?_
            refine mul_nonneg (mul_nonneg (mul_nonneg hm.2.1 (le_of_lt (not_le.1 hdiff)))
              (coverage_nonneg E _ _ _)) (Nat.cast_nonneg _)

theorem sampleCell_nonneg (E : Env Rng Glob Sh) (s : DefaultSampler) (fuel : Nat)
    (scene : Scene Sh) (recur : Ray → Bool → St Rng Glob → Option (Color × St Rng Glob))
    (depth : Int) (ray : Ray) (info : HitInfo Sh) (n : Nat)
    (acc out : Color × St Rng Glob) (cell : Nat × Nat × BounceMode)
    (hv : ∀ light, light ∈ scene.Lights → ∀ p, (E.MaterialAt light p).Valid)
    (hm : info.Material.Valid)
    (hrec : ∀ r e st o, recur r e st = some o → o.1.NonNeg)
    (hacc : acc.1.NonNeg)
    (h : sampleCell E s fuel scene recur depth ray info n acc cell = some out) :
    out.1.NonNeg := by
  simp only [sampleCell] at h
  split at h
  · rename_i hp
    split at h
    · exact absurd h (by simp)
    · rename_i indirect st4 hr
      simp only [Option.some.injEq] at h
      subst h
      have hI : indirect.NonNeg := hrec _ _ _ _ hr
      exact Color.nonNeg_add hacc (Color.nonNeg_mulScalar
        (Color.nonNeg_mix hI (Color.nonNeg_mul hm.1 hI) hm.2.2.1 hm.2.2.2) (le_of_lt hp.1))
  · split at h
    · rename_i hp
      split at h
      · exact absurd h (by simp)
      · rename_i indirect st4 hr
        have hI : indirect.NonNeg := hrec _ _ _ _ hr
        split at h
        · exact absurd h (by simp)
        · rename_i direct st5 hd
          simp only [Option.some.injEq] at h
          subst h
          have hD : direct.NonNeg := by
            split at hd
            · exact directLight_nonneg E fuel scene _ _ _ hv hd
            · simp only [Option.some.injEq, Prod.mk.injEq] at hd
              rw [← hd.1]
              exact Color.nonNeg_zero
          exact Color.nonNeg_add hacc (Color.nonNeg_mulScalar
            (Color.nonNeg_mul hm.1 (Color.nonNeg_add hD hI)) (le_of_lt hp.1))
    · simp only [Option.some.injEq] at h
      subst h
      exact hacc

theorem emissionStep_nonneg (s : DefaultSampler) (emission : Bool) (material : Material)
    (samples : Int) (r0 : Color) (hm : material.Valid) (hs : 0 ≤ samples)
    (h : emissionStep s emission material samples = some r0) : r0.NonNeg := by
  unfold emissionStep at h
  simp only at h
  split at h
  · split at h
    · exact absurd h (by simp)
    · simp only [Option.some.injEq] at h
      subst h
      exact Color.nonNeg_add Color.nonNeg_zero (Color.nonNeg_mulScalar hm.1
        (mul_nonneg hm.2.1 (by exact_mod_cast hs)))
  · simp only [Option.some.injEq] at h
    subst h
    exact Color.nonNeg_zero

theorem sampleBody_nonneg (E : Env Rng Glob Sh) (s : DefaultSampler) (fuel : Nat)
    (scene : Scene Sh) (recur : Ray → Bool → St Rng Glob → Option (Color × St Rng Glob))
    (ray : Ray) (emission : Bool) (samples depth : Int) (st : St Rng Glob)
    (out : Color × St Rng Glob) (hV : ValidInputs E scene) (hs : 0 ≤ samples)
    (hrec : ∀ r e st o, recur r e st = some o → o.1.NonNeg)
    (h : sampleBody E s fuel scene recur ray emission samples depth st = some out) :
    out.1.NonNeg := by
  obtain ⟨hc, ht, hmat, hl⟩ := hV
  simp only [sampleBody] at h
  split at h
  · split at h
    · rename_i texture htex
      simp only [Option.some.injEq] at h
      subst h
      exact ht texture htex _ _
    · simp only [Option.some.injEq] at h
      subst h
      exact hc
  · rename_i hok
    have hok2 : (scene.Intersect ray).Ok = true := by simpa using hok
    split at h
    · simp only [Option.some.injEq] at h
      subst h
      exact Color.nonNeg_zero
    · rename_i r0 hem
      split at h
      · exact absurd h (by simp)
      · rename_i r1 st1 hf
        simp only [Option.some.injEq] at h
        subst h
        have h0 : r0.NonNeg := emissionStep_nonneg s emission _ samples r0 (hmat ray hok2) hs hem
        have h1 := forCells_rel _
          (fun (a b : Color × St Rng Glob) => a.1.NonNeg → b.1.NonNeg)
          (fun a h => h) (fun a b c hab hbc h => hbc (hab h)) _
          (fun a c b _ hb ha => sampleCell_nonneg E s fuel scene recur depth ray _ _ a b c
            hl (hmat ray hok2) hrec ha hb) _ _ hf h0
        exact Color.nonNeg_divScalar h1 (Nat.cast_nonneg _)

theorem sample_nonneg (E : Env Rng Glob Sh) (s : DefaultSampler) (fuel : Nat)
    (scene : Scene Sh) (hV : ValidInputs E scene) (k : Nat) :
    ∀ (depth : Int), depth < k → ∀ (ray : Ray) (emission : Bool) (samples : Int)
      (st : St Rng Glob) (out : Color × St Rng Glob), 0 ≤ samples →
      sample E s fuel scene ray emission samples depth st = some out → out.1.NonNeg := by
  induction k with
  | zero =>
    intro depth hd ray emission samples st out _ h
    rw [sample_neg E s fuel scene ray emission samples depth st (by simpa using hd)] at h
    simp only [Option.some.injEq] at h
    subst h
    exact Color.nonNeg_zero
  | succ k ih =>
    intro depth hd ray emission samples st out hs h
    by_cases hneg : depth < 0
    · rw [sample_neg E s fuel scene ray emission samples depth st hneg] at h
      simp only [Option.some.injEq] at h
      subst h
      exact Color.nonNeg_zero
    · rw [sample_eq E s fuel scene ray emission samples depth st (by omega)] at h
      exact sampleBody_nonneg E s fuel scene _ ray emission samples depth st out hV hs
        (fun r e st1 o ho => ih (depth - 1) (by push_cast at hd; omega) r e 1 st1 o
          (by decide) ho) h

theorem demo_valid : ValidInputs demoEnv demoScene := by
  refine ⟨by norm_num [demoScene, Color.NonNeg], fun texture h => absurd h (by simp [demoScene]),
    fun ray hok => ?_, fun light _ p => ?_⟩
  · simp only [demoScene] at hok ⊢
    unfold demoIntersect at hok ⊢
    by_cases h1 : ray = downRay
    · rw [if_pos h1]
      norm_num [hitAt, white, Material.Valid, Color.NonNeg]
    · rw [if_neg h1] at hok ⊢
      by_cases h2 : ray = upRay
      · rw [if_pos h2]
        norm_num [hitAt, lamp, Material.Valid, Color.NonNeg]
      · rw [if_neg h2] at hok
        exact absurd hok (by simp [NoHit])
  · simp only [demoEnv]
    split
    · norm_num [lamp, Material.Valid, Color.NonNeg]
    · split <;> norm_num [lamp, white, Material.Valid, Color.NonNeg]

set_option maxRecDepth 8000 in
theorem global_generator_run0 :
    (Sample demoEnv (NewSampler 1 0) 4 demoScene downRay (st0 0 0)).map Prod.fst
      = some ⟨3750000 / 187489, 3750000 / 187489, 3750000 / 187489⟩ := by
  have h1 : gridSize 1 = 1 := gridSize_one
  norm_num [Sample, sample, sampleK, sampleBody, NewSampler, demoScene, demoIntersect, hitAt,
    downRay, upRay, emissionStep, white, lamp, h1, bounceModes, cells, modeRange, forCells,
    sampleCell, bounceCell, St.float64, St.emit, demoEnv, effectiveWeight, directLight,
    lightPoint, boundingSphere, coverage, st0, SpecularModeNaive, SpecularModeAll,
    SpecularModeFirst, BounceModeAny, BounceModeSpecular, BounceModeDiffuse, Vector.Sub,
    Vector.Add, Vector.Normalize, Vector.Length, Vector.Cross, Vector.Dot, Vector.MulScalar,
    Vector.zero, Color.Add, Color.Mul, Color.MulScalar, Color.DivScalar, Color.zero, NoHit]

set_option maxRecDepth 8000 in
theorem global_generator_run1 :
    (Sample demoEnv (NewSampler 1 0) 4 demoScene downRay (st0 0 1)).map Prod.fst
      = some ⟨0, 0, 0⟩ := by
  have h1 : gridSize 1 = 1 := gridSize_one
  norm_num [Sample, sample, sampleK, sampleBody, NewSampler, demoScene, demoIntersect, hitAt,
    downRay, upRay, emissionStep, white, lamp, h1, bounceModes, cells, modeRange, forCells,
    sampleCell, bounceCell, St.float64, St.emit, demoEnv, effectiveWeight, directLight,
    lightPoint, boundingSphere, coverage, st0, SpecularModeNaive, SpecularModeAll,
    SpecularModeFirst, BounceModeAny, BounceModeSpecular, BounceModeDiffuse, Vector.Sub,
    Vector.Add, Vector.Normalize, Vector.Length, Vector.Cross, Vector.Dot, Vector.MulScalar,
    Vector.zero, Color.Add, Color.Mul, Color.MulScalar, Color.DivScalar, Color.zero, NoHit]


/-- The body of `directLight` once a light is picked and a light point is sampled. -/
theorem directLight_picked (E : Env Rng Glob Sh) (fuel : Nat) (scene : Scene Sh) (n : Ray)
    (st : St Rng Glob) (light : Sh) (point : Vector) (st2 : St Rng Glob)
    (hl : scene.Lights[(E.Intn st.glob scene.Lights.length).1]? = some light)
    (hp : lightPoint E (boundingSphere E light).1 (boundingSphere E light).2 n fuel
      (afterPick E scene st) = some (point, st2)) :
    directLight E fuel scene n st =
      if (shadowRay E n point).Direction.Dot n.Direction ≤ 0 then some (Color.zero, st2)
      else if (!(scene.Intersect (shadowRay E n point)).Ok ||
          (scene.Intersect (shadowRay E n point)).Shape ≠ some light) then
        some (Color.zero, st2.emit (Event.intersect (shadowRay E n point)))
      else
        some ((E.MaterialAt light point).Color.MulScalar
          ((E.MaterialAt light point).Emittance *
            (shadowRay E n point).Direction.Dot n.Direction *
            coverage E (boundingSphere E light).1 (boundingSphere E light).2 n.Origin *
            (scene.Lights.length : ℚ)),
          st2.emit (Event.intersect (shadowRay E n point))) := by
  have hne : scene.Lights.length ≠ 0 := by
    intro h0
    have := (List.getElem?_eq_some.1 hl).1
    omega
  unfold afterPick at hp
  simp only [directLight, hne, if_false, hl, hp, shadowRay]

theorem demo_pick0 :
    demoScene.Lights[(demoEnv.Intn (st0 0 0).glob demoScene.Lights.length).1]? = some 1 := by
  simp [demoScene, demoEnv, st0]

theorem demo_pick1 :
    demoScene.Lights[(demoEnv.Intn (st0 0 1).glob demoScene.Lights.length).1]? = some 2 := by
  simp [demoScene, demoEnv, st0]

theorem demo_lightPoint0 :
    lightPoint demoEnv (boundingSphere demoEnv 1).1 (boundingSphere demoEnv 1).2 upRay 4
      (afterPick demoEnv demoScene (st0 0 0)) = some (⟨0, 0, 2⟩, litState 0) := by
  norm_num [lightPoint, boundingSphere, afterPick, demoEnv, demoScene, st0, upRay, litState,
    St.float64, Vector.Sub, Vector.Add, Vector.Normalize, Vector.Length, Vector.Cross,
    Vector.MulScalar, Vector.zero]

theorem demo_lightPoint1 :
    lightPoint demoEnv (boundingSphere demoEnv 2).1 (boundingSphere demoEnv 2).2 upRay 4
      (afterPick demoEnv demoScene (st0 0 1)) = some (⟨0, 0, -2⟩, litState 1) := by
  norm_num [lightPoint, boundingSphere, afterPick, demoEnv, demoScene, st0, upRay, litState,
    St.float64, Vector.Sub, Vector.Add, Vector.Normalize, Vector.Length, Vector.Cross,
    Vector.MulScalar, Vector.zero]

theorem demo_shadow0 : shadowRay demoEnv upRay ⟨0, 0, 2⟩ = upRay := by
  norm_num [shadowRay, demoEnv, upRay, Vector.Sub, Vector.Normalize, Vector.Length]

theorem demo_shadow1 : shadowRay demoEnv upRay ⟨0, 0, -2⟩ = ⟨⟨0, 0, 0⟩, ⟨0, 0, -1⟩⟩ := by
  norm_num [shadowRay, demoEnv, upRay, Vector.Sub, Vector.Normalize, Vector.Length]

/-- On a hit cut short by the emittance test, `sample` returns the zero color
right after the intersection. -/
theorem sample_suppressed (E : Env Rng Glob Sh) (s : DefaultSampler) (fuel : Nat)
    (scene : Scene Sh) (ray : Ray) (emission : Bool) (samples depth : Int) (st : St Rng Glob)
    (hd : 0 ≤ depth) (hok : (scene.Intersect ray).Ok = true)
    (hem : emissionStep s emission ((scene.Intersect ray).Info ray).Material samples = none) :
    sample E s fuel scene ray emission samples depth st =
      some (Color.zero, st.emit (Event.intersect ray)) := by
  rw [sample_eq E s fuel scene ray emission samples depth st hd]
  simp [sampleBody, hok, hem]

set_option maxRecDepth 8000 in
theorem black_run_emissive :
    (sample (blackEnv 30) (NewSampler 1 0) 4 (blackScene 30) upRay false 1 0 (st0 0 0)).map
      Prod.fst = some ⟨0, 0, 0⟩ := by
  have h1 : gridSize 1 = 1 := gridSize_one
  norm_num [sample, sampleK, sampleBody, NewSampler, blackScene, hitAt, black,
    downRay, upRay, emissionStep, white, lamp, h1, bounceModes, cells, modeRange, forCells,
    sampleCell, bounceCell, St.float64, St.emit, demoEnv, blackEnv, effectiveWeight, directLight,
    lightPoint, boundingSphere, coverage, st0, SpecularModeNaive, SpecularModeAll,
    SpecularModeFirst, BounceModeAny, BounceModeSpecular, BounceModeDiffuse, Vector.Sub,
    Vector.Add, Vector.Normalize, Vector.Length, Vector.Cross, Vector.Dot, Vector.MulScalar,
    Vector.zero, Color.Add, Color.Mul, Color.MulScalar, Color.DivScalar, Color.zero, NoHit]

set_option maxRecDepth 8000 in
theorem black_run_plain :
    (sample (blackEnv 0) (NewSampler 1 0) 4 (blackScene 0) upRay false 1 0 (st0 0 0)).map
      Prod.fst = some ⟨0, 0, 0⟩ := by
  have h1 : gridSize 1 = 1 := gridSize_one
  norm_num [sample, sampleK, sampleBody, NewSampler, blackScene, hitAt, black,
    downRay, upRay, emissionStep, white, lamp, h1, bounceModes, cells, modeRange, forCells,
    sampleCell, bounceCell, St.float64, St.emit, demoEnv, blackEnv, effectiveWeight, directLight,
    lightPoint, boundingSphere, coverage, st0, SpecularModeNaive, SpecularModeAll,
    SpecularModeFirst, BounceModeAny, BounceModeSpecular, BounceModeDiffuse, Vector.Sub,
    Vector.Add, Vector.Normalize, Vector.Length, Vector.Cross, Vector.Dot, Vector.MulScalar,
    Vector.zero, Color.Add, Color.Mul, Color.MulScalar, Color.DivScalar, Color.zero, NoHit]

/-- The entries of one cell at depth `depth >= 0` form a shaped segment when
those of the recursive call do at depth `depth - 1`. -/
theorem sampleCell_shaped (E : Env Rng Glob Sh) (s : DefaultSampler) (fuel : Nat)
    (scene : Scene Sh) (recur : Ray → Bool → St Rng Glob → Option (Color × St Rng Glob))
    (depth : Int) (ray : Ray) (info : HitInfo Sh) (n : Nat)
    (acc out : Color × St Rng Glob) (cell : Nat × Nat × BounceMode) (hd : 0 ≤ depth)
    (hrec : ∀ r e st o, recur r e st = some o → Extends (Shaped (depth - 1)) st o.2)
    (h : sampleCell E s fuel scene recur depth ray info n acc cell = some out) :
    Extends (Shaped depth) acc.2 out.2 := by
  obtain ⟨x, y, fu, fv, r, p, hlog, -, -, -, -, hr, hp0⟩ :=
    bounceCell_log E depth ray info n acc.2 cell
  subst hr hp0
  have hwb : ∀ r p, (Event.bounce depth cell.1 cell.2.1 fu fv cell.2.2 r p).Within depth := by
    intro r p
    intro l hl
    simp only [Event.level, Option.some.injEq] at hl
    omega
  have hwc : ∀ em, (Event.call depth em 1 (depth - 1)).Within depth := by
    intro em l hl
    simp only [Event.level, Option.some.injEq] at hl
    omega
  have hwd : (Event.directLight depth).Within depth := by
    intro l hl
    simp only [Event.level, Option.some.injEq] at hl
    omega
  have hf : ∀ q, (Event.float64 q).Flat := fun q => rfl
  simp only [sampleCell] at h
  split at h
  · -- reflected
    split at h
    · exact absurd h (by simp)
    · rename_i indirect st4 hrr
      simp only [Option.some.injEq] at h
      subst h
      obtain ⟨ev, h1, h2⟩ := hrec _ _ _ _ hrr
      refine ⟨[Event.float64 x, Event.float64 y] ++
        (Event.bounce depth cell.1 cell.2.1 fu fv cell.2.2
            (bounceCell E depth ray info n acc.2 cell).1.2.1
            (bounceCell E depth ray info n acc.2 cell).1.2.2 ::
          Event.call depth (bounceCell E depth ray info n acc.2 cell).1.2.1 1 (depth - 1) ::
            ev), ?_, ?_, ?_⟩
      · have h1a : st4.log = _ := h1
        rw [h1a]
        simp [St.emit, hlog]
      · exact callsOk_append (callsOk_of_flat _ (by simp [Event.Flat, Event.level]))
          (CallsOk.call depth _ _ _ _ _ _ _ ev h2.1)
      · intro e he
        simp only [List.mem_append, List.mem_cons, List.mem_singleton, List.not_mem_nil,
          or_false] at he
        rcases he with (h3 | h3) | h3 | h3 | h3
        · subst h3; exact (hf x).within depth
        · subst h3; exact (hf y).within depth
        · subst h3; exact hwb _ _
        · subst h3; exact hwc _
        · exact (h2.2 e h3).widen (by omega)
  · split at h
    · split at h
      · exact absurd h (by simp)
      · rename_i indirect st4 hrr
        obtain ⟨ev, h1, h2⟩ := hrec _ _ _ _ hrr
        split at h
        · exact absurd h (by simp)
        · rename_i direct st5 hdd
          simp only [Option.some.injEq] at h
          subst h
          have hdl : ∃ ev2, st5.log = st4.log ++ ev2 ∧ Shaped depth ev2 := by
            split at hdd
            · obtain ⟨ev3, h3, h4⟩ := directLight_appends E fuel scene info.Ray _ _ hdd
              refine ⟨Event.directLight depth :: ev3, by simpa [St.emit] using h3, ?_, ?_⟩
              · exact CallsOk.skip _ _ (by intro l em n dp; simp) (callsOk_of_flat _ h4)
              · intro e he
                rcases List.mem_cons.1 he with h5 | h5
                · subst h5; exact hwd
                · exact (h4 e h5).within depth
            · simp only [Option.some.injEq, Prod.mk.injEq] at hdd
              obtain ⟨-, rfl⟩ := hdd
              exact ⟨[], by simp, shaped_nil depth⟩
          obtain ⟨ev2, h5, h6⟩ := hdl
          refine ⟨([Event.float64 x, Event.float64 y] ++
            (Event.bounce depth cell.1 cell.2.1 fu fv cell.2.2
                (bounceCell E depth ray info n acc.2 cell).1.2.1
                (bounceCell E depth ray info n acc.2 cell).1.2.2 ::
              Event.call depth (bounceCell E depth ray info n acc.2 cell).1.2.1 1 (depth - 1) ::
                ev)) ++ ev2, ?_, ?_⟩
          · have h1a : st4.log = _ := h1
            rw [h5, h1a]
            simp [St.emit, hlog]
          · refine shaped_append ⟨?_, ?_⟩ h6
            · exact callsOk_append (callsOk_of_flat _ (by simp [Event.Flat, Event.level]))
                (CallsOk.call depth _ _ _ _ _ _ _ ev h2.1)
            · intro e he
              simp only [List.mem_append, List.mem_cons, List.mem_singleton, List.not_mem_nil,
                or_false] at he
              rcases he with (h3 | h3) | h3 | h3 | h3
              · subst h3; exact (hf x).within depth
              · subst h3; exact (hf y).within depth
              · subst h3; exact hwb _ _
              · subst h3; exact hwc _
              · exact (h2.2 e h3).widen (by omega)
    · simp only [Option.some.injEq] at h
      subst h
      refine ⟨_, hlog, ?_, ?_⟩
      · exact CallsOk.skip _ _ (by intro l em n dp; simp)
          (CallsOk.skip _ _ (by intro l em n dp; simp)
            (CallsOk.skip _ _ (by intro l em n dp; simp) CallsOk.nil))
      · intro e he
        simp only [List.mem_cons, List.mem_singleton, List.not_mem_nil, or_false] at he
        rcases he with h3 | h3 | h3
        · subst h3; exact (hf x).within depth
        · subst h3; exact (hf y).within depth
        · subst h3; exact hwb _ _

theorem sampleBody_shaped (E : Env Rng Glob Sh) (s : DefaultSampler) (fuel : Nat)
    (scene : Scene Sh) (recur : Ray → Bool → St Rng Glob → Option (Color × St Rng Glob))
    (ray : Ray) (emission : Bool) (samples depth : Int) (st : St Rng Glob)
    (out : Color × St Rng Glob) (hd : 0 ≤ depth)
    (hrec : ∀ r e st o, recur r e st = some o → Extends (Shaped (depth - 1)) st o.2)
    (h : sampleBody E s fuel scene recur ray emission samples depth st = some out) :
    Extends (Shaped depth) st out.2 := by
  have h0 : Extends (Shaped depth) st (st.emit (Event.intersect ray)) :=
    ⟨[Event.intersect ray], rfl, shaped_of_flat depth _ (by simp [Event.Flat, Event.level])⟩
  simp only [sampleBody] at h
  split at h
  · split at h <;>
    · simp only [Option.some.injEq] at h
      subst h
      exact h0
  · split at h
    · simp only [Option.some.injEq] at h
      subst h
      exact h0
    · split at h
      · exact absurd h (by simp)
      · rename_i r1 st1 hf
        simp only [Option.some.injEq] at h
        subst h
        refine Extends.comp (fun a b => shaped_append) h0 ?_
        exact forCells_rel _ (fun a b => Extends (Shaped depth) a.2 b.2)
          (fun a => Extends.same _ (shaped_nil depth) _)
          (fun a b c => Extends.comp (fun a b => shaped_append)) _
          (fun a c b _ hb => sampleCell_shaped E s fuel scene recur depth ray _ _ a b c hd
            hrec hb)
          _ _ hf

theorem sample_shaped (E : Env Rng Glob Sh) (s : DefaultSampler) (fuel : Nat)
    (scene : Scene Sh) (k : Nat) :
    ∀ (depth : Int), depth < k → ∀ (ray : Ray) (emission : Bool) (samples : Int)
      (st : St Rng Glob) (out : Color × St Rng Glob),
      sample E s fuel scene ray emission samples depth st = some out →
      Extends (Shaped depth) st out.2 := by
  induction k with
  | zero =>
    intro depth hd ray emission samples st out h
    rw [sample_neg E s fuel scene ray emission samples depth st (by simpa using hd)] at h
    simp only [Option.some.injEq] at h
    subst h
    exact Extends.same _ (shaped_nil depth) _
  | succ k ih =>
    intro depth hd ray emission samples st out h
    by_cases hneg : depth < 0
    · rw [sample_neg E s fuel scene ray emission samples depth st hneg] at h
      simp only [Option.some.injEq] at h
      subst h
      exact Extends.same _ (shaped_nil depth) _
    · rw [sample_eq E s fuel scene ray emission samples depth st (by omega)] at h
      exact sampleBody_shaped E s fuel scene _ ray emission samples depth st out (by omega)
        (fun r e st1 o ho => ih (depth - 1) (by push_cast at hd; omega) r e 1 st1 o ho) h

/-- A bound `k` on the nesting larger than `depth + 1` gives the same result. -/
theorem sampleK_stable (E : Env Rng Glob Sh) (s : DefaultSampler) (fuel : Nat)
    (scene : Scene Sh) (k : Nat) :
    ∀ (depth : Int), (depth + 1).toNat ≤ k → ∀ (ray : Ray) (emission : Bool) (samples : Int)
      (st : St Rng Glob),
      sampleK E s fuel scene k ray emission samples depth st =
        sample E s fuel scene ray emission samples depth st := by
  induction k with
  | zero =>
    intro depth hk ray emission samples st
    have hneg : depth < 0 := by omega
    rw [sample_neg E s fuel scene ray emission samples depth st hneg]
    simp [sampleK, hneg]
  | succ k ih =>
    intro depth hk ray emission samples st
    by_cases hneg : depth < 0
    · rw [sample_neg E s fuel scene ray emission samples depth st hneg]
      simp [sampleK, hneg]
    · rw [sample_eq E s fuel scene ray emission samples depth st (by omega)]
      simp only [sampleK, hneg, if_false]
      congr 1
      funext newRay reflected st1
      exact ih (depth - 1) (by omega) newRay reflected 1 st1

theorem sampleCell_isSome_of (E : Env Rng Glob Sh) (s : DefaultSampler) (fuel : Nat)
    (scene : Scene Sh)
    (hdir : s.DirectLighting = true → ∀ n st, (directLight E fuel scene n st).isSome)
    (recur : Ray → Bool → St Rng Glob → Option (Color × St Rng Glob))
    (hrec : ∀ r e st, (recur r e st).isSome)
    (depth : Int) (ray : Ray) (info : HitInfo Sh) (n : Nat)
    (acc : Color × St Rng Glob) (cell : Nat × Nat × BounceMode) :
    (sampleCell E s fuel scene recur depth ray info n acc cell).isSome := by
  simp only [sampleCell]
  split
  · split
    · rename_i h1
      exact (not_isSome_of_eq_none h1 (hrec _ _ _)).elim
    · rfl
  · split
    · split
      · rename_i h1
        exact (not_isSome_of_eq_none h1 (hrec _ _ _)).elim
      · split
        · rename_i h2
          split at h2
          · rename_i hdl
            exact (not_isSome_of_eq_none h2 (hdir hdl _ _)).elim
          · exact absurd h2 (by simp)
        · rfl
    · rfl

theorem sampleBody_isSome_of (E : Env Rng Glob Sh) (s : DefaultSampler) (fuel : Nat)
    (scene : Scene Sh)
    (hdir : s.DirectLighting = true → ∀ n st, (directLight E fuel scene n st).isSome)
    (recur : Ray → Bool → St Rng Glob → Option (Color × St Rng Glob))
    (hrec : ∀ r e st, (recur r e st).isSome)
    (ray : Ray) (emission : Bool) (samples depth : Int) (st : St Rng Glob) :
    (sampleBody E s fuel scene recur ray emission samples depth st).isSome := by
  simp only [sampleBody]
  split
  · split <;> rfl
  · split
    · rfl
    · split
      · rename_i h1
        exact (not_isSome_of_eq_none h1 (forCells_isSome _
          (sampleCell_isSome_of E s fuel scene hdir recur hrec depth ray
            ((scene.Intersect ray).Info ray) (gridSize samples)) _ _)).elim
      · rfl

theorem sample_isSome_of (E : Env Rng Glob Sh) (s : DefaultSampler) (fuel : Nat)
    (scene : Scene Sh)
    (hdir : s.DirectLighting = true → ∀ n st, (directLight E fuel scene n st).isSome)
    (k : Nat) :
    ∀ (depth : Int), depth < k → ∀ (ray : Ray) (emission : Bool) (samples : Int)
      (st : St Rng Glob), (sample E s fuel scene ray emission samples depth st).isSome := by
  induction k with
  | zero =>
    intro depth hd ray emission samples st
    rw [sample_neg E s fuel scene ray emission samples depth st (by simpa using hd)]
    rfl
  | succ k ih =>
    intro depth hd ray emission samples st
    by_cases hneg : depth < 0
    · rw [sample_neg E s fuel scene ray emission samples depth st hneg]
      rfl
    · rw [sample_eq E s fuel scene ray emission samples depth st (by omega)]
      exact sampleBody_isSome_of E s fuel scene hdir _
        (fun r e st1 => ih (depth - 1) (by push_cast at hd; omega) r e 1 st1)
        ray emission samples depth st

theorem directLight_isSome_of (E : Env Rng Glob Sh) (s : DefaultSampler) (fuel : Nat)
    (scene : Scene Sh)
    (h : s.DirectLighting = false ∨ scene.Lights = [] ∨ Terminates E fuel) :
    s.DirectLighting = true → ∀ n st, (directLight E fuel scene n st).isSome := by
  intro hdl n st
  rcases h with h | h | h
  · rw [h] at hdl
    exact absurd hdl (by simp)
  · simp [directLight, h]
  · exact directLight_isSome E fuel h scene n st

theorem lightPoint_stuck (center : Vector) (radius : ℚ) (n : Ray) (fuel : Nat) :
    ∀ st : St Nat Nat, lightPoint stuckEnv center radius n fuel st = none := by
  induction fuel with
  | zero => intro st; rfl
  | succ k ih =>
    intro st
    simp only [lightPoint]
    rw [if_neg (by norm_num [stuckEnv, St.float64])]
    exact ih _

set_option maxRecDepth 8000 in
theorem Sample_stuck (fuel : Nat) :
    Sample stuckEnv (NewSampler 1 0) fuel demoScene downRay (st0 0 0) = none := by
  have h1 : gridSize 1 = 1 := gridSize_one
  norm_num [Sample, sample, sampleK, sampleBody, NewSampler, demoScene, demoIntersect, hitAt,
    downRay, upRay, emissionStep, white, lamp, h1, bounceModes, cells, modeRange, forCells,
    sampleCell, bounceCell, St.float64, St.emit, effectiveWeight, directLight,
    lightPoint_stuck, st0, SpecularModeNaive, SpecularModeAll,
    SpecularModeFirst, BounceModeAny, BounceModeSpecular, BounceModeDiffuse, NoHit]
  norm_num [stuckEnv, demoEnv, BounceModeSpecular]

end Lemmas

/-! ## The claims -/

section Claims

variable {Rng Glob Sh : Type} [DecidableEq Sh]

/-- C1. A call of `sample` with `depth < 0` returns the zero color and leaves
the whole state as it was: the passed random source is not advanced and the
trace gains no entry, so the scene is not intersected and nothing is drawn.
Hence `Sample` with `MaxBounces < 0` returns the zero color for every ray. -/
theorem sample_depth_termination (E : Env Rng Glob Sh) (s : DefaultSampler) (fuel : Nat)
    (scene : Scene Sh) (ray : Ray) (st : St Rng Glob) :
    (∀ (emission : Bool) (samples depth : Int), depth < 0 →
        sample E s fuel scene ray emission samples depth st = some (Color.zero, st)) ∧
    (s.MaxBounces < 0 → Sample E s fuel scene ray st = some (Color.zero, st)) :=
  ⟨fun emission samples depth h => sample_neg E s fuel scene ray emission samples depth st h,
   fun h => sample_neg E s fuel scene ray true s.FirstHitSamples s.MaxBounces st h⟩

theorem sample_depth_termination_witness :
    sample demoEnv (NewSampler 16 8) 4 demoScene downRay false 16 (-1) (st0 0 0)
        = some (Color.zero, st0 0 0) ∧
    Sample demoEnv (NewSampler 16 (-1)) 4 emptyScene sideRay (st0 0 0)
        = some (Color.zero, st0 0 0) :=
  ⟨(sample_depth_termination demoEnv (NewSampler 16 8) 4 demoScene downRay (st0 0 0)).1
      false 16 (-1) (by decide),
   (sample_depth_termination demoEnv (NewSampler 16 (-1)) 4 emptyScene sideRay (st0 0 0)).2
      (by decide)⟩

/-- C2. With `MaxBounces >= 0`, no texture and a ray that `scene.Intersect`
reports as a miss, `Sample` returns exactly `scene.Color`; the only call made
is the one intersection. -/
theorem Sample_miss (E : Env Rng Glob Sh) (s : DefaultSampler) (fuel : Nat)
    (scene : Scene Sh) (ray : Ray) (st : St Rng Glob)
    (hd : 0 ≤ s.MaxBounces) (ht : scene.Texture = none) (hm : (scene.Intersect ray).Ok = false) :
    Sample E s fuel scene ray st = some (scene.Color, st.emit (Event.intersect ray)) := by
  unfold Sample
  rw [sample_eq E s fuel scene ray true s.FirstHitSamples s.MaxBounces st hd]
  simp [sampleBody, hm, ht]

theorem Sample_miss_witness :
    Sample demoEnv (NewSampler 16 8) 4 emptyScene sideRay (st0 0 0)
      = some (⟨1 / 5, 1 / 5, 1 / 5⟩, (st0 0 0).emit (Event.intersect sideRay)) :=
  Sample_miss demoEnv (NewSampler 16 8) 4 emptyScene sideRay (st0 0 0)
    (by decide) rfl rfl

/-- C3 (as amended). For a top-level call of `Sample` with
`FirstHitSamples = s`, `1 <= s < 2^63`, and `MaxBounces >= 0` on a ray that
hits, with `rnd.Float64()` in `[0, 1)`: the grid size is
`n = int(math.Sqrt(float64(s)))`, the integer square root of `s` when
`s < 2^52`; the calls of `ray.Bounce` recorded at the top level are, in order,
exactly one per triple `(u, v, mode)` of the enumeration `cells n ma mb`, which
lists every `u < n`, `v < n`, `ma <= mode <= mb` once; there are `n*n` of them
when the pair is `(Any, Any)` and `2*n*n` when it is `(Diffuse, Specular)`;
each recorded answer is the answer of `ray.Bounce` for the hit at the recorded
sample point and mode; and each sample point lies in its closed sub-cell,
`float64(u)/float64(n) <= fu <= float64(u+1)/float64(n)` and the same for `fv`. -/
theorem Sample_stratification (E : Env Rng Glob Sh) (s : DefaultSampler) (fuel : Nat)
    (scene : Scene Sh) (ray : Ray) (st : St Rng Glob) (out : Color × St Rng Glob)
    (hF : ∀ r, 0 ≤ (E.Float64 r).1 ∧ (E.Float64 r).1 < 1)
    (hs : 1 ≤ s.FirstHitSamples) (h63 : s.FirstHitSamples < 2 ^ 63) (hd : 0 ≤ s.MaxBounces)
    (hhit : (scene.Intersect ray).Ok = true)
    (h : Sample E s fuel scene ray st = some out) :
    (s.FirstHitSamples < 2 ^ 52 →
      gridSize s.FirstHitSamples * gridSize s.FirstHitSamples ≤ s.FirstHitSamples.toNat ∧
      s.FirstHitSamples.toNat <
        (gridSize s.FirstHitSamples + 1) * (gridSize s.FirstHitSamples + 1)) ∧
    (cells (gridSize s.FirstHitSamples) (bounceModes s (gridSize s.FirstHitSamples)).1
      (bounceModes s (gridSize s.FirstHitSamples)).2).Nodup ∧
    (∀ c, c ∈ cells (gridSize s.FirstHitSamples) (bounceModes s (gridSize s.FirstHitSamples)).1
      (bounceModes s (gridSize s.FirstHitSamples)).2 ↔
        c.1 < gridSize s.FirstHitSamples ∧ c.2.1 < gridSize s.FirstHitSamples ∧
        (bounceModes s (gridSize s.FirstHitSamples)).1 ≤ c.2.2 ∧
        c.2.2 ≤ (bounceModes s (gridSize s.FirstHitSamples)).2) ∧
    ∃ Bs, bouncesAt s.MaxBounces out.2.log = bouncesAt s.MaxBounces st.log ++ Bs ∧
      Bs.map cellOf = cells (gridSize s.FirstHitSamples)
        (bounceModes s (gridSize s.FirstHitSamples)).1
        (bounceModes s (gridSize s.FirstHitSamples)).2 ∧
      (∀ b ∈ Bs, InCell (gridSize s.FirstHitSamples) b ∧
        Answered E ray ((scene.Intersect ray).Info ray) b) ∧
      (bounceModes s (gridSize s.FirstHitSamples) = (BounceModeAny, BounceModeAny) →
        Bs.length = gridSize s.FirstHitSamples * gridSize s.FirstHitSamples) ∧
      (bounceModes s (gridSize s.FirstHitSamples) = (BounceModeDiffuse, BounceModeSpecular) →
        Bs.length = 2 * gridSize s.FirstHitSamples * gridSize s.FirstHitSamples) := by
  refine ⟨fun h52 => ?_, cells_nodup _ _ _, fun c => mem_cells _ _ _ c, ?_⟩
  · rw [gridSize_eq_sqrt _ (by omega) h52]
    exact ⟨Nat.sqrt_le _, Nat.lt_succ_sqrt _⟩
  unfold Sample at h
  rw [sample_eq E s fuel scene ray true s.FirstHitSamples s.MaxBounces st hd,
    sampleBody_hit E s fuel scene _ ray true s.FirstHitSamples s.MaxBounces st _ hhit
      (emissionStep_eligible s _ _)] at h
  split at h
  · exact absurd h (by simp)
  · rename_i o ho
    simp only [Option.some.injEq] at h
    subst h
    have hn53 : gridSize s.FirstHitSamples < 2 ^ 53 :=
      lt_trans (gridSize_lt _ h63) (by norm_num)
    obtain ⟨Bs, Cs, hb, hm, hin, -⟩ := forCells_level E s fuel scene _ s.MaxBounces ray
      ((scene.Intersect ray).Info ray) (gridSize s.FirstHitSamples)
      (fun r e st1 o1 h1 => sample_recur_below E s fuel scene s.MaxBounces r e st1 o1 h1)
      hF hn53 _ (fun c hc => ⟨((mem_cells _ _ _ c).1 hc).1, ((mem_cells _ _ _ c).1 hc).2.1⟩)
      _ _ ho
    have hlen : Bs.length = (cells (gridSize s.FirstHitSamples)
        (bounceModes s (gridSize s.FirstHitSamples)).1
        (bounceModes s (gridSize s.FirstHitSamples)).2).length := by
      rw [← hm, List.length_map]
    refine ⟨Bs, ?_, hm, fun b hb1 => ⟨(hin b hb1).1, (hin b hb1).2.1⟩, ?_, ?_⟩
    · rw [hb]
      simp [St.emit, bouncesAt_append, bouncesAt]
    · intro hmode
      rw [hlen, hmode, cells_length]
      simp [BounceModeAny]
    · intro hmode
      rw [hlen, hmode, cells_length]
      simp [BounceModeDiffuse, BounceModeSpecular]
      ring

theorem Sample_stratification_witness :
    (∃ out, Sample demoEnv (NewSampler 16 8) 4 demoScene downRay (st0 0 0) = some out ∧
      (bouncesAt 8 out.2.log).length = 16) ∧
    (∃ out, Sample demoEnv ⟨16, 8, true, SpecularModeAll⟩ 4 demoScene downRay (st0 0 0)
        = some out ∧ (bouncesAt 8 out.2.log).length = 32) := by
  have h5 : gridSize 16 = 4 := gridSize_sixteen
  constructor
  · obtain ⟨out, h⟩ := Option.isSome_iff_exists.1
      (Sample_isSome demoEnv (NewSampler 16 8) 4 (demoEnv_terminates 3) demoScene downRay
        (st0 0 0))
    obtain ⟨-, -, -, Bs, h1, -, -, h4, -⟩ :=
      Sample_stratification demoEnv (NewSampler 16 8) 4 demoScene downRay (st0 0 0) out
        demoEnv_unit (by decide) (by decide) (by decide)
        (by simp [demoScene, demoIntersect, hitAt]) h
    refine ⟨out, h, ?_⟩
    have h6 := h4 (by simp only [NewSampler, h5]; rfl)
    simp only [NewSampler, h5] at h6
    have h7 : bouncesAt 8 out.2.log = Bs := by simpa [st0, bouncesAt, NewSampler] using h1
    rw [h7, h6]
  · obtain ⟨out, h⟩ := Option.isSome_iff_exists.1
      (Sample_isSome demoEnv ⟨16, 8, true, SpecularModeAll⟩ 4 (demoEnv_terminates 3) demoScene
        downRay (st0 0 0))
    obtain ⟨-, -, -, Bs, h1, -, -, -, h4⟩ :=
      Sample_stratification demoEnv ⟨16, 8, true, SpecularModeAll⟩ 4 demoScene downRay
        (st0 0 0) out
        demoEnv_unit (by decide) (by decide) (by decide)
        (by simp [demoScene, demoIntersect, hitAt]) h
    refine ⟨out, h, ?_⟩
    have h6 := h4 (by simp only [h5]; rfl)
    simp only [h5] at h6
    have h7 : bouncesAt 8 out.2.log = Bs := by simpa [st0, bouncesAt] using h1
    rw [h7, h6]

/-- C3, the claim as written fails: with 16 samples (a grid of size 4) and a
random source that draws `1 - 2^-53`, the sum `1 + (1 - 2^-53)` rounds to 2 in
binary64 and the sample coordinate of the cell `u = 1` is `0.5`, which is not
below `(u + 1) / n = 0.5`. -/
theorem Sample_stratification_counterexample :
    gridSize 16 = 4 ∧
    ∃ out b, Sample edgeEnv ⟨16, 0, false, SpecularModeNaive⟩ 4 demoScene downRay (st0 0 0)
        = some out ∧
      b ∈ bouncesAt 0 out.2.log ∧ b.1 = 1 ∧ b.2.2.1 = 1 / 2 ∧
      ¬ (b.2.2.1 < ((b.1 : ℚ) + 1) / 4) := by
  have h5 : gridSize 16 = 4 := gridSize_sixteen
  refine ⟨h5, ?_⟩
  obtain ⟨out, h⟩ := Option.isSome_iff_exists.1
    (sample_isSome_of edgeEnv ⟨16, 0, false, SpecularModeNaive⟩ 4 demoScene
      (fun hdl => absurd hdl (by decide)) 1 0 (by decide) downRay true 16 (st0 0 0))
  have hrun : Sample edgeEnv ⟨16, 0, false, SpecularModeNaive⟩ 4 demoScene downRay (st0 0 0)
      = some out := h
  have hF : ∀ r, 0 ≤ (edgeEnv.Float64 r).1 ∧ (edgeEnv.Float64 r).1 < 1 := by
    intro r
    constructor <;> norm_num [edgeEnv]
  rw [sample_eq edgeEnv _ 4 demoScene downRay true 16 0 (st0 0 0) (by decide),
    sampleBody_hit edgeEnv _ 4 demoScene _ downRay true 16 0 (st0 0 0) _
      (by simp [demoScene, demoIntersect, hitAt]) (emissionStep_eligible _ _ _)] at h
  split at h
  · exact absurd h (by simp)
  · rename_i o ho
    simp only [Option.some.injEq] at h
    rw [h5] at ho
    obtain ⟨Bs, Cs, hb, hm, hin, -⟩ := forCells_level edgeEnv _ 4 demoScene _ 0 downRay
      ((demoScene.Intersect downRay).Info downRay) 4
      (fun r e st1 o1 h1 => sample_recur_below edgeEnv _ 4 demoScene 0 r e st1 o1 h1)
      hF (by norm_num) _
      (fun c hc => ⟨((mem_cells _ _ _ c).1 hc).1, ((mem_cells _ _ _ c).1 hc).2.1⟩) _ _ ho
    have hcell : ((1, 0, BounceModeAny) : Nat × Nat × BounceMode) ∈ Bs.map cellOf := by
      rw [hm]
      exact (mem_cells _ _ _ _).2 (by decide)
    obtain ⟨b, hbB, hbc⟩ := List.mem_map.1 hcell
    have hb1 : b.1 = 1 := congrArg Prod.fst hbc
    obtain ⟨-, -, r1, r2, hfu, -⟩ := hin b hbB
    have hhalf : b.2.2.1 = 1 / 2 := by
      rw [hfu, hb1]
      exact cellCoord_edge
    refine ⟨out, b, hrun, ?_, hb1, hhalf, ?_⟩
    · rw [← h]
      simp only
      rw [hb]
      exact List.mem_append_right _ hbB
    · rw [hhalf, hb1]
      norm_num

/-- C6. The pair `(ma, mb)` that `sample` uses with `n = floor(sqrt(samples))`
is `(Diffuse, Specular)` exactly when `SpecularMode` is `All`, or is `First`
with `n > 1`; otherwise it is `(Any, Any)`. So `Naive` never splits, `All`
always splits, and `First` does not split when `n <= 1`, in particular at
`samples = 1`, the sample count of every recursive call. -/
theorem bounceModes_policy (s : DefaultSampler) (samples : Int) :
    (bounceModes s (gridSize samples) = (BounceModeDiffuse, BounceModeSpecular) ↔
      (s.SpecularMode = SpecularModeAll ∨
        (s.SpecularMode = SpecularModeFirst ∧ gridSize samples > 1))) ∧
    (¬ (s.SpecularMode = SpecularModeAll ∨
        (s.SpecularMode = SpecularModeFirst ∧ gridSize samples > 1)) →
      bounceModes s (gridSize samples) = (BounceModeAny, BounceModeAny)) ∧
    (s.SpecularMode = SpecularModeNaive →
      bounceModes s (gridSize samples) = (BounceModeAny, BounceModeAny)) ∧
    (s.SpecularMode = SpecularModeAll →
      bounceModes s (gridSize samples) = (BounceModeDiffuse, BounceModeSpecular)) ∧
    (s.SpecularMode = SpecularModeFirst → gridSize samples ≤ 1 →
      bounceModes s (gridSize samples) = (BounceModeAny, BounceModeAny)) ∧
    (s.SpecularMode = SpecularModeFirst →
      bounceModes s (gridSize 1) = (BounceModeAny, BounceModeAny)) := by
  refine ⟨?_, ?_, ?_, ?_, ?_, ?_⟩
  · unfold bounceModes
    split
    · rename_i h
      exact iff_of_true rfl h
    · rename_i h
      exact iff_of_false (by decide) h
  · intro h
    simp [bounceModes, h]
  · intro h
    simp [bounceModes, h, SpecularModeNaive, SpecularModeAll, SpecularModeFirst]
  · intro h
    simp [bounceModes, h]
  · intro h hn
    have : ¬ gridSize samples > 1 := by omega
    simp [bounceModes, h, this, SpecularModeAll, SpecularModeFirst]
  · intro h
    have : gridSize 1 = 1 := gridSize_one
    simp [bounceModes, h, this, SpecularModeAll, SpecularModeFirst]

theorem bounceModes_policy_witness :
    bounceModes ⟨16, 8, true, SpecularModeAll⟩ (gridSize 1)
        = (BounceModeDiffuse, BounceModeSpecular) ∧
    bounceModes ⟨16, 8, true, SpecularModeFirst⟩ (gridSize 1)
        = (BounceModeAny, BounceModeAny) ∧
    bounceModes (NewSampler 16 8) (gridSize 16) = (BounceModeAny, BounceModeAny) :=
  ⟨(bounceModes_policy ⟨16, 8, true, SpecularModeAll⟩ 1).2.2.2.1 rfl,
   (bounceModes_policy ⟨16, 8, true, SpecularModeFirst⟩ 16).2.2.2.2.2 rfl,
   (bounceModes_policy (NewSampler 16 8) 16).2.2.1 rfl⟩

/-- C8. The effective weight is 1 in mode `Any` and the weight returned by
`Bounce` in the modes `Diffuse` and `Specular`. An evaluation whose effective
weight is `<= 0` returns the running result unchanged, in the state right after
`Bounce`, whatever the recursive call would do: it records no recursive call
and no call of `directLight`; this is the case in a split mode when `Bounce`
returns weight 0. In mode `Any` a cell records exactly one recursive call. -/
theorem weight_gating (E : Env Rng Glob Sh) (s : DefaultSampler) (fuel : Nat)
    (scene : Scene Sh) (depth : Int) (ray : Ray) (info : HitInfo Sh) (n : Nat)
    (acc : Color × St Rng Glob) (cell : Nat × Nat × BounceMode) :
    (∀ p, effectiveWeight BounceModeAny p = 1 ∧ effectiveWeight BounceModeDiffuse p = p ∧
      effectiveWeight BounceModeSpecular p = p) ∧
    (effectiveWeight cell.2.2 (bounceCell E depth ray info n acc.2 cell).1.2.2 ≤ 0 →
      ∀ recur, sampleCell E s fuel scene recur depth ray info n acc cell =
          some (acc.1, (bounceCell E depth ray info n acc.2 cell).2) ∧
        callsAt depth (bounceCell E depth ray info n acc.2 cell).2.log
          = callsAt depth acc.2.log ∧
        directAt depth (bounceCell E depth ray info n acc.2 cell).2.log
          = directAt depth acc.2.log) ∧
    (cell.2.2 ≠ BounceModeAny → (bounceCell E depth ray info n acc.2 cell).1.2.2 = 0 →
      ∀ recur, sampleCell E s fuel scene recur depth ray info n acc cell =
          some (acc.1, (bounceCell E depth ray info n acc.2 cell).2)) ∧
    (cell.2.2 = BounceModeAny → ∀ out,
      sampleCell E s fuel scene
          (fun newRay reflected st1 => sample E s fuel scene newRay reflected 1 (depth - 1) st1)
          depth ray info n acc cell = some out →
        (callsAt depth out.2.log).length = (callsAt depth acc.2.log).length + 1) := by
  refine ⟨fun p => ?_, fun hp recur => ⟨?_, ?_, ?_⟩, fun hm hz recur => ?_, fun hm out h => ?_⟩
  · simp [effectiveWeight, BounceModeAny, BounceModeDiffuse, BounceModeSpecular]
  · exact sampleCell_skip E s fuel scene recur depth ray info n acc cell hp
  · obtain ⟨x, y, fu, fv, r, p, hlog, -⟩ := bounceCell_log E depth ray info n acc.2 cell
    rw [hlog, callsAt_append]
    simp [callsAt]
  · obtain ⟨x, y, fu, fv, r, p, hlog, -⟩ := bounceCell_log E depth ray info n acc.2 cell
    rw [hlog, directAt_append]
    simp [directAt]
  · refine sampleCell_skip E s fuel scene recur depth ray info n acc cell ?_
    simp [effectiveWeight, hm, hz]
  · obtain ⟨-, hc⟩ := sampleCell_level E s fuel scene _ depth ray info n acc out cell
      (fun r e st1 o1 h1 => sample_recur_below E s fuel scene depth r e st1 o1 h1) h
    have hp : effectiveWeight cell.2.2 (bounceCell E depth ray info n acc.2 cell).1.2.2 > 0 := by
      simp [effectiveWeight, hm]
    rw [hc, if_pos hp]
    simp

theorem weight_gating_witness :
    sampleCell demoEnv (NewSampler 16 8) 4 demoScene (fun _ _ _ => none) 8 downRay
        ((demoScene.Intersect downRay).Info downRay) 4 (Color.zero, st0 0 0)
        (0, 0, BounceModeSpecular) =
      some (Color.zero, (bounceCell demoEnv 8 downRay
        ((demoScene.Intersect downRay).Info downRay) 4 (st0 0 0)
        (0, 0, BounceModeSpecular)).2) :=
  (weight_gating demoEnv (NewSampler 16 8) 4 demoScene 8 downRay
    ((demoScene.Intersect downRay).Info downRay) 4 (Color.zero, st0 0 0)
    (0, 0, BounceModeSpecular)).2.2.1 (by decide) (by simp [bounceCell, demoEnv])
    (fun _ _ _ => none)

/-- C9 (as amended). On a hit, the emittance term `color * emittance * samples`
is added to the running result exactly when the material is emissive and
either the emission flag is true or direct lighting is disabled. When the
material is emissive, the flag is false and direct lighting is enabled, `sample`
returns the zero color at once. When the material is not emissive the running
result starts at zero. -/
theorem emission_eligibility (E : Env Rng Glob Sh) (s : DefaultSampler) (fuel : Nat)
    (scene : Scene Sh) (ray : Ray) (emission : Bool) (samples depth : Int) (st : St Rng Glob)
    (material : Material) :
    (material.Emittance > 0 → (emission = true ∨ s.DirectLighting = false) →
      emissionStep s emission material samples =
        some (Color.zero.Add (material.Color.MulScalar (material.Emittance * (samples : ℚ))))) ∧
    (material.Emittance > 0 → emission = false → s.DirectLighting = true →
      emissionStep s emission material samples = none) ∧
    (¬ material.Emittance > 0 → emissionStep s emission material samples = some Color.zero) ∧
    (0 ≤ depth → (scene.Intersect ray).Ok = true →
      emissionStep s emission ((scene.Intersect ray).Info ray).Material samples = none →
      sample E s fuel scene ray emission samples depth st =
        some (Color.zero, st.emit (Event.intersect ray))) := by
  refine ⟨fun he h => ?_, fun he hf hdl => ?_, fun he => ?_, fun hd hok hem => ?_⟩
  · rcases h with h | h <;> simp [emissionStep, he, h]
  · simp [emissionStep, he, hf, hdl]
  · simp [emissionStep, he]
  · rw [sample_eq E s fuel scene ray emission samples depth st hd]
    simp [sampleBody, hok, hem]

theorem emission_eligibility_witness :
    emissionStep (NewSampler 16 8) true (lamp 30) 16 =
      some (Color.zero.Add ((lamp 30).Color.MulScalar ((lamp 30).Emittance * ((16 : Int) : ℚ)))) ∧
    emissionStep (NewSampler 16 8) false (lamp 30) 16 = none ∧
    emissionStep (NewSampler 16 8) false white 16 = some Color.zero :=
  ⟨(emission_eligibility demoEnv (NewSampler 16 8) 4 demoScene upRay true 16 8 (st0 0 0)
      (lamp 30)).1 (by norm_num [lamp]) (Or.inl rfl),
   (emission_eligibility demoEnv (NewSampler 16 8) 4 demoScene upRay false 16 8 (st0 0 0)
      (lamp 30)).2.1 (by norm_num [lamp]) rfl rfl,
   (emission_eligibility demoEnv (NewSampler 16 8) 4 demoScene upRay false 16 8 (st0 0 0)
      white).2.2.1 (by norm_num [white])⟩

/-- C9, the claim as written fails: with direct lighting disabled and the
emission flag false, the emittance term of an emissive surface is added. -/
theorem emission_flag_counterexample :
    emissionStep ⟨1, 0, false, SpecularModeNaive⟩ false (lamp 30) 1 = some ⟨30, 30, 30⟩ ∧
    (sample demoEnv ⟨1, 0, false, SpecularModeNaive⟩ 4 demoScene upRay false 1 0
      (st0 0 0)).map Prod.fst = some ⟨30, 30, 30⟩ := by
  have h1 : emissionStep ⟨1, 0, false, SpecularModeNaive⟩ false (lamp 30) 1 =
      some ⟨30, 30, 30⟩ := by
    norm_num [emissionStep, lamp, Color.Add, Color.MulScalar, Color.zero]
  refine ⟨h1, ?_⟩
  have hok : (demoScene.Intersect upRay).Ok = true := by
    simp [demoScene, demoIntersect, hitAt, upRay, downRay]
  have hm : ((demoScene.Intersect upRay).Info upRay).Material = lamp 30 := by
    simp [demoScene, demoIntersect, hitAt, upRay, downRay]
  rw [sample_eq _ _ _ _ _ _ _ _ _ (le_refl 0),
    sampleBody_hit demoEnv _ 4 demoScene _ upRay false 1 0 (st0 0 0) ⟨30, 30, 30⟩ hok
      (by rw [hm]; exact h1)]
  obtain ⟨st1, h2⟩ := forCells_leaf demoEnv ⟨1, 0, false, SpecularModeNaive⟩ 4 demoScene
    (fun newRay reflected st1 => sample demoEnv ⟨1, 0, false, SpecularModeNaive⟩ 4 demoScene
      newRay reflected 1 (0 - 1) st1) 0 upRay ((demoScene.Intersect upRay).Info upRay)
    (gridSize 1) (fun r e st => sample_neg _ _ _ _ _ _ _ _ _ (by decide)) rfl
    (cells (gridSize 1) (bounceModes ⟨1, 0, false, SpecularModeNaive⟩ (gridSize 1)).1
      (bounceModes ⟨1, 0, false, SpecularModeNaive⟩ (gridSize 1)).2)
    (⟨30, 30, 30⟩, (st0 0 0).emit (Event.intersect upRay))
  rw [h2]
  have h3 : gridSize 1 = 1 := gridSize_one
  simp [h3, Color.DivScalar]

/-- C10. The emittance term is multiplied by `samples` and the result is
divided by `n*n` with `n = int(math.Sqrt(float64(samples)))`, which is `samples`
only for a perfect square. With `FirstHitSamples = 2`, `MaxBounces = 0` and
direct lighting disabled, a camera ray that hits the lamp of color `(1, 1, 1)`
and emittance 30 makes `Sample` return `(60, 60, 60)`, twice `c * e`; every
value in this run is a small integer, exact in binary64. -/
theorem Sample_emittance_two_samples :
    (Sample demoEnv ⟨2, 0, false, SpecularModeNaive⟩ 4 demoScene upRay (st0 0 0)).map Prod.fst
      = some ⟨60, 60, 60⟩ ∧
    (⟨60, 60, 60⟩ : Color) ≠ (lamp 30).Color.MulScalar (lamp 30).Emittance ∧
    gridSize 2 = 1 := by
  have hg : gridSize 2 = 1 := gridSize_two
  refine ⟨?_, ?_, hg⟩
  · obtain ⟨st1, h1⟩ := Sample_emissive_leaf demoEnv ⟨2, 0, false, SpecularModeNaive⟩ 4
      demoScene upRay (st0 0 0) rfl rfl demo_upRay_ok
      (by rw [demo_upRay_material]; norm_num [lamp])
    rw [h1, demo_upRay_material]
    simp only [hg]
    norm_num [lamp, Color.MulScalar, Color.DivScalar]
  · norm_num [lamp, Color.MulScalar]

/-- C7. On a hit whose emittance test leaves the running result `r0` (the
emittance term, or zero), with material color `c` and tint `t`: an evaluation
with effective weight `p > 0` adds `p * mix(I, c*I, t)` when the bounce is
reflected and `p * (c * (D + I))` when it is diffuse, `I` being the recursive
sample along the new ray and `D` the value of `directLight` at the hit when
direct lighting is enabled and the zero color otherwise; and `sample` returns
`(r0 + sum of the contributions over all cells and modes) / (n * n)`. -/
theorem sample_accumulation (E : Env Rng Glob Sh) (s : DefaultSampler) (fuel : Nat)
    (scene : Scene Sh) (ray : Ray) (emission : Bool) (samples depth : Int) (st : St Rng Glob)
    (r0 : Color) (hd : 0 ≤ depth) (hok : (scene.Intersect ray).Ok = true)
    (hem : emissionStep s emission ((scene.Intersect ray).Info ray).Material samples = some r0) :
    (∀ (recur : Ray → Bool → St Rng Glob → Option (Color × St Rng Glob)) (info : HitInfo Sh)
        (n : Nat) (acc : Color × St Rng Glob) (cell : Nat × Nat × BounceMode)
        (I : Color) (st4 : St Rng Glob),
      effectiveWeight cell.2.2 (bounceCell E depth ray info n acc.2 cell).1.2.2 > 0 →
      recur (bounceCell E depth ray info n acc.2 cell).1.1
          (bounceCell E depth ray info n acc.2 cell).1.2.1
          ((bounceCell E depth ray info n acc.2 cell).2.emit
            (Event.call depth (bounceCell E depth ray info n acc.2 cell).1.2.1 1 (depth - 1)))
        = some (I, st4) →
      ((bounceCell E depth ray info n acc.2 cell).1.2.1 = true →
        sampleCell E s fuel scene recur depth ray info n acc cell =
          some (acc.1.Add ((I.Mix (info.Material.Color.Mul I) info.Material.Tint).MulScalar
            (effectiveWeight cell.2.2 (bounceCell E depth ray info n acc.2 cell).1.2.2)), st4)) ∧
      ((bounceCell E depth ray info n acc.2 cell).1.2.1 = false → s.DirectLighting = true →
        ∀ D st5, directLight E fuel scene info.Ray (st4.emit (Event.directLight depth))
            = some (D, st5) →
          sampleCell E s fuel scene recur depth ray info n acc cell =
            some (acc.1.Add ((info.Material.Color.Mul (D.Add I)).MulScalar
              (effectiveWeight cell.2.2 (bounceCell E depth ray info n acc.2 cell).1.2.2)), st5)) ∧
      ((bounceCell E depth ray info n acc.2 cell).1.2.1 = false → s.DirectLighting = false →
        sampleCell E s fuel scene recur depth ray info n acc cell =
          some (acc.1.Add ((info.Material.Color.Mul (Color.zero.Add I)).MulScalar
            (effectiveWeight cell.2.2 (bounceCell E depth ray info n acc.2 cell).1.2.2)), st4))) ∧
    sample E s fuel scene ray emission samples depth st =
      (contributionsSpec
        (contributionSpec E s fuel scene
          (fun newRay reflected st1 => sample E s fuel scene newRay reflected 1 (depth - 1) st1)
          depth ray ((scene.Intersect ray).Info ray) (gridSize samples))
        (cells (gridSize samples) (bounceModes s (gridSize samples)).1
          (bounceModes s (gridSize samples)).2)
        (st.emit (Event.intersect ray))).map
      (fun o => ((r0.Add (Color.sum o.1)).DivScalar
        (((gridSize samples * gridSize samples : Nat) : ℚ)), o.2)) := by
  refine ⟨fun recur info n acc cell I st4 hp hrec => ⟨fun hr => ?_, fun hr hdl D st5 hD => ?_,
    fun hr hdl => ?_⟩, ?_⟩
  · simp [sampleCell, hp, hr, hr ▸ hrec]
  · simp [sampleCell, hp, hr, hr ▸ hrec, hdl, hD]
  · simp [sampleCell, hp, hr, hr ▸ hrec, hdl]
  · rw [sample_eq E s fuel scene ray emission samples depth st hd,
      sampleBody_hit E s fuel scene _ ray emission samples depth st r0 hok hem,
      forCells_contributions]
    cases contributionsSpec
      (contributionSpec E s fuel scene
        (fun newRay reflected st1 => sample E s fuel scene newRay reflected 1 (depth - 1) st1)
        depth ray ((scene.Intersect ray).Info ray) (gridSize samples))
      (cells (gridSize samples) (bounceModes s (gridSize samples)).1
        (bounceModes s (gridSize samples)).2)
      (st.emit (Event.intersect ray)) <;> rfl

theorem sample_accumulation_witness :
    sample demoEnv (NewSampler 1 0) 4 demoScene upRay true 1 0 (st0 0 0) =
      (contributionsSpec
        (contributionSpec demoEnv (NewSampler 1 0) 4 demoScene
          (fun newRay reflected st1 =>
            sample demoEnv (NewSampler 1 0) 4 demoScene newRay reflected 1 (0 - 1) st1)
          0 upRay ((demoScene.Intersect upRay).Info upRay) (gridSize 1))
        (cells (gridSize 1) (bounceModes (NewSampler 1 0) (gridSize 1)).1
          (bounceModes (NewSampler 1 0) (gridSize 1)).2)
        ((st0 0 0).emit (Event.intersect upRay))).map
      (fun o => (((⟨30, 30, 30⟩ : Color).Add (Color.sum o.1)).DivScalar
        (((gridSize 1 * gridSize 1 : Nat) : ℚ)), o.2)) :=
  (sample_accumulation demoEnv (NewSampler 1 0) 4 demoScene upRay true 1 0 (st0 0 0)
    ⟨30, 30, 30⟩ (by decide) demo_upRay_ok
    (by rw [demo_upRay_material]
        norm_num [emissionStep, lamp, Color.Add, Color.MulScalar, Color.zero])).2

/-- C4. For valid inputs (background color and texture samples non-negative,
every material with non-negative color and emittance and tint in `[0, 1]`),
every color returned by `sample` with a sample count `>= 0`, at every depth and
emission flag, has non-negative components; so has every color returned by
`Sample` with `FirstHitSamples >= 1` and every color returned by `directLight`;
and `Sample` does return a color whenever the rejection loop of `directLight`
accepts within the fuel. -/
theorem energy_nonneg (E : Env Rng Glob Sh) (s : DefaultSampler) (fuel : Nat)
    (scene : Scene Sh) (hV : ValidInputs E scene) :
    (∀ (ray : Ray) (emission : Bool) (samples depth : Int) (st : St Rng Glob)
        (out : Color × St Rng Glob), 0 ≤ samples →
      sample E s fuel scene ray emission samples depth st = some out → out.1.NonNeg) ∧
    (1 ≤ s.FirstHitSamples → ∀ (ray : Ray) (st : St Rng Glob) (out : Color × St Rng Glob),
      Sample E s fuel scene ray st = some out → out.1.NonNeg) ∧
    (∀ (n : Ray) (st : St Rng Glob) (out : Color × St Rng Glob),
      directLight E fuel scene n st = some out → out.1.NonNeg) ∧
    (Terminates E fuel → ∀ (ray : Ray) (st : St Rng Glob),
      (Sample E s fuel scene ray st).isSome) := by
  refine ⟨fun ray emission samples depth st out hs h => ?_, fun hs ray st out h => ?_,
    fun n st out h => directLight_nonneg E fuel scene n st out hV.2.2.2 h,
    fun hT ray st => Sample_isSome E s fuel hT scene ray st⟩
  · exact sample_nonneg E s fuel scene hV (depth.toNat + 1) depth (by push_cast; omega)
      ray emission samples st out hs h
  · exact sample_nonneg E s fuel scene hV (s.MaxBounces.toNat + 1) s.MaxBounces
      (by push_cast; omega) ray true s.FirstHitSamples st out (by omega) h

theorem energy_nonneg_witness :
    ∃ out, Sample demoEnv (NewSampler 16 8) 4 demoScene downRay (st0 0 0) = some out ∧
      out.1.NonNeg := by
  obtain ⟨out, h⟩ := Option.isSome_iff_exists.1
    ((energy_nonneg demoEnv (NewSampler 16 8) 4 demoScene demo_valid).2.2.2
      (demoEnv_terminates 3) downRay (st0 0 0))
  exact ⟨out, h, (energy_nonneg demoEnv (NewSampler 16 8) 4 demoScene demo_valid).2.1
    (by decide) downRay (st0 0 0) out h⟩

/-- C5, the defect: `directLight` picks the light with the package-level
`rand.Intn`, so two runs of `Sample` on the same configuration, scene and ray
that start from the same state of the passed random source return different
colors when the global generator is in different states. -/
theorem Sample_reads_global_generator :
    (st0 0 0).rnd = (st0 0 1).rnd ∧ (st0 0 0).log = (st0 0 1).log ∧
    (Sample demoEnv (NewSampler 1 0) 4 demoScene downRay (st0 0 0)).map Prod.fst
      = some ⟨3750000 / 187489, 3750000 / 187489, 3750000 / 187489⟩ ∧
    (Sample demoEnv (NewSampler 1 0) 4 demoScene downRay (st0 0 1)).map Prod.fst
      = some ⟨0, 0, 0⟩ :=
  ⟨rfl, rfl, global_generator_run0, global_generator_run1⟩


/-- C11. When `rand.Intn` picks the light `light` of the scene, the rejection
loop yields the light point `point`, the cosine between the shadow ray and the
shading normal is positive and the nearest hit of the shadow ray is `light`,
`directLight` returns exactly
`color * (emittance * cosine * coverage * lightCount)`, with the color and the
emittance of the light's material at `point`. -/
theorem directLight_contribution (E : Env Rng Glob Sh) (fuel : Nat) (scene : Scene Sh)
    (n : Ray) (st : St Rng Glob) (light : Sh) (point : Vector) (st2 : St Rng Glob)
    (hl : scene.Lights[(E.Intn st.glob scene.Lights.length).1]? = some light)
    (hp : lightPoint E (boundingSphere E light).1 (boundingSphere E light).2 n fuel
      (afterPick E scene st) = some (point, st2))
    (hcos : 0 < (shadowRay E n point).Direction.Dot n.Direction)
    (hok : (scene.Intersect (shadowRay E n point)).Ok = true)
    (hshape : (scene.Intersect (shadowRay E n point)).Shape = some light) :
    directLight E fuel scene n st =
      some ((E.MaterialAt light point).Color.MulScalar
          ((E.MaterialAt light point).Emittance *
            (shadowRay E n point).Direction.Dot n.Direction *
            coverage E (boundingSphere E light).1 (boundingSphere E light).2 n.Origin *
            (scene.Lights.length : ℚ)),
        st2.emit (Event.intersect (shadowRay E n point))) := by
  rw [directLight_picked E fuel scene n st light point st2 hl hp, if_neg (not_le.2 hcos)]
  simp [hok, hshape]

theorem directLight_contribution_witness :
    directLight demoEnv 4 demoScene upRay (st0 0 0) =
      some ((demoEnv.MaterialAt 1 ⟨0, 0, 2⟩).Color.MulScalar
          ((demoEnv.MaterialAt 1 ⟨0, 0, 2⟩).Emittance *
            (shadowRay demoEnv upRay ⟨0, 0, 2⟩).Direction.Dot upRay.Direction *
            coverage demoEnv (boundingSphere demoEnv 1).1 (boundingSphere demoEnv 1).2
              upRay.Origin *
            (demoScene.Lights.length : ℚ)),
        (litState 0).emit (Event.intersect (shadowRay demoEnv upRay ⟨0, 0, 2⟩))) :=
  directLight_contribution demoEnv 4 demoScene upRay (st0 0 0) 1 ⟨0, 0, 2⟩ (litState 0)
    demo_pick0 demo_lightPoint0
    (by rw [demo_shadow0]; norm_num [upRay, Vector.Dot])
    (by rw [demo_shadow0]; exact demo_upRay_ok)
    (by rw [demo_shadow0]; simp [demoScene, demoIntersect, hitAt, upRay, downRay])

/-- C12. `directLight` returns the zero color, and nothing else, in each of these
cases: the scene has no lights (then the state is returned as it was: nothing is
drawn and the scene is not intersected); the cosine between the shading normal
and the shadow ray is `<= 0` (the scene is not intersected); the shadow ray hits
nothing; the nearest hit of the shadow ray is another shape than the picked light. -/
theorem directLight_zero_cases (E : Env Rng Glob Sh) (fuel : Nat) (scene : Scene Sh)
    (n : Ray) (st : St Rng Glob) :
    (scene.Lights = [] → directLight E fuel scene n st = some (Color.zero, st)) ∧
    (∀ (light : Sh) (point : Vector) (st2 : St Rng Glob),
      scene.Lights[(E.Intn st.glob scene.Lights.length).1]? = some light →
      lightPoint E (boundingSphere E light).1 (boundingSphere E light).2 n fuel
        (afterPick E scene st) = some (point, st2) →
      ((shadowRay E n point).Direction.Dot n.Direction ≤ 0 →
        directLight E fuel scene n st = some (Color.zero, st2)) ∧
      (0 < (shadowRay E n point).Direction.Dot n.Direction →
        (scene.Intersect (shadowRay E n point)).Ok = false →
        directLight E fuel scene n st =
          some (Color.zero, st2.emit (Event.intersect (shadowRay E n point)))) ∧
      (0 < (shadowRay E n point).Direction.Dot n.Direction →
        (scene.Intersect (shadowRay E n point)).Shape ≠ some light →
        directLight E fuel scene n st =
          some (Color.zero, st2.emit (Event.intersect (shadowRay E n point))))) := by
  refine ⟨fun h => ?_, fun light point st2 hl hp => ⟨fun hc => ?_, fun hc hok => ?_,
    fun hc hs => ?_⟩⟩
  · simp [directLight, h]
  · rw [directLight_picked E fuel scene n st light point st2 hl hp, if_pos hc]
  · rw [directLight_picked E fuel scene n st light point st2 hl hp, if_neg (not_le.2 hc)]
    simp [hok]
  · rw [directLight_picked E fuel scene n st light point st2 hl hp, if_neg (not_le.2 hc)]
    simp [hs]

theorem directLight_zero_cases_witness :
    directLight demoEnv 4 emptyScene upRay (st0 0 0) = some (Color.zero, st0 0 0) ∧
    directLight demoEnv 4 demoScene upRay (st0 0 1) = some (Color.zero, litState 1) :=
  ⟨(directLight_zero_cases demoEnv 4 emptyScene upRay (st0 0 0)).1 rfl,
   ((directLight_zero_cases demoEnv 4 demoScene upRay (st0 0 1)).2 2 ⟨0, 0, -2⟩ (litState 1)
      demo_pick1 demo_lightPoint1).1
      (by rw [demo_shadow1]; norm_num [upRay, Vector.Dot])⟩

/-- C17 (as amended). The grid size is `n = int(math.Sqrt(float64(s)))`,
computed in binary64. For every sample count `1 <= s < 2^63` it satisfies
`1 <= n < 2^32`, so the divisor `n*n` of the final division does not wrap
around in an `int` and is not zero; for
`1 <= s < 2^52` it is the integer square root, `n*n <= s < (n+1)*(n+1)`. For
`s = 0` the grid size is 0, the loop visits no cell, on a hit that passes the
emittance test `sample` returns having recorded only the intersection, and the
division of a finite value by `float64(0*0)` gives NaN for a zero and an
infinity otherwise. -/
theorem grid_divisor (E : Env Rng Glob Sh) (s : DefaultSampler) (fuel : Nat)
    (scene : Scene Sh) (ray : Ray) (emission : Bool) (depth : Int) (st : St Rng Glob)
    (r0 : Color) :
    (∀ samples : Int, 1 ≤ samples → samples < 2 ^ 63 →
      1 ≤ gridSize samples ∧ gridSize samples < 2 ^ 32 ∧
      gridSize samples * gridSize samples ≠ 0) ∧
    (∀ samples : Int, 1 ≤ samples → samples < 2 ^ 52 →
      ((gridSize samples * gridSize samples : Nat) : Int) ≤ samples ∧
      samples < (((gridSize samples + 1) * (gridSize samples + 1) : Nat) : Int)) ∧
    (gridSize 0 = 0 ∧ ∀ ma mb, cells (gridSize 0) ma mb = []) ∧
    (0 ≤ depth → (scene.Intersect ray).Ok = true →
      emissionStep s emission ((scene.Intersect ray).Info ray).Material 0 = some r0 →
      ∃ c, sample E s fuel scene ray emission 0 depth st =
        some (c, st.emit (Event.intersect ray))) ∧
    (∀ q : ℚ, F64.fin q / F64.ofInt ((gridSize 0 * gridSize 0 : Nat) : Int) =
      if q = 0 then F64.nan else F64.inf (decide (q < 0))) := by
  have h0 : gridSize 0 = 0 := gridSize_zero
  refine ⟨fun samples hs h63 => ?_, fun samples hs h52 => ?_,
    ⟨h0, fun ma mb => by rw [h0]; rfl⟩, fun hd hok hem => ?_, fun q => ?_⟩
  · have hp := gridSize_pos samples hs h63
    exact ⟨hp, gridSize_lt samples h63, Nat.mul_ne_zero hp.ne' hp.ne'⟩
  · rw [gridSize_eq_sqrt samples (by omega) h52]
    have h1 : Nat.sqrt samples.toNat * Nat.sqrt samples.toNat ≤ samples.toNat := Nat.sqrt_le _
    have h2 : samples.toNat < (Nat.sqrt samples.toNat + 1) * (Nat.sqrt samples.toNat + 1) :=
      Nat.lt_succ_sqrt _
    constructor <;> omega
  · rw [sample_eq E s fuel scene ray emission 0 depth st hd,
      sampleBody_hit E s fuel scene _ ray emission 0 depth st r0 hok hem, h0]
    exact ⟨_, rfl⟩
  · rw [h0]
    have hz : F64.ofInt ((0 * 0 : Nat) : Int) = F64.fin 0 := by decide!
    rw [hz]
    show F64.div (F64.fin q) (F64.fin 0) = _
    by_cases hq : q = 0
    · subst hq
      decide!
    · simp [F64.div, F64.toRat, F64.signbit, hq]

theorem grid_divisor_witness :
    (1 ≤ gridSize 16 ∧ gridSize 16 < 2 ^ 32 ∧ gridSize 16 * gridSize 16 ≠ 0) ∧
    (((gridSize 16 * gridSize 16 : Nat) : Int) ≤ 16 ∧
      (16 : Int) < (((gridSize 16 + 1) * (gridSize 16 + 1) : Nat) : Int)) ∧
    (∃ c, sample demoEnv (NewSampler 0 8) 4 demoScene downRay true 0 8 (st0 0 0) =
      some (c, (st0 0 0).emit (Event.intersect downRay))) :=
  ⟨(grid_divisor demoEnv (NewSampler 0 8) 4 demoScene downRay true 8 (st0 0 0) Color.zero).1
      16 (by decide) (by decide),
   (grid_divisor demoEnv (NewSampler 0 8) 4 demoScene downRay true 8 (st0 0 0) Color.zero).2.1
      16 (by decide) (by decide),
   (grid_divisor demoEnv (NewSampler 0 8) 4 demoScene downRay true 8 (st0 0 0)
      Color.zero).2.2.2.1 (by decide) (by simp [demoScene, demoIntersect, hitAt])
      (by norm_num [demoScene, demoIntersect, hitAt, emissionStep, white])⟩

/-- C17, the claim as written fails: at `s = 67108865^2 - 1 = 2^52 + 2^27` the
square root rounds up to `67108865` in binary64, so `n = 67108865` and
`n*n > s`. -/
theorem grid_divisor_counterexample :
    (1 : Int) ≤ 4503599761588224 ∧ gridSize 4503599761588224 = 67108865 ∧
    ¬ ((gridSize 4503599761588224 * gridSize 4503599761588224 : Nat) : Int)
      ≤ 4503599761588224 := by
  refine ⟨by decide, gridSize_large, ?_⟩
  rw [gridSize_large]
  decide

/-- C18 (as amended). With direct lighting enabled, the emission flag false and
a hit material of emittance `> 0`, `sample` returns exactly the zero color right
after the intersection: no bounce is evaluated, no recursive call and no call
of `directLight` is made, whatever the other material properties, the sample
count and the depth `>= 0`. A material that is not emissive is not cut short:
`sample` returns the sum of its bounce contributions divided by `n*n`. -/
theorem emissive_suppression (E : Env Rng Glob Sh) (s : DefaultSampler) (fuel : Nat)
    (scene : Scene Sh) (ray : Ray) (samples depth : Int) (st : St Rng Glob)
    (hd : 0 ≤ depth) (hok : (scene.Intersect ray).Ok = true) :
    (s.DirectLighting = true → ((scene.Intersect ray).Info ray).Material.Emittance > 0 →
      sample E s fuel scene ray false samples depth st =
        some (Color.zero, st.emit (Event.intersect ray))) ∧
    (¬ ((scene.Intersect ray).Info ray).Material.Emittance > 0 → ∀ emission : Bool,
      sample E s fuel scene ray emission samples depth st =
        (contributionsSpec
          (contributionSpec E s fuel scene
            (fun newRay reflected st1 =>
              sample E s fuel scene newRay reflected 1 (depth - 1) st1)
            depth ray ((scene.Intersect ray).Info ray) (gridSize samples))
          (cells (gridSize samples) (bounceModes s (gridSize samples)).1
            (bounceModes s (gridSize samples)).2)
          (st.emit (Event.intersect ray))).map
        (fun o => ((Color.zero.Add (Color.sum o.1)).DivScalar
          (((gridSize samples * gridSize samples : Nat) : ℚ)), o.2))) := by
  refine ⟨fun hdl he => ?_, fun he emission => ?_⟩
  · exact sample_suppressed E s fuel scene ray false samples depth st hd hok
      (by simp [emissionStep, he, hdl])
  · rw [sample_eq E s fuel scene ray emission samples depth st hd,
      sampleBody_hit E s fuel scene _ ray emission samples depth st Color.zero hok
        (by simp [emissionStep, he]),
      forCells_contributions]
    cases contributionsSpec
      (contributionSpec E s fuel scene
        (fun newRay reflected st1 => sample E s fuel scene newRay reflected 1 (depth - 1) st1)
        depth ray ((scene.Intersect ray).Info ray) (gridSize samples))
      (cells (gridSize samples) (bounceModes s (gridSize samples)).1
        (bounceModes s (gridSize samples)).2)
      (st.emit (Event.intersect ray)) <;> rfl

theorem emissive_suppression_witness :
    sample demoEnv (NewSampler 16 8) 4 demoScene upRay false 16 8 (st0 0 0) =
      some (Color.zero, (st0 0 0).emit (Event.intersect upRay)) :=
  (emissive_suppression demoEnv (NewSampler 16 8) 4 demoScene upRay 16 8 (st0 0 0)
    (by decide) demo_upRay_ok).1 rfl (by rw [demo_upRay_material]; norm_num [lamp])

/-- C18, the claim as written fails: on a black material the suppressed run
(emittance 30) and the run on the otherwise identical material of emittance 0
return the same color, zero. -/
theorem emissive_suppression_counterexample :
    (sample (blackEnv 30) (NewSampler 1 0) 4 (blackScene 30) upRay false 1 0 (st0 0 0)).map
      Prod.fst = some ⟨0, 0, 0⟩ ∧
    (sample (blackEnv 0) (NewSampler 1 0) 4 (blackScene 0) upRay false 1 0 (st0 0 0)).map
      Prod.fst = some ⟨0, 0, 0⟩ :=
  ⟨black_run_emissive, black_run_plain⟩

/-- C14 (as amended). Every recursive call recorded by a run of `sample` at depth
`depth` comes right after a call of `Bounce` at the same level `l`, with
`0 <= l <= depth`, and passes the sample count 1, the depth `l - 1` and the
emission flag equal to the `reflected` answer of that `Bounce`. The recursion is
well-founded on the depth: a nesting bound of `depth + 1` bodies above the
`depth < 0` base case computes the result, and a larger bound changes nothing.
`sample` returns a value when direct lighting is disabled, when the scene has no
lights, or when the rejection loop of `directLight` accepts within the fuel. -/
theorem recursion_shape (E : Env Rng Glob Sh) (s : DefaultSampler) (fuel : Nat)
    (scene : Scene Sh) (ray : Ray) (emission : Bool) (samples depth : Int)
    (st : St Rng Glob) :
    (∀ out, sample E s fuel scene ray emission samples depth st = some out →
      ∃ ev, out.2.log = st.log ++ ev ∧ CallsOk ev ∧ (∀ e ∈ ev, e.Within depth) ∧
        ∀ l em n dp, Event.call l em n dp ∈ ev →
          n = 1 ∧ dp = l - 1 ∧ 0 ≤ l ∧ l ≤ depth) ∧
    (∀ k, (depth + 1).toNat ≤ k →
      sampleK E s fuel scene k ray emission samples depth st =
        sample E s fuel scene ray emission samples depth st) ∧
    ((s.DirectLighting = false ∨ scene.Lights = [] ∨ Terminates E fuel) →
      (sample E s fuel scene ray emission samples depth st).isSome) := by
  refine ⟨fun out h => ?_, fun k hk => sampleK_stable E s fuel scene k depth hk ray emission
    samples st, fun h => ?_⟩
  · obtain ⟨ev, h1, h2, h3⟩ := sample_shaped E s fuel scene (depth.toNat + 1) depth
      (by push_cast; omega) ray emission samples st out h
    refine ⟨ev, h1, h2, h3, fun l em n dp hm => ?_⟩
    obtain ⟨h4, h5⟩ := callsOk_mem h2 l em n dp hm
    obtain ⟨h6, h7⟩ := h3 _ hm l rfl
    exact ⟨h4, h5, h6, h7⟩
  · exact sample_isSome_of E s fuel scene (directLight_isSome_of E s fuel scene h)
      (depth.toNat + 1) depth (by push_cast; omega) ray emission samples st

theorem recursion_shape_witness :
    (Sample demoEnv (NewSampler 16 8) 4 demoScene downRay (st0 0 0)).isSome :=
  (recursion_shape demoEnv (NewSampler 16 8) 4 demoScene downRay true 16 8 (st0 0 0)).2.2
    (Or.inr (Or.inr (demoEnv_terminates 3)))

/-- C14, the claim as written fails: `sample` is not total. With a random source
that yields 999/1000 at every draw the rejection loop of `directLight` never
accepts, and `Sample` returns no value, whatever the bound on its iterations. -/
theorem recursion_total_counterexample :
    Sample stuckEnv (NewSampler 1 0) 1000000 demoScene downRay (st0 0 0) = none ∧
    (fun fuel : Nat => Sample stuckEnv (NewSampler 1 0) fuel demoScene downRay (st0 0 0)) =
      fun _ => none :=
  ⟨Sample_stuck 1000000, funext Sample_stuck⟩

end Claims

/-! ## Claims that do not compare shapes -/

section PlainClaims

variable {Rng Glob Sh : Type}

/-- C13. With `h` the distance from the shading point to the centre of the
light's bounding sphere and `r` its radius, the coverage term lies in `[0, 1]`;
it is 1 when `h < r`; and when `0 < r < h` and the trigonometric functions are
exact at `asin (r / h)`, it is `min (tan^2 (asin (r / h))) 1`, where
`tan^2 (asin (r / h)) = r^2 / (h^2 - r^2)`. -/
theorem coverage_value (E : Env Rng Glob Sh) (center : Vector) (radius : ℚ) (origin : Vector) :
    (0 ≤ coverage E center radius origin ∧ coverage E center radius origin ≤ 1) ∧
    ((center.Sub origin).Length E.Sqrt < radius → coverage E center radius origin = 1) ∧
    (0 < radius → radius < (center.Sub origin).Length E.Sqrt →
      ExactTrig E (radius / (center.Sub origin).Length E.Sqrt) →
      coverage E center radius origin =
        min (E.Tan (E.Asin (radius / (center.Sub origin).Length E.Sqrt)) ^ 2) 1 ∧
      E.Tan (E.Asin (radius / (center.Sub origin).Length E.Sqrt)) ^ 2 =
        radius ^ 2 / ((center.Sub origin).Length E.Sqrt ^ 2 - radius ^ 2)) := by
  refine ⟨⟨coverage_nonneg E center radius origin, ?_⟩, fun h => ?_, fun hr hlt hx => ?_⟩
  · unfold coverage
    exact min_le_right _ _
  · unfold coverage
    simp [h]
  · obtain ⟨hs, hc, ht⟩ := hx
    obtain ⟨h1, h2⟩ := cover_formula _ _ _ radius _ hs hc ht hr hlt
    refine ⟨?_, h2⟩
    unfold coverage
    simp only [if_neg (not_lt.2 hlt.le)]
    rw [h1]

theorem coverage_value_witness :
    coverage triEnv ⟨0, 0, 5⟩ 3 ⟨0, 0, 0⟩ =
        min (triEnv.Tan (triEnv.Asin
          (3 / ((⟨0, 0, 5⟩ : Vector).Sub ⟨0, 0, 0⟩).Length triEnv.Sqrt)) ^ 2) 1 ∧
      triEnv.Tan (triEnv.Asin (3 / ((⟨0, 0, 5⟩ : Vector).Sub ⟨0, 0, 0⟩).Length triEnv.Sqrt)) ^ 2 =
        3 ^ 2 / (((⟨0, 0, 5⟩ : Vector).Sub ⟨0, 0, 0⟩).Length triEnv.Sqrt ^ 2 - 3 ^ 2) :=
  (coverage_value triEnv ⟨0, 0, 5⟩ 3 ⟨0, 0, 0⟩).2.2 (by norm_num)
    (by norm_num [triEnv, Vector.Sub, Vector.Length])
    (by norm_num [ExactTrig, triEnv, Vector.Sub, Vector.Length])

/-- C15. For a shading point different from the centre and a vector `w` not
parallel to `l`, with the square root exact at the two squared lengths that are
normalised: `l`, `u = normalize (l × w)` and `v = l × u` are orthonormal, and for
`x^2 + y^2 <= 1` the light point `center + x*radius*u + y*radius*v` satisfies
`(point - center) . l = 0` and `|point - center|^2 <= radius^2`, hence
`|point - center| <= radius` for `radius >= 0`. Every point returned by the
rejection loop of `directLight` is such a point. -/
theorem light_sample_point (E : Env Rng Glob Sh) (center : Vector) (radius : ℚ) (n : Ray)
    (w : Vector) (x y : ℚ) (hne : center ≠ n.Origin)
    (hs1 : IsSqrt E.Sqrt (center.Sub n.Origin).LengthSq)
    (hpar : (frameL E.Sqrt center n.Origin).Cross w ≠ Vector.zero)
    (hs2 : IsSqrt E.Sqrt ((frameL E.Sqrt center n.Origin).Cross w).LengthSq) :
    ((frameL E.Sqrt center n.Origin).Dot (frameL E.Sqrt center n.Origin) = 1 ∧
      (frameU E.Sqrt center n.Origin w).Dot (frameU E.Sqrt center n.Origin w) = 1 ∧
      (frameV E.Sqrt center n.Origin w).Dot (frameV E.Sqrt center n.Origin w) = 1 ∧
      (frameL E.Sqrt center n.Origin).Dot (frameU E.Sqrt center n.Origin w) = 0 ∧
      (frameL E.Sqrt center n.Origin).Dot (frameV E.Sqrt center n.Origin w) = 0 ∧
      (frameU E.Sqrt center n.Origin w).Dot (frameV E.Sqrt center n.Origin w) = 0) ∧
    diskPoint E.Sqrt center radius n.Origin w x y =
      ((Vector.zero.Add ((frameU E.Sqrt center n.Origin w).MulScalar (x * radius))).Add
        ((frameV E.Sqrt center n.Origin w).MulScalar (y * radius))).Add center ∧
    (x * x + y * y ≤ 1 →
      ((diskPoint E.Sqrt center radius n.Origin w x y).Sub center).Dot
          (frameL E.Sqrt center n.Origin) = 0 ∧
      ((diskPoint E.Sqrt center radius n.Origin w x y).Sub center).LengthSq ≤ radius * radius ∧
      (0 ≤ radius →
        IsSqrt E.Sqrt ((diskPoint E.Sqrt center radius n.Origin w x y).Sub center).LengthSq →
        ((diskPoint E.Sqrt center radius n.Origin w x y).Sub center).Length E.Sqrt ≤ radius)) ∧
    (∀ (fuel : Nat) (st : St Rng Glob) (out : Vector × St Rng Glob),
      lightPoint E center radius n fuel st = some out →
      ∃ (x1 y1 : ℚ) (r : Rng), x1 * x1 + y1 * y1 ≤ 1 ∧
        out.1 = diskPoint E.Sqrt center radius n.Origin (E.RandomUnitVector r).1 x1 y1) := by
  have hf : (frameL E.Sqrt center n.Origin).Dot (frameL E.Sqrt center n.Origin) = 1 ∧
      (frameU E.Sqrt center n.Origin w).Dot (frameU E.Sqrt center n.Origin w) = 1 ∧
      (frameV E.Sqrt center n.Origin w).Dot (frameV E.Sqrt center n.Origin w) = 1 ∧
      (frameL E.Sqrt center n.Origin).Dot (frameU E.Sqrt center n.Origin w) = 0 ∧
      (frameL E.Sqrt center n.Origin).Dot (frameV E.Sqrt center n.Origin w) = 0 ∧
      (frameU E.Sqrt center n.Origin w).Dot (frameV E.Sqrt center n.Origin w) = 0 :=
    light_frame E.Sqrt center n.Origin w hne hs1 hpar hs2
  obtain ⟨hl, hu, hv, hlu, hlv, huv⟩ := hf
  refine ⟨⟨hl, hu, hv, hlu, hlv, huv⟩, rfl, fun hxy => ?_,
    fun fuel st out h => lightPoint_diskPoint E center radius n fuel st out h⟩
  obtain ⟨h1, h2⟩ := diskPoint_offset (frameU E.Sqrt center n.Origin w)
    (frameV E.Sqrt center n.Origin w) center (frameL E.Sqrt center n.Origin)
    (x * radius) (y * radius)
  have e : diskPoint E.Sqrt center radius n.Origin w x y =
      ((Vector.zero.Add ((frameU E.Sqrt center n.Origin w).MulScalar (x * radius))).Add
        ((frameV E.Sqrt center n.Origin w).MulScalar (y * radius))).Add center := rfl
  have hul : (frameU E.Sqrt center n.Origin w).Dot (frameL E.Sqrt center n.Origin) = 0 := by
    rw [Vector.dot_comm]; exact hlu
  have hvl : (frameV E.Sqrt center n.Origin w).Dot (frameL E.Sqrt center n.Origin) = 0 := by
    rw [Vector.dot_comm]; exact hlv
  have hsq : ((diskPoint E.Sqrt center radius n.Origin w x y).Sub center).LengthSq ≤
      radius * radius := by
    rw [e, h2, hu, hv, huv]
    nlinarith [mul_self_nonneg radius]
  refine ⟨?_, hsq, fun hr hs => ?_⟩
  · rw [e, h1, hul, hvl]
    ring
  · unfold Vector.Length
    have h3 := hs.2
    have h4 := hs.1
    unfold Vector.LengthSq at h3 h4 hsq
    nlinarith

theorem light_sample_point_witness :
    ((diskPoint demoEnv.Sqrt ⟨0, 0, 2⟩ 1 upRay.Origin ⟨1, 0, 0⟩ 0 0).Sub ⟨0, 0, 2⟩).Dot
        (frameL demoEnv.Sqrt ⟨0, 0, 2⟩ upRay.Origin) = 0 ∧
    ((diskPoint demoEnv.Sqrt ⟨0, 0, 2⟩ 1 upRay.Origin ⟨1, 0, 0⟩ 0 0).Sub ⟨0, 0, 2⟩).LengthSq
        ≤ 1 * 1 := by
  have h := (light_sample_point demoEnv ⟨0, 0, 2⟩ 1 upRay ⟨1, 0, 0⟩ 0 0
    (by simp [upRay])
    (by norm_num [IsSqrt, demoEnv, upRay, Vector.Sub, Vector.LengthSq])
    (by norm_num [frameL, demoEnv, upRay, Vector.Sub, Vector.Normalize, Vector.Length,
      Vector.Cross, Vector.zero])
    (by norm_num [IsSqrt, frameL, demoEnv, upRay, Vector.Sub, Vector.Normalize, Vector.Length,
      Vector.Cross, Vector.LengthSq])).2.2.1 (by norm_num)
  exact ⟨h.1, h.2.1⟩

end PlainClaims

/-! ## The mesh: lemmas -/

section MeshLemmas

set_option linter.unusedSectionVars false

variable {K : Type} [Add K] [Sub K] [Mul K] [Div K] [Neg K] [Zero K] [One K] [LE K]
  [DecidableRel (LE.le : K → K → Prop)] [BEq K] {Mat : Type}

theorem Heap.set_same (h : Heap K) (p : Ptr) (t : Triangle K) : (h.set p t) p = t := by
  simp [Heap.set]

theorem Heap.set_other (h : Heap K) (p q : Ptr) (t : Triangle K) (hq : q ≠ p) :
    (h.set p t) q = h q := by
  simp [Heap.set, hq]

/-- A loop that writes through the pointers of `ps` leaves every other address alone. -/
theorem foldl_set_frame (f : Heap K → Ptr → Triangle K) (ps : List Ptr) (q : Ptr)
    (hq : q ∉ ps) : ∀ h0 : Heap K, (ps.foldl (fun h p => h.set p (f h p)) h0) q = h0 q := by
  induction ps with
  | nil => intro h0; rfl
  | cons p ps ih =>
    intro h0
    simp only [List.foldl_cons]
    rw [ih (fun hm => hq (List.mem_cons_of_mem _ hm))]
    exact Heap.set_other _ _ _ _ (fun e => hq (e ▸ List.mem_cons_self _ _))

/-- A loop that replaces every triangle by `g` of it keeps what `g` keeps. -/
theorem foldl_set_keep {β : Type} (g : Triangle K → Triangle K) (keep : Triangle K → β)
    (hg : ∀ t, keep (g t) = keep t) (ps : List Ptr) (q : Ptr) :
    ∀ h0 : Heap K, keep ((ps.foldl (fun h p => h.set p (g (h p))) h0) q) = keep (h0 q) := by
  induction ps with
  | nil => intro h0; rfl
  | cons p ps ih =>
    intro h0
    simp only [List.foldl_cons]
    rw [ih]
    by_cases e : q = p
    · subst e
      rw [Heap.set_same, hg]
    · rw [Heap.set_other _ _ _ _ e]

/-- A loop that replaces every triangle by `g` of it, for `g` that changes
nothing when applied twice: the triangles of the list end as `g` of what they were. -/
theorem foldl_set_idem (g : Triangle K → Triangle K) (hg : ∀ t, g (g t) = g t)
    (ps : List Ptr) (q : Ptr) (hq : q ∈ ps) :
    ∀ h0 : Heap K, (ps.foldl (fun h p => h.set p (g (h p))) h0) q = g (h0 q) := by
  induction ps with
  | nil => exact absurd hq (by simp)
  | cons p ps ih =>
    intro h0
    simp only [List.foldl_cons]
    by_cases hm : q ∈ ps
    · rw [ih hm]
      by_cases e : q = p
      · subst e
        rw [Heap.set_same, hg]
      · rw [Heap.set_other _ _ _ _ e]
    · have e : q = p := by
        rcases List.mem_cons.1 hq with h1 | h1
        · exact h1
        · exact absurd h1 hm
      subst e
      rw [foldl_set_frame (fun h p => g (h p)) ps q hm, Heap.set_same]

/-- The same for any `g` when no pointer occurs twice in the list. -/
theorem foldl_set_nodup (g : Triangle K → Triangle K) (ps : List Ptr) (hn : ps.Nodup)
    (q : Ptr) (hq : q ∈ ps) :
    ∀ h0 : Heap K, (ps.foldl (fun h p => h.set p (g (h p))) h0) q = g (h0 q) := by
  induction ps with
  | nil => exact absurd hq (by simp)
  | cons p ps ih =>
    intro h0
    simp only [List.foldl_cons]
    obtain ⟨hp, hn1⟩ := List.nodup_cons.1 hn
    by_cases hm : q ∈ ps
    · rw [ih hn1 hm]
      have e : q ≠ p := fun e => hp (e ▸ hm)
      rw [Heap.set_other _ _ _ _ e]
    · have e : q = p := by
        rcases List.mem_cons.1 hq with h1 | h1
        · exact h1
        · exact absurd h1 hm
      subst e
      rw [foldl_set_frame (fun h p => g (h p)) ps q hm, Heap.set_same]

theorem cacheOk_of_none (h : Heap K) (m : Mesh K) (hm : m.mesh = none) : CacheOk h m := by
  intro built hb
  rw [hm] at hb
  exact absurd hb (by simp)

/-- The invariant reads the heap only at the vertex positions of the triangles
of the mesh. -/
theorem cacheOk_congr (h h1 : Heap K) (m m1 : Mesh K) (ht : m1.Triangles = m.Triangles)
    (hc : m1.mesh = m.mesh)
    (hv : ∀ p ∈ m.Triangles,
      (h1 p).V1 = (h p).V1 ∧ (h1 p).V2 = (h p).V2 ∧ (h1 p).V3 = (h p).V3)
    (hok : CacheOk h m) : CacheOk h1 m1 := by
  intro built hb
  rw [hc] at hb
  obtain ⟨hl, hi⟩ := hok built hb
  rw [ht]
  refine ⟨hl, fun i p hp => ?_⟩
  obtain ⟨e1, e2, e3⟩ := hv p (List.getElem?_mem hp)
  rw [hi i p hp, e1, e2, e3]

theorem compile_mesh_none (h : Heap K) (m : Mesh K) (hm : m.mesh = none) :
    (m.Compile h).mesh =
      some (m.Triangles.map fun p => ((h p).V1, (h p).V2, (h p).V3)) ∧
    (m.Compile h).Triangles = m.Triangles ∧ (m.Compile h).Box = m.Box := by
  simp [Mesh.Compile, hm]

theorem compile_mesh_some (h : Heap K) (m : Mesh K) (hm : m.mesh ≠ none) :
    m.Compile h = m := by
  unfold Mesh.Compile
  cases hx : m.mesh with
  | none => exact absurd hx hm
  | some built => simp

theorem compile_triangles (h : Heap K) (m : Mesh K) :
    (m.Compile h).Triangles = m.Triangles := by
  unfold Mesh.Compile
  split <;> rfl

theorem compile_cacheOk (h : Heap K) (m : Mesh K) (hok : CacheOk h m) :
    CacheOk h (m.Compile h) := by
  cases hx : m.mesh with
  | none =>
    intro built hb
    rw [(compile_mesh_none h m hx).1] at hb
    simp only [Option.some.injEq] at hb
    subst hb
    rw [compile_triangles]
    refine ⟨by simp, fun i p hp => ?_⟩
    rw [List.getElem?_map, hp]
    rfl
  | some built =>
    rw [compile_mesh_some h m (by rw [hx]; simp)]
    exact hok

theorem compile_twice (h : Heap K) (m : Mesh K) : (m.Compile h).Compile h = m.Compile h := by
  cases hx : m.mesh with
  | none =>
    apply compile_mesh_some
    rw [(compile_mesh_none h m hx).1]
    simp
  | some built =>
    rw [compile_mesh_some h m (by rw [hx]; simp)]
    exact compile_mesh_some h m (by rw [hx]; simp)

theorem transform_facts (E : MeshEnv K Mat) (h : Heap K) (m : Mesh K) (matrix : Mat) :
    (m.Transform E h matrix).2.mesh = none ∧
    (m.Transform E h matrix).2.Triangles = m.Triangles ∧
    ∀ q, q ∉ m.Triangles → (m.Transform E h matrix).1 q = h q := by
  refine ⟨rfl, rfl, fun q hq => ?_⟩
  exact foldl_set_frame _ m.Triangles q hq h

theorem swapAxes_facts (E : MeshEnv K Mat) (h : Heap K) (m : Mesh K) (x y z : Int) :
    (m.SwapAxes E h x y z).2.mesh = none ∧
    (m.SwapAxes E h x y z).2.Triangles = m.Triangles ∧
    ∀ q, q ∉ m.Triangles → (m.SwapAxes E h x y z).1 q = h q := by
  refine ⟨rfl, rfl, fun q hq => ?_⟩
  exact foldl_set_frame _ m.Triangles q hq h

theorem unitCube_facts (E : MeshEnv K Mat) (h : Heap K) (m : Mesh K) :
    (m.UnitCube E h).2.mesh = none ∧
    (m.UnitCube E h).2.Triangles = m.Triangles ∧
    ∀ q, q ∉ m.Triangles → (m.UnitCube E h).1 q = h q := by
  refine ⟨rfl, rfl, fun q hq => ?_⟩
  unfold Mesh.UnitCube Mesh.MoveTo Mesh.FitInside
  simp only
  rw [(transform_facts E _ _ _).2.2 q
    (by rw [(transform_facts E h m _).2.1]; exact hq)]
  exact (transform_facts E h m _).2.2 q hq

/-- The loops of `SmoothNormals`, read off the source. -/
theorem smoothNormals_unfold (E : MeshEnv K Mat) (h : Heap K) (m : Mesh K) :
    m.SmoothNormals E h =
      (m.Triangles.foldl
        (fun h1 p => h1.set p (smoothWrite (smoothLookup E.Sqrt (m.deref h)) (h1 p))) h, m) := by
  unfold Mesh.SmoothNormals smoothLookup smoothWrite Mesh.deref
  simp only [List.foldl_map]

/-- The loops of `SmoothNormalsThreshold`, read off the source. -/
theorem smoothNormalsThreshold_unfold (E : MeshEnv K Mat) (h : Heap K) (m : Mesh K)
    (radians : K) :
    m.SmoothNormalsThreshold E h radians =
      (m.Triangles.foldl
        (fun h1 p => h1.set p
          (thresholdWrite E.Sqrt (thresholdLookup (m.deref h)) (E.Cos radians) (h1 p))) h, m) := by
  unfold Mesh.SmoothNormalsThreshold thresholdLookup thresholdWrite Mesh.deref
  simp only [List.foldl_map]

/-- `SmoothNormals` writes the normals only: it keeps the vertex positions and
the box of every triangle, the mesh value, and every triangle outside the mesh. -/
theorem smoothNormals_keeps (E : MeshEnv K Mat) (h : Heap K) (m : Mesh K) :
    (m.SmoothNormals E h).2 = m ∧
    (∀ q, ((m.SmoothNormals E h).1 q).V1 = (h q).V1 ∧ ((m.SmoothNormals E h).1 q).V2 = (h q).V2 ∧
      ((m.SmoothNormals E h).1 q).V3 = (h q).V3 ∧ ((m.SmoothNormals E h).1 q).Box = (h q).Box) ∧
    ∀ q, q ∉ m.Triangles → (m.SmoothNormals E h).1 q = h q := by
  rw [smoothNormals_unfold]
  refine ⟨rfl, fun q => ⟨?_, ?_, ?_, ?_⟩, fun q hq => ?_⟩
  · exact foldl_set_keep (smoothWrite _) (fun t => t.V1) (fun _ => rfl) m.Triangles q h
  · exact foldl_set_keep (smoothWrite _) (fun t => t.V2) (fun _ => rfl) m.Triangles q h
  · exact foldl_set_keep (smoothWrite _) (fun t => t.V3) (fun _ => rfl) m.Triangles q h
  · exact foldl_set_keep (smoothWrite _) (fun t => t.Box) (fun _ => rfl) m.Triangles q h
  · exact foldl_set_frame _ m.Triangles q hq h

/-- `SmoothNormalsThreshold` writes the normals only. -/
theorem smoothNormalsThreshold_keeps (E : MeshEnv K Mat) (h : Heap K) (m : Mesh K)
    (radians : K) :
    (m.SmoothNormalsThreshold E h radians).2 = m ∧
    (∀ q, ((m.SmoothNormalsThreshold E h radians).1 q).V1 = (h q).V1 ∧
      ((m.SmoothNormalsThreshold E h radians).1 q).V2 = (h q).V2 ∧
      ((m.SmoothNormalsThreshold E h radians).1 q).V3 = (h q).V3 ∧
      ((m.SmoothNormalsThreshold E h radians).1 q).Box = (h q).Box) ∧
    ∀ q, q ∉ m.Triangles → (m.SmoothNormalsThreshold E h radians).1 q = h q := by
  rw [smoothNormalsThreshold_unfold]
  refine ⟨rfl, fun q => ⟨?_, ?_, ?_, ?_⟩, fun q hq => ?_⟩
  · exact foldl_set_keep (thresholdWrite _ _ _) (fun t => t.V1) (fun _ => rfl) m.Triangles q h
  · exact foldl_set_keep (thresholdWrite _ _ _) (fun t => t.V2) (fun _ => rfl) m.Triangles q h
  · exact foldl_set_keep (thresholdWrite _ _ _) (fun t => t.V3) (fun _ => rfl) m.Triangles q h
  · exact foldl_set_keep (thresholdWrite _ _ _) (fun t => t.Box) (fun _ => rfl) m.Triangles q h
  · exact foldl_set_frame _ m.Triangles q hq h

/-- No operation changes the list of pointers of the mesh. -/
theorem apply_triangles (E : MeshEnv K Mat) (h : Heap K) (m : Mesh K) (op : MeshOp K Mat) :
    (op.apply E h m).2.Triangles = m.Triangles := by
  cases op with
  | compile => exact compile_triangles h m
  | transform matrix => rfl
  | moveTo position anchor => rfl
  | fitInside box anchor => rfl
  | unitCube => rfl
  | swapAxes x y z => rfl
  | smoothNormals => rfl
  | smoothNormalsThreshold radians => rfl
  | updateBoundingBox => rfl

/-- An operation on a mesh writes only through the pointers of that mesh. -/
theorem apply_frame (E : MeshEnv K Mat) (h : Heap K) (m : Mesh K) (op : MeshOp K Mat)
    (q : Ptr) (hq : q ∉ m.Triangles) : (op.apply E h m).1 q = h q := by
  cases op with
  | compile => rfl
  | transform matrix => exact (transform_facts E h m matrix).2.2 q hq
  | moveTo position anchor => exact (transform_facts E h m _).2.2 q hq
  | fitInside box anchor => exact (transform_facts E h m _).2.2 q hq
  | unitCube => exact (unitCube_facts E h m).2.2 q hq
  | swapAxes x y z => exact (swapAxes_facts E h m x y z).2.2 q hq
  | smoothNormals => exact (smoothNormals_keeps E h m).2.2 q hq
  | smoothNormalsThreshold radians => exact (smoothNormalsThreshold_keeps E h m radians).2.2 q hq
  | updateBoundingBox => rfl

theorem apply_cacheOk (E : MeshEnv K Mat) (h : Heap K) (m : Mesh K) (op : MeshOp K Mat)
    (hok : CacheOk h m) : CacheOk (op.apply E h m).1 (op.apply E h m).2 := by
  cases op with
  | compile => exact compile_cacheOk h m hok
  | transform matrix => exact cacheOk_of_none _ _ rfl
  | moveTo position anchor => exact cacheOk_of_none _ _ rfl
  | fitInside box anchor => exact cacheOk_of_none _ _ rfl
  | unitCube => exact cacheOk_of_none _ _ rfl
  | swapAxes x y z => exact cacheOk_of_none _ _ rfl
  | smoothNormals =>
    obtain ⟨-, hv, -⟩ := smoothNormals_keeps E h m
    exact cacheOk_congr h _ m _ rfl rfl
      (fun p _ => ⟨(hv p).1, (hv p).2.1, (hv p).2.2.1⟩) hok
  | smoothNormalsThreshold radians =>
    obtain ⟨-, hv, -⟩ := smoothNormalsThreshold_keeps E h m radians
    exact cacheOk_congr h _ m _ rfl rfl
      (fun p _ => ⟨(hv p).1, (hv p).2.1, (hv p).2.2.1⟩) hok
  | updateBoundingBox => exact cacheOk_congr h h m _ rfl rfl (fun _ _ => ⟨rfl, rfl, rfl⟩) hok

theorem runOps_cacheOk (E : MeshEnv K Mat) (ops : List (MeshOp K Mat)) :
    ∀ s : Heap K × Mesh K, CacheOk s.1 s.2 → CacheOk (runOps E ops s).1 (runOps E ops s).2 := by
  induction ops with
  | nil => intro s hs; exact hs
  | cons op ops ih =>
    intro s hs
    exact ih _ (apply_cacheOk E s.1 s.2 op hs)

/-- One step on a family of meshes that share no triangle keeps the family
unshared and keeps the invariant of every mesh of the family. -/
theorem stepAt_inv (E : MeshEnv K Mat) (s : Heap K × List (Mesh K)) (i : Nat)
    (op : MeshOp K Mat) (hu : Unshared s.2)
    (hok : ∀ (j : Nat) (b : Mesh K), s.2[j]? = some b → CacheOk s.1 b) :
    Unshared (stepAt E s i op).2 ∧
    ∀ (j : Nat) (b : Mesh K), (stepAt E s i op).2[j]? = some b →
      CacheOk (stepAt E s i op).1 b := by
  unfold stepAt
  cases hm : s.2[i]? with
  | none => exact ⟨hu, hok⟩
  | some m =>
    simp only
    have hlt : i < s.2.length := by
      by_contra hge
      rw [List.getElem?_eq_none (by omega)] at hm
      exact absurd hm (by simp)
    have key : ∀ (j : Nat) (b : Mesh K), (s.2.set i (op.apply E s.1 m).2)[j]? = some b →
        (j = i ∧ b = (op.apply E s.1 m).2) ∨ (j ≠ i ∧ s.2[j]? = some b) := by
      intro j b hb
      rw [List.getElem?_set] at hb
      by_cases e : i = j
      · rw [if_pos e, if_pos hlt] at hb
        simp only [Option.some.injEq] at hb
        exact Or.inl ⟨e.symm, hb.symm⟩
      · rw [if_neg e] at hb
        exact Or.inr ⟨fun e1 => e e1.symm, hb⟩
    have self : ∀ (j : Nat) (b : Mesh K), (s.2.set i (op.apply E s.1 m).2)[j]? = some b →
        ∃ b0, s.2[j]? = some b0 ∧ b.Triangles = b0.Triangles := by
      intro j b hb
      rcases key j b hb with ⟨e, rfl⟩ | ⟨-, h1⟩
      · exact ⟨m, e ▸ hm, apply_triangles E s.1 m op⟩
      · exact ⟨b, h1, rfl⟩
    refine ⟨fun j1 j2 a b hne ha hb p hp => ?_, fun j b hb => ?_⟩
    · obtain ⟨a0, ha0, ea⟩ := self j1 a ha
      obtain ⟨b0, hb0, eb⟩ := self j2 b hb
      rw [eb]
      exact hu j1 j2 a0 b0 hne ha0 hb0 p (ea ▸ hp)
    · rcases key j b hb with ⟨-, rfl⟩ | ⟨hne, h1⟩
      · exact apply_cacheOk E s.1 m op (hok i m hm)
      · refine cacheOk_congr s.1 _ b b rfl rfl (fun p hp => ?_) (hok j b h1)
        have hq : p ∉ m.Triangles := fun hpm => hu i j m b (fun e => hne e.symm) hm h1 p hpm hp
        rw [apply_frame E s.1 m op p hq]
        exact ⟨rfl, rfl, rfl⟩

theorem runAll_inv (E : MeshEnv K Mat) (steps : List (Nat × MeshOp K Mat)) :
    ∀ s : Heap K × List (Mesh K), Unshared s.2 →
      (∀ (j : Nat) (b : Mesh K), s.2[j]? = some b → CacheOk s.1 b) →
      Unshared (runAll E steps s).2 ∧
      ∀ (j : Nat) (b : Mesh K), (runAll E steps s).2[j]? = some b →
        CacheOk (runAll E steps s).1 b := by
  induction steps with
  | nil => intro s hu hok; exact ⟨hu, hok⟩
  | cons st steps ih =>
    intro s hu hok
    obtain ⟨h1, h2⟩ := stepAt_inv E s st.1 st.2 hu hok
    exact ih _ h1 h2

end MeshLemmas

section SmoothLemmas

set_option linter.unusedSectionVars false

variable {K : Type} [Add K] [Sub K] [Mul K] [Div K] [Neg K] [Zero K] [One K] [LE K]
  [DecidableRel (LE.le : K → K → Prop)] [BEq K] {Mat : Type}

theorem vector_eq_symm [PartialEquivBEq K] (a b : VectorOf K) (h : a.eq b = true) :
    b.eq a = true := by
  simp only [VectorOf.eq, Bool.and_eq_true] at h ⊢
  exact ⟨⟨PartialEquivBEq.symm h.1.1, PartialEquivBEq.symm h.1.2⟩, PartialEquivBEq.symm h.2⟩

theorem vector_eq_trans [PartialEquivBEq K] (a b c : VectorOf K) (h1 : a.eq b = true)
    (h2 : b.eq c = true) : a.eq c = true := by
  simp only [VectorOf.eq, Bool.and_eq_true] at h1 h2 ⊢
  exact ⟨⟨PartialEquivBEq.trans h1.1.1 h2.1.1, PartialEquivBEq.trans h1.1.2 h2.1.2⟩,
    PartialEquivBEq.trans h1.2 h2.2⟩

/-- Two keys that are `==` compare alike with every key. -/
theorem vector_eq_congr [PartialEquivBEq K] (a b k : VectorOf K) (h : a.eq b = true) :
    a.eq k = b.eq k := by
  cases h1 : a.eq k with
  | true => exact (vector_eq_trans b a k (vector_eq_symm a b h) h1).symm
  | false =>
    cases h2 : b.eq k with
    | true => rw [vector_eq_trans a b k h h2] at h1; exact absurd h1 (by simp)
    | false => rfl

theorem vector_eq_congr_right [PartialEquivBEq K] (a b k : VectorOf K) (h : a.eq b = true) :
    k.eq a = k.eq b := by
  cases h1 : k.eq a with
  | true => exact (vector_eq_trans k a b h1 h).symm
  | false =>
    cases h2 : k.eq b with
    | true =>
      rw [vector_eq_trans k b a h2 (vector_eq_symm a b h)] at h1
      exact absurd h1 (by simp)
    | false => rfl

theorem vector_eq_iff [LawfulBEq K] (a b : VectorOf K) : a.eq b = true ↔ a = b := by
  cases a
  cases b
  simp [VectorOf.eq, and_assoc]

theorem addNormal_respects [PartialEquivBEq K] (lk : VectorOf K → Option (VectorOf K))
    (k n : VectorOf K) (hr : Respects lk) : Respects (addNormal lk k n) := by
  intro a b hab
  simp only [addNormal]
  rw [vector_eq_congr a b k hab, hr a b hab]

theorem pushNormal_respects [PartialEquivBEq K] (lk : VectorOf K → Option (List (VectorOf K)))
    (k n : VectorOf K) (hr : Respects lk) : Respects (pushNormal lk k n) := by
  intro a b hab
  simp only [pushNormal]
  rw [vector_eq_congr a b k hab, hr a b hab]

theorem foldl_corners {M : Type} (step : M → VectorOf K → VectorOf K → M)
    (ts : List (Triangle K)) :
    ∀ lk : M,
      ts.foldl (fun lk t => step (step (step lk t.V1 t.N1) t.V2 t.N2) t.V3 t.N3) lk =
        (corners ts).foldl (fun lk c => step lk c.1 c.2) lk := by
  induction ts with
  | nil => intro lk; rfl
  | cons t ts ih =>
    intro lk
    simp only [List.foldl_cons, corners, List.flatMap_cons, List.foldl_append]
    exact ih _

theorem addNormal_fold [PartialEquivBEq K] (cs : List (VectorOf K × VectorOf K))
    (k : VectorOf K) :
    ∀ lk : VectorOf K → Option (VectorOf K), Respects lk →
      ((cs.foldl (fun lk c => addNormal lk c.1 c.2) lk) k).getD VectorOf.zero =
        ((cs.filter fun c => k.eq c.1).map fun c => c.2).foldl VectorOf.Add
          ((lk k).getD VectorOf.zero) := by
  induction cs with
  | nil => intro lk _; rfl
  | cons c cs ih =>
    intro lk hr
    simp only [List.foldl_cons]
    rw [ih _ (addNormal_respects lk c.1 c.2 hr)]
    cases h : k.eq c.1 with
    | true =>
      simp only [List.filter_cons, h, if_true, List.map_cons, List.foldl_cons, addNormal,
        Option.getD_some]
      rw [hr k c.1 h]
    | false =>
      simp only [List.filter_cons, h, addNormal, Bool.false_eq_true, if_false]

theorem addNormal_present (cs : List (VectorOf K × VectorOf K)) (k : VectorOf K) :
    ∀ lk : VectorOf K → Option (VectorOf K),
      ((lk k).isSome ∨ ∃ c ∈ cs, k.eq c.1 = true) →
      ((cs.foldl (fun lk c => addNormal lk c.1 c.2) lk) k).isSome := by
  induction cs with
  | nil =>
    intro lk h
    rcases h with h | ⟨c, hc, -⟩
    · exact h
    · exact absurd hc (by simp)
  | cons c cs ih =>
    intro lk h
    simp only [List.foldl_cons]
    apply ih
    cases h1 : k.eq c.1 with
    | true =>
      left
      simp [addNormal, h1]
    | false =>
      rcases h with h | ⟨c1, hc1, hk⟩
      · left
        simpa [addNormal, h1] using h
      · rcases List.mem_cons.1 hc1 with h2 | h2
        · rw [h2, h1] at hk
          exact absurd hk (by simp)
        · exact Or.inr ⟨c1, h2, hk⟩

theorem pushNormal_fold [PartialEquivBEq K] (cs : List (VectorOf K × VectorOf K))
    (k : VectorOf K) :
    ∀ lk : VectorOf K → Option (List (VectorOf K)), Respects lk →
      ((cs.foldl (fun lk c => pushNormal lk c.1 c.2) lk) k).getD [] =
        (lk k).getD [] ++ ((cs.filter fun c => k.eq c.1).map fun c => c.2) := by
  induction cs with
  | nil => intro lk _; simp
  | cons c cs ih =>
    intro lk hr
    simp only [List.foldl_cons]
    rw [ih _ (pushNormal_respects lk c.1 c.2 hr)]
    cases h : k.eq c.1 with
    | true =>
      simp only [List.filter_cons, h, if_true, List.map_cons, pushNormal, Option.getD_some,
        List.append_assoc, List.singleton_append]
      rw [hr k c.1 h]
    | false =>
      simp only [List.filter_cons, h, pushNormal, Bool.false_eq_true, if_false]

theorem thresholdSum_fold (normal : VectorOf K) (threshold : K) (normals : List (VectorOf K)) :
    ∀ init : VectorOf K,
      normals.foldl (fun result x => if threshold ≤ x.Dot normal then result.Add x else result)
          init =
        (normals.filter fun x => decide (threshold ≤ x.Dot normal)).foldl VectorOf.Add init := by
  induction normals with
  | nil => intro init; rfl
  | cons x xs ih =>
    intro init
    simp only [List.foldl_cons]
    rw [ih]
    by_cases h : threshold ≤ x.Dot normal
    · simp [List.filter_cons, h]
    · simp [List.filter_cons, h]

theorem smoothNormalsThreshold_eq (sqrt : K → K) (normal : VectorOf K)
    (normals : List (VectorOf K)) (threshold : K) :
    smoothNormalsThreshold sqrt normal normals threshold =
      (VectorOf.sum (normals.filter fun x => decide (threshold ≤ x.Dot normal))).Normalize
        sqrt := by
  unfold smoothNormalsThreshold VectorOf.sum
  simp only
  rw [thresholdSum_fold]

theorem corner_mem (ts : List (Triangle K)) (t : Triangle K) (ht : t ∈ ts) :
    (t.V1, t.N1) ∈ corners ts ∧ (t.V2, t.N2) ∈ corners ts ∧ (t.V3, t.N3) ∈ corners ts := by
  simp only [corners, List.mem_flatMap]
  exact ⟨⟨t, ht, by simp⟩, ⟨t, ht, by simp⟩, ⟨t, ht, by simp⟩⟩

/-- The value stored under the position of a corner after the second loop of
`SmoothNormals`, for a position that equals itself. -/
theorem smoothLookup_eq [PartialEquivBEq K] (sqrt : K → K) (ts : List (Triangle K))
    (p n : VectorOf K) (hp : (p, n) ∈ corners ts) (hrefl : p.eq p = true) :
    (smoothLookup sqrt ts p).getD VectorOf.zero =
      (VectorOf.sum (normalsAt ts p)).Normalize sqrt := by
  unfold smoothLookup
  rw [foldl_corners addNormal]
  have hs := addNormal_present (corners ts) p (fun _ => none) (Or.inr ⟨(p, n), hp, hrefl⟩)
  have hv := addNormal_fold (corners ts) p (fun _ => none) (fun _ _ _ => rfl)
  obtain ⟨v, hv1⟩ := Option.isSome_iff_exists.1 hs
  rw [hv1] at hv ⊢
  simp only [Option.map_some', Option.getD_some, Option.getD_none] at hv ⊢
  rw [hv]
  rfl

/-- The list stored under a position by the first loop of `SmoothNormalsThreshold`. -/
theorem thresholdLookup_eq [PartialEquivBEq K] (ts : List (Triangle K)) (p : VectorOf K) :
    (thresholdLookup ts p).getD [] = normalsAt ts p := by
  unfold thresholdLookup
  rw [foldl_corners pushNormal, pushNormal_fold (corners ts) p (fun _ => none) (fun _ _ _ => rfl)]
  simp [normalsAt]

/-- The triangles of the list after the write loop of a smoothing pass. -/
theorem map_foldl_set (g : Triangle K → Triangle K) (ps : List Ptr) (h0 : Heap K)
    (hg : (∀ t, g (g t) = g t) ∨ ps.Nodup) :
    ps.map (ps.foldl (fun (h : Heap K) p => h.set p (g (h p))) h0) = (ps.map h0).map g := by
  rw [List.map_map]
  apply List.map_congr_left
  intro q hq
  rcases hg with hg | hg
  · exact foldl_set_idem g hg ps q hq h0
  · exact foldl_set_nodup g ps hg q hq h0

/-- `SmoothNormals` computes the normals the claim words, on a mesh whose
vertex positions equal themselves. -/
theorem smoothNormals_eq_spec [PartialEquivBEq K] (E : MeshEnv K Mat) (h : Heap K) (m : Mesh K)
    (hrefl : ∀ c ∈ corners (m.deref h), c.1.eq c.1 = true) :
    (m.SmoothNormals E h).2.deref (m.SmoothNormals E h).1 =
      smoothNormalsSpec E.Sqrt (m.deref h) := by
  rw [smoothNormals_unfold]
  unfold Mesh.deref
  simp only
  rw [map_foldl_set (smoothWrite (smoothLookup E.Sqrt (m.Triangles.map h))) m.Triangles h
    (Or.inl fun _ => rfl)]
  unfold smoothNormalsSpec
  apply List.map_congr_left
  intro t ht
  obtain ⟨h1, h2, h3⟩ := corner_mem (m.Triangles.map h) t ht
  simp only [smoothWrite, withNormals, Mesh.deref]
  rw [smoothLookup_eq E.Sqrt _ _ _ h1 (hrefl _ h1), smoothLookup_eq E.Sqrt _ _ _ h2 (hrefl _ h2),
    smoothLookup_eq E.Sqrt _ _ _ h3 (hrefl _ h3)]

/-- `SmoothNormalsThreshold` computes the normals the claim words, on a mesh
that lists no triangle twice. -/
theorem smoothNormalsThreshold_eq_spec [PartialEquivBEq K] (E : MeshEnv K Mat) (h : Heap K)
    (m : Mesh K) (radians : K) (hn : m.Triangles.Nodup) :
    (m.SmoothNormalsThreshold E h radians).2.deref (m.SmoothNormalsThreshold E h radians).1 =
      smoothNormalsThresholdSpec E.Sqrt (m.deref h) (E.Cos radians) := by
  rw [smoothNormalsThreshold_unfold]
  unfold Mesh.deref
  simp only
  rw [map_foldl_set
    (thresholdWrite E.Sqrt (thresholdLookup (m.Triangles.map h)) (E.Cos radians)) m.Triangles h
    (Or.inr hn)]
  unfold smoothNormalsThresholdSpec
  apply List.map_congr_left
  intro t _
  simp only [thresholdWrite, withNormals, Mesh.deref, thresholdLookup_eq,
    smoothNormalsThreshold_eq]

theorem corners_withNormals (f : VectorOf K → VectorOf K → VectorOf K)
    (ts : List (Triangle K)) :
    corners (ts.map (withNormals f)) = (corners ts).map fun c => (c.1, f c.1 c.2) := by
  induction ts with
  | nil => rfl
  | cons t ts ih =>
    simp only [corners, List.map_cons, List.flatMap_cons, List.map_append] at ih ⊢
    rw [ih]
    rfl

theorem normalsAt_mem (ts : List (Triangle K)) (p n : VectorOf K) :
    n ∈ normalsAt ts p ↔ ∃ q, (q, n) ∈ corners ts ∧ p.eq q = true := by
  simp only [normalsAt, List.mem_map, List.mem_filter]
  constructor
  · rintro ⟨c, ⟨hc, he⟩, rfl⟩
    exact ⟨c.1, hc, he⟩
  · rintro ⟨q, hc, he⟩
    exact ⟨(q, n), ⟨hc, he⟩, rfl⟩

theorem normalsAt_congr [PartialEquivBEq K] (ts : List (Triangle K)) (p q : VectorOf K)
    (h : p.eq q = true) : normalsAt ts p = normalsAt ts q := by
  unfold normalsAt
  congr 1
  apply List.filter_congr
  intro c _
  exact vector_eq_congr p q c.1 h

theorem withNormals_congr (f g : VectorOf K → VectorOf K → VectorOf K) (ts : List (Triangle K))
    (h : ∀ c ∈ corners ts, f c.1 c.2 = g c.1 c.2) :
    ts.map (withNormals f) = ts.map (withNormals g) := by
  apply List.map_congr_left
  intro t ht
  obtain ⟨h1, h2, h3⟩ := corner_mem ts t ht
  simp only [withNormals]
  rw [h _ h1, h _ h2, h _ h3]

theorem withNormals_id (f : VectorOf K → VectorOf K → VectorOf K) (t : Triangle K)
    (h1 : f t.V1 t.N1 = t.N1) (h2 : f t.V2 t.N2 = t.N2) (h3 : f t.V3 t.N3 = t.N3) :
    withNormals f t = t := by
  cases t
  simp only [withNormals] at h1 h2 h3 ⊢
  simp [h1, h2, h3]

theorem map_fixed {α : Type} (f : α → α) (l : List α) (h : ∀ x ∈ l, f x = x) :
    l.map f = l := by
  induction l with
  | nil => rfl
  | cons a l ih =>
    rw [List.map_cons, h a (List.mem_cons_self a l),
      ih fun x hx => h x (List.mem_cons_of_mem a hx)]

/-- Two heaps that agree on the pointers of a mesh after a pass that left the
others alone are equal when they stem from the same heap. -/
theorem heap_ext_of (h1 h2 h0 : Heap K) (ps : List Ptr)
    (hin : ps.map h1 = ps.map h2)
    (ho1 : ∀ q, q ∉ ps → h1 q = h0 q) (ho2 : ∀ q, q ∉ ps → h2 q = h0 q) : h1 = h2 := by
  funext q
  by_cases hq : q ∈ ps
  · exact List.map_inj_left.1 hin q hq
  · rw [ho1 q hq, ho2 q hq]

end SmoothLemmas

/-! ## The mesh in exact real arithmetic -/

section RealSmoothing

variable {Mat : Type}

theorem sum_const_fold (v : VectorOf ℝ) (l : List (VectorOf ℝ)) (hl : ∀ x ∈ l, x = v) :
    ∀ init : VectorOf ℝ,
      l.foldl VectorOf.Add init = init.Add (v.MulScalar (l.length : ℝ)) := by
  induction l with
  | nil =>
    intro init
    cases init
    simp [VectorOf.Add, VectorOf.MulScalar]
  | cons x xs ih =>
    intro init
    have hx : x = v := hl x (List.mem_cons_self _ _)
    simp only [List.foldl_cons, List.length_cons]
    rw [ih (fun y hy => hl y (List.mem_cons_of_mem _ hy)), hx]
    cases init
    cases v
    simp only [VectorOf.Add, VectorOf.MulScalar, VectorOf.mk.injEq]
    push_cast
    refine ⟨?_, ?_, ?_⟩ <;> ring

theorem sum_const (v : VectorOf ℝ) (l : List (VectorOf ℝ)) (hl : ∀ x ∈ l, x = v) :
    VectorOf.sum l = v.MulScalar (l.length : ℝ) := by
  unfold VectorOf.sum
  rw [sum_const_fold v l hl]
  cases v
  simp [VectorOf.Add, VectorOf.MulScalar, VectorOf.zero]

/-- Normalizing a positive multiple of a unit vector gives the unit vector back. -/
theorem normalize_multiple (v : VectorOf ℝ) (k : ℝ) (hv : v.Dot v = 1) (hk : 0 < k) :
    (v.MulScalar k).Normalize Real.sqrt = v := by
  have hL : (v.X * k) * (v.X * k) + (v.Y * k) * (v.Y * k) + (v.Z * k) * (v.Z * k) = k * k := by
    have h1 : (v.X * k) * (v.X * k) + (v.Y * k) * (v.Y * k) + (v.Z * k) * (v.Z * k) =
        k * k * v.Dot v := by
      simp only [VectorOf.Dot]
      ring
    rw [h1, hv, mul_one]
  have hlen : (v.MulScalar k).Length Real.sqrt = k := by
    simp only [VectorOf.Length, VectorOf.MulScalar]
    rw [hL, Real.sqrt_mul_self hk.le]
  have hk0 : k ≠ 0 := hk.ne'
  unfold VectorOf.Normalize
  rw [hlen]
  cases v
  simp only [VectorOf.MulScalar, VectorOf.mk.injEq]
  refine ⟨?_, ?_, ?_⟩ <;> field_simp

/-- The normalized vector has length one, for a vector that is not zero. -/
theorem real_normalize_unit (S : VectorOf ℝ) (h0 : S ≠ VectorOf.zero) :
    (S.Normalize Real.sqrt).Dot (S.Normalize Real.sqrt) = 1 := by
  have hnn : 0 ≤ S.X * S.X + S.Y * S.Y + S.Z * S.Z := by
    nlinarith [mul_self_nonneg S.X, mul_self_nonneg S.Y, mul_self_nonneg S.Z]
  have hpos : 0 < S.X * S.X + S.Y * S.Y + S.Z * S.Z := by
    rcases hnn.lt_or_eq with h | h
    · exact h
    · exfalso
      apply h0
      have hx : S.X = 0 := by
        nlinarith [mul_self_nonneg S.X, mul_self_nonneg S.Y, mul_self_nonneg S.Z]
      have hy : S.Y = 0 := by
        nlinarith [mul_self_nonneg S.X, mul_self_nonneg S.Y, mul_self_nonneg S.Z]
      have hz : S.Z = 0 := by
        nlinarith [mul_self_nonneg S.X, mul_self_nonneg S.Y, mul_self_nonneg S.Z]
      cases S
      simp only [VectorOf.zero, VectorOf.mk.injEq]
      exact ⟨hx, hy, hz⟩
  have hs : Real.sqrt (S.X * S.X + S.Y * S.Y + S.Z * S.Z) *
      Real.sqrt (S.X * S.X + S.Y * S.Y + S.Z * S.Z) = S.X * S.X + S.Y * S.Y + S.Z * S.Z :=
    Real.mul_self_sqrt hnn
  have hsp : 0 < Real.sqrt (S.X * S.X + S.Y * S.Y + S.Z * S.Z) := Real.sqrt_pos.2 hpos
  simp only [VectorOf.Dot, VectorOf.Normalize, VectorOf.Length]
  rw [div_mul_div_comm, div_mul_div_comm, div_mul_div_comm, ← add_div, ← add_div, hs]
  exact div_self hpos.ne'

theorem unit_eq_of_dot_ge (x n : VectorOf ℝ) (hx : x.Dot x = 1) (hn : n.Dot n = 1)
    (h : 1 ≤ x.Dot n) : x = n := by
  have hsum : (x.X - n.X) * (x.X - n.X) + (x.Y - n.Y) * (x.Y - n.Y) +
      (x.Z - n.Z) * (x.Z - n.Z) ≤ 0 := by
    simp only [VectorOf.Dot] at hx hn h
    nlinarith
  have h1 : x.X - n.X = 0 := by
    nlinarith [mul_self_nonneg (x.X - n.X), mul_self_nonneg (x.Y - n.Y),
      mul_self_nonneg (x.Z - n.Z)]
  have h2 : x.Y - n.Y = 0 := by
    nlinarith [mul_self_nonneg (x.X - n.X), mul_self_nonneg (x.Y - n.Y),
      mul_self_nonneg (x.Z - n.Z)]
  have h3 : x.Z - n.Z = 0 := by
    nlinarith [mul_self_nonneg (x.X - n.X), mul_self_nonneg (x.Y - n.Y),
      mul_self_nonneg (x.Z - n.Z)]
  cases x
  cases n
  simp only [VectorOf.mk.injEq]
  exact ⟨by linarith, by linarith, by linarith⟩

theorem dot_ge_neg_one (x n : VectorOf ℝ) (hx : x.Dot x = 1) (hn : n.Dot n = 1) :
    -1 ≤ x.Dot n := by
  simp only [VectorOf.Dot] at hx hn ⊢
  nlinarith [mul_self_nonneg (x.X + n.X), mul_self_nonneg (x.Y + n.Y),
    mul_self_nonneg (x.Z + n.Z)]

theorem normalsAt_mem_real (ts : List (Triangle ℝ)) (p n : VectorOf ℝ) :
    n ∈ normalsAt ts p ↔ (p, n) ∈ corners ts := by
  rw [normalsAt_mem]
  constructor
  · rintro ⟨q, hc, he⟩
    rw [(vector_eq_iff p q).1 he]
    exact hc
  · intro h
    exact ⟨p, h, (vector_eq_iff p p).2 rfl⟩

theorem normalsAt_withNormals (g : VectorOf ℝ → VectorOf ℝ) (ts : List (Triangle ℝ))
    (p : VectorOf ℝ) :
    normalsAt (ts.map (withNormals fun q _ => g q)) p =
      (normalsAt ts p).map fun _ => g p := by
  unfold normalsAt
  rw [corners_withNormals]
  induction corners ts with
  | nil => rfl
  | cons c cs ih =>
    cases h : p.eq c.1 with
    | true =>
      have e : c.1 = p := ((vector_eq_iff p c.1).1 h).symm
      simp only [List.map_cons, List.filter_cons, h, if_true]
      simp only [List.map_map, Function.comp_def, List.map_cons] at ih ⊢
      rw [ih, e]
    | false =>
      simp only [List.map_cons, List.filter_cons, h, Bool.false_eq_true, if_false]
      simpa using ih

/-- A second pass of the smoothing returns the normals of the first, when no
sum of the first pass is the zero vector. -/
theorem smoothNormalsSpec_idem (ts : List (Triangle ℝ))
    (h : ∀ c ∈ corners ts, VectorOf.sum (normalsAt ts c.1) ≠ VectorOf.zero) :
    smoothNormalsSpec Real.sqrt (smoothNormalsSpec Real.sqrt ts) =
      smoothNormalsSpec Real.sqrt ts := by
  have key : ∀ c ∈ corners ts,
      (VectorOf.sum (normalsAt (smoothNormalsSpec Real.sqrt ts) c.1)).Normalize Real.sqrt =
        (VectorOf.sum (normalsAt ts c.1)).Normalize Real.sqrt := by
    intro c hcm
    have hn : normalsAt (smoothNormalsSpec Real.sqrt ts) c.1 =
        (normalsAt ts c.1).map fun _ =>
          (VectorOf.sum (normalsAt ts c.1)).Normalize Real.sqrt :=
      normalsAt_withNormals (fun q => (VectorOf.sum (normalsAt ts q)).Normalize Real.sqrt) ts c.1
    have hsum : VectorOf.sum (normalsAt (smoothNormalsSpec Real.sqrt ts) c.1) =
        ((VectorOf.sum (normalsAt ts c.1)).Normalize Real.sqrt).MulScalar
          ((normalsAt ts c.1).length : ℝ) := by
      rw [hn, sum_const ((VectorOf.sum (normalsAt ts c.1)).Normalize Real.sqrt)]
      · simp
      · intro x hx
        simp only [List.mem_map] at hx
        obtain ⟨_, _, rfl⟩ := hx
        rfl
    have hpos : 0 < ((normalsAt ts c.1).length : ℝ) := by
      have : c.2 ∈ normalsAt ts c.1 := (normalsAt_mem_real ts c.1 c.2).2 hcm
      exact_mod_cast List.length_pos_of_mem this
    rw [hsum]
    exact normalize_multiple _ _ (real_normalize_unit _ (h c hcm)) hpos
  unfold smoothNormalsSpec at key ⊢
  rw [List.map_map]
  apply List.map_congr_left
  intro t ht
  obtain ⟨h1, h2, h3⟩ := corner_mem ts t ht
  simp only [Function.comp_def, withNormals]
  rw [key _ h1, key _ h2, key _ h3]

/-- With unit normals and threshold `-1` the dot-product test keeps every normal
at the vertex position. -/
theorem thresholdSpec_neg_one (sqrt : ℝ → ℝ) (ts : List (Triangle ℝ))
    (hu : ∀ c ∈ corners ts, c.2.Dot c.2 = 1) :
    smoothNormalsThresholdSpec sqrt ts (-1) = smoothNormalsSpec sqrt ts := by
  unfold smoothNormalsThresholdSpec smoothNormalsSpec
  apply withNormals_congr
  intro c hc
  have hf : ((normalsAt ts c.1).filter fun x => decide (-1 ≤ x.Dot c.2)) = normalsAt ts c.1 := by
    rw [List.filter_eq_self]
    intro x hx
    have hx1 := (normalsAt_mem_real ts c.1 x).1 hx
    exact decide_eq_true (dot_ge_neg_one x c.2 (hu _ hx1) (hu _ hc))
  simp only [hf]

/-- With unit normals and threshold `1` the dot-product test keeps only the
copies of the corner's own normal, whose normalized sum is that normal. -/
theorem thresholdSpec_one (ts : List (Triangle ℝ))
    (hu : ∀ c ∈ corners ts, c.2.Dot c.2 = 1) :
    smoothNormalsThresholdSpec Real.sqrt ts 1 = ts := by
  have key : ∀ c ∈ corners ts,
      (VectorOf.sum ((normalsAt ts c.1).filter fun x => decide (1 ≤ x.Dot c.2))).Normalize
        Real.sqrt = c.2 := by
    intro c hc
    have hall : ∀ x ∈ (normalsAt ts c.1).filter fun x => decide (1 ≤ x.Dot c.2), x = c.2 := by
      intro x hx
      rw [List.mem_filter] at hx
      have hx1 := (normalsAt_mem_real ts c.1 x).1 hx.1
      exact unit_eq_of_dot_ge x c.2 (hu _ hx1) (hu _ hc) (of_decide_eq_true hx.2)
    have hmem : c.2 ∈ (normalsAt ts c.1).filter fun x => decide (1 ≤ x.Dot c.2) := by
      rw [List.mem_filter]
      refine ⟨(normalsAt_mem_real ts c.1 c.2).2 hc, decide_eq_true ?_⟩
      rw [hu c hc]
    have hpos : (0 : ℝ) <
        (((normalsAt ts c.1).filter fun x => decide (1 ≤ x.Dot c.2)).length : ℝ) := by
      exact_mod_cast List.length_pos_of_mem hmem
    rw [sum_const c.2 _ hall]
    exact normalize_multiple c.2 _ (hu c hc) hpos
  unfold smoothNormalsThresholdSpec
  have hmap : ∀ t ∈ ts,
      withNormals (fun p n =>
        (VectorOf.sum ((normalsAt ts p).filter fun x => decide (1 ≤ x.Dot n))).Normalize
          Real.sqrt) t = t := by
    intro t ht
    obtain ⟨h1, h2, h3⟩ := corner_mem ts t ht
    exact withNormals_id
      (fun p n =>
        (VectorOf.sum ((normalsAt ts p).filter fun x => decide (1 ≤ x.Dot n))).Normalize
          Real.sqrt) t
      (key (t.V1, t.N1) h1) (key (t.V2, t.N2) h2) (key (t.V3, t.N3) h3)
  exact map_fixed _ ts hmap

theorem real_refl (ts : List (Triangle ℝ)) : ∀ c ∈ corners ts, c.1.eq c.1 = true :=
  fun c _ => (vector_eq_iff c.1 c.1).2 rfl

/-- In exact arithmetic a second `SmoothNormals` changes nothing, when no sum
of normals at a vertex position is the zero vector. -/
theorem smoothNormals_twice (E : MeshEnv ℝ Mat) (h : Heap ℝ) (m : Mesh ℝ)
    (hs : E.Sqrt = Real.sqrt)
    (h0 : ∀ c ∈ corners (m.deref h), VectorOf.sum (normalsAt (m.deref h) c.1) ≠ VectorOf.zero) :
    (m.SmoothNormals E h).2.SmoothNormals E (m.SmoothNormals E h).1 = m.SmoothNormals E h := by
  have e1 := smoothNormals_eq_spec E h m (real_refl _)
  have e2 := smoothNormals_eq_spec E (m.SmoothNormals E h).1 (m.SmoothNormals E h).2 (real_refl _)
  obtain ⟨k1, -, k3⟩ := smoothNormals_keeps E h m
  obtain ⟨j1, -, j3⟩ := smoothNormals_keeps E (m.SmoothNormals E h).1 (m.SmoothNormals E h).2
  rw [e1, hs, smoothNormalsSpec_idem _ h0, ← hs, ← e1] at e2
  rw [k1] at e2 j3 j1
  refine Prod.ext ?_ (j1.trans k1.symm)
  exact heap_ext_of _ _ (m.SmoothNormals E h).1 m.Triangles e2 j3 (fun _ _ => rfl)

/-- In exact arithmetic, on unit normals, the threshold `-1` gives the result
of `SmoothNormals`. -/
theorem threshold_neg_one (E : MeshEnv ℝ Mat) (h : Heap ℝ) (m : Mesh ℝ) (radians : ℝ)
    (hn : m.Triangles.Nodup) (hu : ∀ c ∈ corners (m.deref h), c.2.Dot c.2 = 1)
    (hcos : E.Cos radians = -1) :
    m.SmoothNormalsThreshold E h radians = m.SmoothNormals E h := by
  have e1 := smoothNormals_eq_spec E h m (real_refl _)
  have e2 := smoothNormalsThreshold_eq_spec E h m radians hn
  obtain ⟨k1, -, k3⟩ := smoothNormals_keeps E h m
  obtain ⟨j1, -, j3⟩ := smoothNormalsThreshold_keeps E h m radians
  rw [hcos, thresholdSpec_neg_one _ _ hu, ← e1, k1, j1] at e2
  refine Prod.ext ?_ (j1.trans k1.symm)
  exact heap_ext_of _ _ h m.Triangles e2 j3 k3

/-- In exact arithmetic, on unit normals, the threshold `1` changes nothing. -/
theorem threshold_one (E : MeshEnv ℝ Mat) (h : Heap ℝ) (m : Mesh ℝ) (radians : ℝ)
    (hs : E.Sqrt = Real.sqrt)
    (hn : m.Triangles.Nodup) (hu : ∀ c ∈ corners (m.deref h), c.2.Dot c.2 = 1)
    (hcos : E.Cos radians = 1) :
    m.SmoothNormalsThreshold E h radians = (h, m) := by
  have e2 := smoothNormalsThreshold_eq_spec E h m radians hn
  obtain ⟨j1, -, j3⟩ := smoothNormalsThreshold_keeps E h m radians
  rw [hcos, hs, thresholdSpec_one _ hu, j1] at e2
  refine Prod.ext ?_ j1
  exact heap_ext_of _ _ h m.Triangles e2 j3 (fun _ _ => rfl)

end RealSmoothing

/-! ## The mesh: claims -/

section MeshClaims

set_option linter.unusedSectionVars false

variable {K : Type} [Add K] [Sub K] [Mul K] [Div K] [Neg K] [Zero K] [One K] [LE K]
  [DecidableRel (LE.le : K → K → Prop)] [BEq K] {Mat MatR : Type}

/-- C16 (as amended). `NewMesh` starts with the compiled structure absent and
keeps the caller's pointers. After every sequence of operations on a mesh, and
after every interleaved sequence of operations on a family of meshes that
share no triangle, a compiled structure that is present holds at every index
the current vertex positions of the triangle at that index. `Compile` builds
the structure from the current positions when it is absent and changes nothing
when it is present, so a second `Compile` changes nothing. Every operation
keeps the invariant of the mesh it is called on; `Transform`, `MoveTo`,
`FitInside`, `UnitCube` and `SwapAxes` leave the structure absent. -/
theorem mesh_cache_invariant (E : MeshEnv K Mat) :
    (∀ (h : Heap K) (triangles : List Ptr),
      (NewMesh E h triangles).mesh = none ∧ (NewMesh E h triangles).Triangles = triangles) ∧
    (∀ (h : Heap K) (triangles : List Ptr) (ops : List (MeshOp K Mat)),
      CacheOk (runOps E ops (h, NewMesh E h triangles)).1
        (runOps E ops (h, NewMesh E h triangles)).2) ∧
    (∀ (steps : List (Nat × MeshOp K Mat)) (h : Heap K) (ms : List (Mesh K)),
      Unshared ms → (∀ (j : Nat) (b : Mesh K), ms[j]? = some b → CacheOk h b) →
      ∀ (j : Nat) (b : Mesh K), (runAll E steps (h, ms)).2[j]? = some b →
        CacheOk (runAll E steps (h, ms)).1 b) ∧
    (∀ (h : Heap K) (m : Mesh K), m.mesh = none →
      (m.Compile h).mesh = some (m.Triangles.map fun p => ((h p).V1, (h p).V2, (h p).V3)) ∧
      (m.Compile h).Triangles = m.Triangles ∧ (m.Compile h).Box = m.Box) ∧
    (∀ (h : Heap K) (m : Mesh K), m.mesh ≠ none → m.Compile h = m) ∧
    (∀ (h : Heap K) (m : Mesh K), (m.Compile h).Compile h = m.Compile h) ∧
    (∀ (h : Heap K) (m : Mesh K) (op : MeshOp K Mat), CacheOk h m →
      CacheOk (op.apply E h m).1 (op.apply E h m).2) ∧
    (∀ (h : Heap K) (m : Mesh K) (matrix : Mat) (position anchor : VectorOf K) (box : BoxOf K)
        (x y z : Int),
      (m.Transform E h matrix).2.mesh = none ∧ (m.MoveTo E h position anchor).2.mesh = none ∧
      (m.FitInside E h box anchor).2.mesh = none ∧ (m.UnitCube E h).2.mesh = none ∧
      (m.SwapAxes E h x y z).2.mesh = none) :=
  ⟨fun _ _ => ⟨rfl, rfl⟩,
    fun h triangles ops => runOps_cacheOk E ops (h, NewMesh E h triangles)
      (cacheOk_of_none _ _ rfl),
    fun steps h ms hu hok => (runAll_inv E steps (h, ms) hu hok).2,
    fun h m hm => compile_mesh_none h m hm,
    fun h m hm => compile_mesh_some h m hm,
    fun h m => compile_twice h m,
    fun h m op hok => apply_cacheOk E h m op hok,
    fun _ _ _ _ _ _ _ _ _ => ⟨rfl, rfl, rfl, rfl, rfl⟩⟩

theorem mesh_cache_invariant_witness :
    (Mesh.Compile fanHeap (NewMesh floatMeshEnv fanHeap [0])).mesh =
      some [(⟨0, 0, 0⟩, ⟨1, 0, 0⟩, ⟨F64.fin 2, 0, 0⟩)] ∧
    ∀ (j : Nat) (b : Mesh F64),
      (runAll floatMeshEnv
        [(0, MeshOp.compile), (1, MeshOp.transform ⟨1, 0, 0⟩), (1, MeshOp.compile)]
        (fanHeap, [NewMesh floatMeshEnv fanHeap [0], NewMesh floatMeshEnv fanHeap [1, 2]])).2[j]?
          = some b →
      CacheOk (runAll floatMeshEnv
        [(0, MeshOp.compile), (1, MeshOp.transform ⟨1, 0, 0⟩), (1, MeshOp.compile)]
        (fanHeap, [NewMesh floatMeshEnv fanHeap [0], NewMesh floatMeshEnv fanHeap [1, 2]])).1 b := by
  refine ⟨?_, (mesh_cache_invariant floatMeshEnv).2.2.1 _ fanHeap _ ?_ ?_⟩
  · rw [((mesh_cache_invariant floatMeshEnv).2.2.2.1 fanHeap _ rfl).1]
    decide!
  · intro i j a b hne ha hb p hp hq
    rcases i with _ | _ | i
    · rcases j with _ | _ | j
      · exact hne rfl
      · simp at ha hb
        subst ha hb
        simp [NewMesh] at hp hq
        subst hp
        rcases hq with e | e <;> exact absurd e (by decide)
      · simp at hb
    · rcases j with _ | _ | j
      · simp at ha hb
        subst ha hb
        simp [NewMesh] at hp hq
        subst hq
        rcases hp with e | e <;> exact absurd e (by decide)
      · exact hne rfl
      · simp at hb
    · simp at ha
  · intro j b hb
    rcases j with _ | _ | j
    · simp at hb
      subst hb
      exact cacheOk_of_none _ _ rfl
    · simp at hb
      subst hb
      exact cacheOk_of_none _ _ rfl
    · simp at hb

/-- C16, the claim as written fails for two meshes built from the same
triangles: after `a := NewMesh(ts); b := NewMesh(ts); b.Compile();
a.Transform(M)`, with `M` the translation by `(1, 0, 0)`, the compiled
structure of `b` is present and holds the vertex `(0, 0, 0)`, while the first
vertex of its triangle is now `(1, 0, 0)`. -/
theorem mesh_cache_invariant_counterexample :
    (runAll floatMeshEnv [(1, MeshOp.compile), (0, MeshOp.transform ⟨1, 0, 0⟩)]
        (roughHeap, [NewMesh floatMeshEnv roughHeap [0], NewMesh floatMeshEnv roughHeap [0]])).2[1]?
      = some ⟨unitBox, [0], some [(⟨0, 0, 0⟩, ⟨1, 0, 0⟩, ⟨0, 1, 0⟩)]⟩ ∧
    ((runAll floatMeshEnv [(1, MeshOp.compile), (0, MeshOp.transform ⟨1, 0, 0⟩)]
        (roughHeap, [NewMesh floatMeshEnv roughHeap [0], NewMesh floatMeshEnv roughHeap [0]])).1 0).V1
      = ⟨1, 0, 0⟩ ∧
    ¬ CacheOk
      (runAll floatMeshEnv [(1, MeshOp.compile), (0, MeshOp.transform ⟨1, 0, 0⟩)]
        (roughHeap, [NewMesh floatMeshEnv roughHeap [0], NewMesh floatMeshEnv roughHeap [0]])).1
      ⟨unitBox, [0], some [(⟨0, 0, 0⟩, ⟨1, 0, 0⟩, ⟨0, 1, 0⟩)]⟩ := by
  have h1 : (runAll floatMeshEnv [(1, MeshOp.compile), (0, MeshOp.transform ⟨1, 0, 0⟩)]
        (roughHeap, [NewMesh floatMeshEnv roughHeap [0], NewMesh floatMeshEnv roughHeap [0]])).2[1]?
      = some ⟨unitBox, [0], some [(⟨0, 0, 0⟩, ⟨1, 0, 0⟩, ⟨0, 1, 0⟩)]⟩ := by decide!
  have h2 : ((runAll floatMeshEnv [(1, MeshOp.compile), (0, MeshOp.transform ⟨1, 0, 0⟩)]
        (roughHeap, [NewMesh floatMeshEnv roughHeap [0], NewMesh floatMeshEnv roughHeap [0]])).1 0).V1
      = ⟨1, 0, 0⟩ := by decide!
  refine ⟨h1, h2, fun hok => ?_⟩
  have h3 := (hok _ rfl).2 0 0 rfl
  rw [h2] at h3
  simp only [List.getElem?_cons_zero, Option.some.injEq, Prod.mk.injEq] at h3
  exact absurd h3.1 (by decide)

/-- C19 (as amended). On a mesh whose vertex positions have no NaN component
(each equals itself under `==`), after `SmoothNormals` the triangles of the
mesh are those of `smoothNormalsSpec`: every corner holds the normalized sum of
the pre-call normals of all corners of the mesh whose vertex position is `==`
to its own, and corners with `==` positions hold equal normals. On every mesh
the vertex positions and the box of every triangle, the mesh value (bounding
box and compiled structure) and every triangle outside the mesh are unchanged.
In exact real arithmetic a second `SmoothNormals` changes nothing when no sum
of normals at a vertex position is the zero vector. -/
theorem smoothNormals_result [PartialEquivBEq K] (E : MeshEnv K Mat) (h : Heap K) (m : Mesh K)
    (ER : MeshEnv ℝ MatR) (hR : Heap ℝ) (mR : Mesh ℝ) :
    ((∀ c ∈ corners (m.deref h), c.1.eq c.1 = true) →
      (m.SmoothNormals E h).2.deref (m.SmoothNormals E h).1 =
        smoothNormalsSpec E.Sqrt (m.deref h) ∧
      (∀ c ∈ corners ((m.SmoothNormals E h).2.deref (m.SmoothNormals E h).1),
        c.2 = (VectorOf.sum (normalsAt (m.deref h) c.1)).Normalize E.Sqrt) ∧
      (∀ c1 ∈ corners ((m.SmoothNormals E h).2.deref (m.SmoothNormals E h).1),
        ∀ c2 ∈ corners ((m.SmoothNormals E h).2.deref (m.SmoothNormals E h).1),
          c1.1.eq c2.1 = true → c1.2 = c2.2)) ∧
    ((m.SmoothNormals E h).2 = m ∧
      (∀ q, ((m.SmoothNormals E h).1 q).V1 = (h q).V1 ∧
        ((m.SmoothNormals E h).1 q).V2 = (h q).V2 ∧
        ((m.SmoothNormals E h).1 q).V3 = (h q).V3 ∧
        ((m.SmoothNormals E h).1 q).Box = (h q).Box) ∧
      ∀ q, q ∉ m.Triangles → (m.SmoothNormals E h).1 q = h q) ∧
    (ER.Sqrt = Real.sqrt →
      (∀ c ∈ corners (mR.deref hR),
        VectorOf.sum (normalsAt (mR.deref hR) c.1) ≠ VectorOf.zero) →
      (mR.SmoothNormals ER hR).2.SmoothNormals ER (mR.SmoothNormals ER hR).1 =
        mR.SmoothNormals ER hR) := by
  refine ⟨fun hrefl => ?_, smoothNormals_keeps E h m, fun hs h0 =>
    smoothNormals_twice ER hR mR hs h0⟩
  have hT := smoothNormals_eq_spec E h m hrefl
  have hc : ∀ c ∈ corners ((m.SmoothNormals E h).2.deref (m.SmoothNormals E h).1),
      c.2 = (VectorOf.sum (normalsAt (m.deref h) c.1)).Normalize E.Sqrt := by
    intro c hcm
    rw [hT] at hcm
    unfold smoothNormalsSpec at hcm
    rw [corners_withNormals] at hcm
    simp only [List.mem_map] at hcm
    obtain ⟨c0, _, rfl⟩ := hcm
    rfl
  refine ⟨hT, hc, fun c1 h1 c2 h2 he => ?_⟩
  rw [hc c1 h1, hc c2 h2, normalsAt_congr _ _ _ he]

theorem smoothNormals_result_witness :
    (Mesh.SmoothNormals floatMeshEnv fanHeap (NewMesh floatMeshEnv fanHeap [0, 1, 2])).2.deref
        (Mesh.SmoothNormals floatMeshEnv fanHeap (NewMesh floatMeshEnv fanHeap [0, 1, 2])).1 =
      smoothNormalsSpec floatMeshEnv.Sqrt
        ((NewMesh floatMeshEnv fanHeap [0, 1, 2]).deref fanHeap) ∧
    (Mesh.SmoothNormals (plainMeshEnv Real.sqrt Real.cos)
        (Mesh.SmoothNormals (plainMeshEnv Real.sqrt Real.cos) (fun _ => flatTriangle ⟨1, 1, 0⟩)
          ⟨⟨⟨0, 0, 0⟩, ⟨1, 1, 1⟩⟩, [0], none⟩).1 ⟨⟨⟨0, 0, 0⟩, ⟨1, 1, 1⟩⟩, [0], none⟩) =
      Mesh.SmoothNormals (plainMeshEnv Real.sqrt Real.cos) (fun _ => flatTriangle ⟨1, 1, 0⟩)
        ⟨⟨⟨0, 0, 0⟩, ⟨1, 1, 1⟩⟩, [0], none⟩ :=
  ⟨((smoothNormals_result floatMeshEnv fanHeap (NewMesh floatMeshEnv fanHeap [0, 1, 2])
        (plainMeshEnv Real.sqrt Real.cos) (fun _ => flatTriangle ⟨1, 1, 0⟩)
        ⟨⟨⟨0, 0, 0⟩, ⟨1, 1, 1⟩⟩, [0], none⟩).1 (by decide!)).1,
    (smoothNormals_result floatMeshEnv fanHeap (NewMesh floatMeshEnv fanHeap [0, 1, 2])
        (plainMeshEnv Real.sqrt Real.cos) (fun _ => flatTriangle ⟨1, 1, 0⟩)
        ⟨⟨⟨0, 0, 0⟩, ⟨1, 1, 1⟩⟩, [0], none⟩).2.2 rfl (by
      intro c hc
      simp only [Mesh.deref, List.map_cons, List.map_nil, corners, flatTriangle,
        List.flatMap_cons, List.flatMap_nil, List.append_nil, List.mem_cons, List.mem_singleton,
        List.not_mem_nil, or_false] at hc
      rcases hc with e | e | e <;> subst e <;>
        simp [Mesh.deref, corners, flatTriangle, normalsAt, VectorOf.sum, VectorOf.eq,
          VectorOf.Add, VectorOf.zero, List.filter_cons])⟩

/-- C19, the claim as written fails in binary64: on the mesh of one triangle
with the normal `(1, 1, 7)` at every corner, the sum at every vertex position
is `(1, 1, 7)`, not zero; the first `SmoothNormals` stores the normal
`(0.14002800840280097, 0.14002800840280097, 0.9801960588196068)` and the second
replaces it by
`(0.140028008402801, 0.140028008402801, 0.9801960588196069)`. -/
theorem smoothNormals_result_counterexample :
    VectorOf.sum (normalsAt ((NewMesh floatMeshEnv roughHeap [0]).deref roughHeap) ⟨0, 0, 0⟩) =
      ⟨1, 1, F64.fin 7⟩ ∧
    ((Mesh.SmoothNormals floatMeshEnv roughHeap (NewMesh floatMeshEnv roughHeap [0])).1 0).N1 =
      ⟨F64.fin (5045040691714297 / 36028797018963968),
        F64.fin (5045040691714297 / 36028797018963968),
        F64.fin (2207205302625005 / 2251799813685248)⟩ ∧
    ((Mesh.SmoothNormals floatMeshEnv
      (Mesh.SmoothNormals floatMeshEnv roughHeap (NewMesh floatMeshEnv roughHeap [0])).1
      (Mesh.SmoothNormals floatMeshEnv roughHeap (NewMesh floatMeshEnv roughHeap [0])).2).1 0).N1 =
      ⟨F64.fin (2522520345857149 / 18014398509481984),
        F64.fin (2522520345857149 / 18014398509481984),
        F64.fin (8828821210500021 / 9007199254740992)⟩ ∧
    Mesh.SmoothNormals floatMeshEnv
      (Mesh.SmoothNormals floatMeshEnv roughHeap (NewMesh floatMeshEnv roughHeap [0])).1
      (Mesh.SmoothNormals floatMeshEnv roughHeap (NewMesh floatMeshEnv roughHeap [0])).2 ≠
      Mesh.SmoothNormals floatMeshEnv roughHeap (NewMesh floatMeshEnv roughHeap [0]) := by
  have h1 : ((Mesh.SmoothNormals floatMeshEnv roughHeap
      (NewMesh floatMeshEnv roughHeap [0])).1 0).N1 =
      ⟨F64.fin (5045040691714297 / 36028797018963968),
        F64.fin (5045040691714297 / 36028797018963968),
        F64.fin (2207205302625005 / 2251799813685248)⟩ := by decide!
  have h2 : ((Mesh.SmoothNormals floatMeshEnv
      (Mesh.SmoothNormals floatMeshEnv roughHeap (NewMesh floatMeshEnv roughHeap [0])).1
      (Mesh.SmoothNormals floatMeshEnv roughHeap (NewMesh floatMeshEnv roughHeap [0])).2).1 0).N1 =
      ⟨F64.fin (2522520345857149 / 18014398509481984),
        F64.fin (2522520345857149 / 18014398509481984),
        F64.fin (8828821210500021 / 9007199254740992)⟩ := by decide!
  refine ⟨by decide!, h1, h2, fun he => ?_⟩
  have h3 := congrArg (fun s : Heap F64 × Mesh F64 => (s.1 0).N1) he
  simp only at h3
  rw [h1, h2] at h3
  exact absurd h3 (by decide!)

/-- C20 (as amended). On a mesh that lists no triangle twice,
`SmoothNormalsThreshold` gives every corner the normalized sum of the pre-call
normals at its vertex position whose dot product with the corner's own
pre-call normal is at least `cos(radians)`. In exact real arithmetic, on a
mesh whose corner normals are all unit vectors, with `cos(radians) = -1` it
gives the result of `SmoothNormals`, and with `cos(radians) = 1` it changes
nothing. -/
theorem smoothNormalsThreshold_extremes [PartialEquivBEq K] (E : MeshEnv K Mat) (h : Heap K)
    (m : Mesh K) (radians : K) (ER : MeshEnv ℝ MatR) (hR : Heap ℝ) (mR : Mesh ℝ) (radiansR : ℝ) :
    (m.Triangles.Nodup →
      (m.SmoothNormalsThreshold E h radians).2.deref (m.SmoothNormalsThreshold E h radians).1 =
        smoothNormalsThresholdSpec E.Sqrt (m.deref h) (E.Cos radians) ∧
      (m.SmoothNormalsThreshold E h radians).2 = m ∧
      ∀ q, q ∉ m.Triangles → (m.SmoothNormalsThreshold E h radians).1 q = h q) ∧
    (mR.Triangles.Nodup → (∀ c ∈ corners (mR.deref hR), c.2.Dot c.2 = 1) →
      ER.Cos radiansR = -1 →
      mR.SmoothNormalsThreshold ER hR radiansR = mR.SmoothNormals ER hR) ∧
    (ER.Sqrt = Real.sqrt → mR.Triangles.Nodup →
      (∀ c ∈ corners (mR.deref hR), c.2.Dot c.2 = 1) → ER.Cos radiansR = 1 →
      mR.SmoothNormalsThreshold ER hR radiansR = (hR, mR)) :=
  ⟨fun hn => ⟨smoothNormalsThreshold_eq_spec E h m radians hn,
      (smoothNormalsThreshold_keeps E h m radians).1,
      (smoothNormalsThreshold_keeps E h m radians).2.2⟩,
    fun hn hu hcos => threshold_neg_one ER hR mR radiansR hn hu hcos,
    fun hs hn hu hcos => threshold_one ER hR mR radiansR hs hn hu hcos⟩

theorem smoothNormalsThreshold_extremes_witness :
    (Mesh.SmoothNormalsThreshold floatMeshEnv fanHeap (NewMesh floatMeshEnv fanHeap [0, 1, 2])
        0).2.deref
      (Mesh.SmoothNormalsThreshold floatMeshEnv fanHeap (NewMesh floatMeshEnv fanHeap [0, 1, 2])
        0).1 =
      smoothNormalsThresholdSpec floatMeshEnv.Sqrt
        ((NewMesh floatMeshEnv fanHeap [0, 1, 2]).deref fanHeap) (floatMeshEnv.Cos 0) ∧
    Mesh.SmoothNormalsThreshold (plainMeshEnv Real.sqrt Real.cos)
        (fun _ => flatTriangle ⟨0, 0, 1⟩) ⟨⟨⟨0, 0, 0⟩, ⟨1, 1, 1⟩⟩, [0, 1], none⟩ Real.pi =
      Mesh.SmoothNormals (plainMeshEnv Real.sqrt Real.cos)
        (fun _ => flatTriangle ⟨0, 0, 1⟩) ⟨⟨⟨0, 0, 0⟩, ⟨1, 1, 1⟩⟩, [0, 1], none⟩ := by
  have hu : ∀ c ∈ corners ((⟨⟨⟨0, 0, 0⟩, ⟨1, 1, 1⟩⟩, [0, 1], none⟩ : Mesh ℝ).deref
      (fun _ => flatTriangle ⟨0, 0, 1⟩)), c.2.Dot c.2 = 1 := by
    intro c hc
    simp only [Mesh.deref, List.map_cons, List.map_nil, corners, flatTriangle,
      List.flatMap_cons, List.flatMap_nil, List.append_nil, List.mem_cons, List.mem_append,
      List.mem_singleton, List.not_mem_nil, or_false] at hc
    rcases hc with (e | e | e) | (e | e | e) <;> subst e <;> simp [VectorOf.Dot]
  exact ⟨((smoothNormalsThreshold_extremes floatMeshEnv fanHeap
        (NewMesh floatMeshEnv fanHeap [0, 1, 2]) 0 (plainMeshEnv Real.sqrt Real.cos)
        (fun _ => flatTriangle ⟨0, 0, 1⟩) ⟨⟨⟨0, 0, 0⟩, ⟨1, 1, 1⟩⟩, [0, 1], none⟩ Real.pi).1
        (by decide)).1,
    (smoothNormalsThreshold_extremes floatMeshEnv fanHeap
        (NewMesh floatMeshEnv fanHeap [0, 1, 2]) 0 (plainMeshEnv Real.sqrt Real.cos)
        (fun _ => flatTriangle ⟨0, 0, 1⟩) ⟨⟨⟨0, 0, 0⟩, ⟨1, 1, 1⟩⟩, [0, 1], none⟩ Real.pi).2.1
        (by decide) hu Real.cos_pi⟩

/-- C20, the claim as written fails in binary64: on three triangles that share
one vertex, every corner normal being `(0.6, 0, 0.8)`, whose dot product with
itself is `1` in binary64, `SmoothNormalsThreshold(0)` (threshold
`math.Cos(0) = 1`) replaces the normal at the shared vertex by
`(0.6, 0, 0.8000000000000002)`. -/
theorem smoothNormalsThreshold_extremes_counterexample :
    unitNormal.Dot unitNormal = 1 ∧ floatMeshEnv.Cos 0 = 1 ∧
    (fanHeap 0).N1 = unitNormal ∧
    ((Mesh.SmoothNormalsThreshold floatMeshEnv fanHeap (NewMesh floatMeshEnv fanHeap [0, 1, 2])
        0).1 0).N1 =
      ⟨F64.fin (5404319552844595 / 9007199254740992), 0,
        F64.fin (7205759403792795 / 9007199254740992)⟩ ∧
    ((Mesh.SmoothNormalsThreshold floatMeshEnv fanHeap (NewMesh floatMeshEnv fanHeap [0, 1, 2])
        0).1 0).N1 ≠ (fanHeap 0).N1 := by
  have h1 : ((Mesh.SmoothNormalsThreshold floatMeshEnv fanHeap
      (NewMesh floatMeshEnv fanHeap [0, 1, 2]) 0).1 0).N1 =
      ⟨F64.fin (5404319552844595 / 9007199254740992), 0,
        F64.fin (7205759403792795 / 9007199254740992)⟩ := by decide!
  refine ⟨by decide!, by decide!, rfl, h1, ?_⟩
  rw [h1]
  decide!

end MeshClaims

end pt
